import Mathlib

/-!
# Stratum client and work loop of `unified-aria-bitcoin-miner.js`

A shallow embedding of `StratumClient` and `UnifiedMiningEngine`
(src/unified-aria-bitcoin-miner.js) together with the properties of the
share-qualification predicate, the share accounting and the connection
life cycle.

Conventions of the embedding.

* JavaScript numbers are `JSNum`: `NaN`, the two infinities, or a finite value
  carried as an exact rational (every finite double is one).  Sums, products and
  quotients of finite values are exact.
* `Math.log2` returns a `Log2Val`: for a positive finite argument `q` it is the
  double nearest to the real number `log2 q`, kept symbolically as
  `Log2Val.ofPos q`.  A string length `z` is at least that double exactly when
  `log2 q` is at most `z` plus half the distance from `z` to the next double,
  and this is how `natGeLog2` compares them.
* Values that come out of `JSON.parse` are `JSVal`.
* Library functions that are not part of the repository (`JSON.parse`,
  SHA-256, `ToNumber`/`ToString` on strings and objects) are fields of `Host`.
* `Math.random()` and `Date.now()` are inputs of the operation that reads them.
* `log(...)` only prints; it is left out.
-/

namespace AriaMiner

/-! ## JavaScript values -/

/-- JavaScript number: `NaN`, `+Infinity`, `-Infinity` or a finite value. -/
inductive JSNum where
  | nan : JSNum
  | posInf : JSNum
  | negInf : JSNum
  | fin (q : ℚ) : JSNum
deriving DecidableEq

namespace JSNum

/-- The JavaScript comparison `a <= b` on numbers (false when either is `NaN`). -/
def le : JSNum → JSNum → Bool
  | .nan, _ => false
  | _, .nan => false
  | .negInf, _ => true
  | _, .posInf => true
  | .posInf, _ => false
  | _, .negInf => false
  | .fin a, .fin b => decide (a ≤ b)

/-- The JavaScript comparison `a < b` on numbers (false when either is `NaN`). -/
def lt : JSNum → JSNum → Bool
  | .nan, _ => false
  | _, .nan => false
  | _, .negInf => false
  | .posInf, _ => false
  | .negInf, _ => true
  | _, .posInf => true
  | .fin a, .fin b => decide (a < b)

/-- The JavaScript comparison `a > b`. -/
def gt (a b : JSNum) : Bool := lt b a

end JSNum

/-- Value of `Math.log2(x)`: `NaN`, `-Infinity`, `+Infinity`, or, for a positive
finite `q`, the double nearest to the real number `log2 q`. -/
inductive Log2Val where
  | nan : Log2Val
  | negInf : Log2Val
  | posInf : Log2Val
  | ofPos (q : ℚ) : Log2Val
deriving DecidableEq

/-- `Math.log2(x)`: `NaN` for `NaN` and negative arguments (`-Infinity` included),
`-Infinity` at zero, `+Infinity` at `+Infinity`. -/
def Math_log2 : JSNum → Log2Val
  | .nan => .nan
  | .posInf => .posInf
  | .negInf => .nan
  | .fin q => if q < 0 then .nan else if q = 0 then .negInf else .ofPos q

/-- The `k` for which `2 ^ (-k)` is half the distance from the double `z` to the
next larger double: the double after `0` is `2 ^ (-1074)`, and a double `z` with
`2 ^ e ≤ z < 2 ^ (e + 1)` has 52 binary digits after its leading one, so the next
one is `z + 2 ^ (e - 52)`.  `z` is the length of a string, which is below
`2 ^ 53`. -/
def halfGapExponent (z : Nat) : Nat :=
  if z = 0 then 1075 else 53 - min 52 (Nat.log2 z)

/-- The JavaScript comparison `z >= v` of a string length `z` with a value `v` of
`Math.log2`: false against `NaN` and `+Infinity`, true against `-Infinity`.
Against the double nearest to `log2 q` it is true exactly when `log2 q` is at most
`z + 2 ^ (-k)` with `k = halfGapExponent z`, that is when
`q ^ (2 ^ k) ≤ 2 ^ (z * 2 ^ k + 1)` (equality would need `2 ^ (z * 2 ^ k + 1)` to
be a `2 ^ k`-th power of a rational, which it is not).  The first three tests
decide the same comparison without the large power: with `q = 2 ^ z * (1 + x)` it
reads `2 ^ k * ln (1 + x) ≤ ln 2`, which holds when `x ≤ 0` and when
`2 ^ k * x ≤ 0.6931471803`, and fails when `0.6931471808 * (1 + x) ≤ 2 ^ k * x`,
since `x / (1 + x) ≤ ln (1 + x) ≤ x` and `0.6931471803 < ln 2 < 0.6931471808`. -/
def natGeLog2 (z : Nat) : Log2Val → Bool
  | .nan => false
  | .negInf => true
  | .posInf => false
  | .ofPos q =>
    if q ≤ 2 ^ z then true
    else if (q - 2 ^ z) * 2 ^ halfGapExponent z ≤ 6931471803 / 10000000000 * 2 ^ z then true
    else if 6931471808 / 10000000000 * q ≤ (q - 2 ^ z) * 2 ^ halfGapExponent z then false
    else decide (q ^ 2 ^ halfGapExponent z ≤ 2 ^ (z * 2 ^ halfGapExponent z + 1))

/-- Value produced by `JSON.parse`, or held in a field of the client. -/
inductive JSVal where
  | undefined : JSVal
  | null : JSVal
  | bool (b : Bool) : JSVal
  | num (n : JSNum) : JSVal
  | str (s : String) : JSVal
  | arr (xs : List JSVal) : JSVal
  | obj (fields : List (String × JSVal)) : JSVal

/-- Library functions the program calls that are not part of the repository. -/
structure Host where
  /-- `ToNumber` on strings, arrays and objects. -/
  objToNumber : JSVal → JSNum
  /-- `JSON.parse`; `none` when it throws a `SyntaxError`. -/
  jsonParse : String → Option JSVal
  /-- Hex digest of SHA-256 applied twice to the given text. -/
  sha256d : String → String
  /-- `ToString` of a value inside a template literal. -/
  toStr : JSVal → String
  /-- `s[i]` on a string `s`. -/
  strIndex : String → Nat → JSVal
  /-- `Number.prototype.toString(16)` on a finite number. -/
  toString16 : ℚ → String

/-- `ToNumber(v)`. -/
def toNumber (H : Host) : JSVal → JSNum
  | .undefined => .nan
  | .null => .fin 0
  | .bool true => .fin 1
  | .bool false => .fin 0
  | .num n => n
  | v => H.objToNumber v

/-- `ToBoolean(v)`. -/
def toBoolean : JSVal → Bool
  | .undefined => false
  | .null => false
  | .bool b => b
  | .num .nan => false
  | .num (.fin q) => decide (q ≠ 0)
  | .num _ => true
  | .str s => decide (s ≠ "")
  | .arr _ => true
  | .obj _ => true

/-! ## The share-qualification predicate -/

/-- Length of the match of `/^0+/` on `hash`, `0` when there is no match. -/
def leadingZeros (hash : String) : Nat :=
  (hash.toList.takeWhile (fun c => c == '0')).length

/-- `UnifiedMiningEngine._checkDifficulty(hash, difficulty)`. -/
def _checkDifficulty (H : Host) (hash : String) (difficulty : JSVal) : Bool :=
  let zeros := leadingZeros hash
  let requiredZeros := Math_log2 (toNumber H difficulty)
  natGeLog2 zeros requiredZeros

/-! ## Property access on parsed JSON -/

namespace JSVal

/-- `v.k` for one of the keys `method`, `params`, `result`, `id`, `error`;
`none` is the `TypeError` raised on `null` and `undefined`.  The fields of an
object are those `JSON.parse` produced, each key once. -/
def get? (v : JSVal) (k : String) : Option JSVal :=
  match v with
  | .undefined => none
  | .null => none
  | .obj fields => some ((fields.lookup k).getD .undefined)
  | _ => some .undefined

/-- `v[i]` for a numeric literal `i`; `none` is the `TypeError` raised on `null`
and `undefined`. -/
def index (H : Host) (v : JSVal) (i : Nat) : Option JSVal :=
  match v with
  | .undefined => none
  | .null => none
  | .arr xs => some (xs.getD i .undefined)
  | .str s => some (H.strIndex s i)
  | .obj fields => some ((fields.lookup (toString i)).getD .undefined)
  | _ => some .undefined

/-- `v === s` for a string literal `s`. -/
def strictEqStr (v : JSVal) (s : String) : Bool :=
  match v with
  | .str t => t == s
  | _ => false

/-- `v === n` for a numeric literal `n`. -/
def strictEqNum (v : JSVal) (n : ℚ) : Bool :=
  match v with
  | .num (.fin q) => q == n
  | _ => false

/-- `v !== undefined`. -/
def isDefined (v : JSVal) : Bool :=
  match v with
  | .undefined => false
  | _ => true

end JSVal

/-- Lower-case hexadecimal digits of `n`, as `n.toString(16)` gives them for a
non-negative integer. -/
def toHex (n : Nat) : String := String.mk (Nat.toDigits 16 n)

/-- `s.padStart(8, '0')`. -/
def padStart8 (s : String) : String :=
  String.mk (List.replicate (8 - s.length) '0') ++ s

/-- `s.substring(2, 10)`. -/
def substring2to10 (s : String) : String := String.mk ((s.toList.drop 2).take 8)

/-- A value of `Math.random()`: a number in `[0, 1)`. -/
structure Rand where
  val : ℚ
  nonneg : 0 ≤ val
  lt_one : val < 1

/-! ## StratumClient -/

/-- The object literal stored in `currentJob`. -/
structure Job where
  jobId : JSVal
  prevHash : JSVal
  coinbase1 : JSVal
  coinbase2 : JSVal
  merkleBranches : JSVal
  version : JSVal
  nbits : JSVal
  ntime : JSVal
  cleanJobs : JSVal

/-- A request object handed to `_send`. -/
structure Request where
  id : Nat
  method : String
  params : List JSVal

/-- The timer made by `setTimeout` in `connect`. -/
inductive Timer where
  | unset : Timer
  | pending : Timer
  | cleared : Timer
  | fired : Timer
deriving DecidableEq

/-- The promise returned by `connect`. -/
inductive Settled where
  | notCreated : Settled
  | pending : Settled
  | resolved (v : Bool) : Settled
  | rejected : Settled
deriving DecidableEq

/-- The socket returned by `net.createConnection`. -/
structure Socket where
  /-- Whether `_setupSocketHandlers` has installed the data and close handlers. -/
  handlersInstalled : Bool
  /-- The closure variable `buffer` of `_setupSocketHandlers`. -/
  buffer : List Char
  /-- The requests written with `socket.write`, oldest first; each stands for the
  line `JSON.stringify(message) + "\n"`. -/
  written : List Request
  /-- Whether `socket.end()` was called. -/
  ended : Bool

/-- The fields of a `StratumClient`, followed by the closure state of its one
`connect()` call (timer and returned promise). -/
structure StratumClient where
  host : String
  port : Nat
  workerName : String
  workerPassword : String
  socket : Option Socket
  connected : Bool
  subscribed : Bool
  authorized : JSVal
  messageId : Nat
  simulationMode : Bool
  difficulty : JSVal
  extranonce1 : JSVal
  extranonce2Size : JSVal
  currentJob : Option Job
  timer : Timer
  connectPromise : Settled

namespace StratumClient

/-- The constructor; `host` is the value of `host.replace('stratum+tcp://', '')`. -/
def new (host : String) (port : Nat) (workerName workerPassword : String) : StratumClient where
  host := host
  port := port
  workerName := workerName
  workerPassword := workerPassword
  socket := none
  connected := false
  subscribed := false
  authorized := .bool false
  messageId := 1
  simulationMode := false
  difficulty := .num (.fin 1)
  extranonce1 := .null
  extranonce2Size := .num (.fin 0)
  currentJob := none
  timer := .unset
  connectPromise := .notCreated

/-- `_setupSimulationMode()`, with `now` the value of `Date.now()`. -/
def _setupSimulationMode (c : StratumClient) (now : Nat) : StratumClient :=
  { c with
    connected := true
    subscribed := true
    authorized := .bool true
    extranonce1 := .str "00000000"
    extranonce2Size := .num (.fin 4)
    difficulty := .num (.fin 1)
    currentJob := some
      { jobId := .str "simulation_job_1"
        prevHash := .str (String.mk (List.replicate 64 '0'))
        coinbase1 := .str ""
        coinbase2 := .str ""
        merkleBranches := .arr []
        version := .str "00000001"
        nbits := .str "1d00ffff"
        ntime := .str (toHex (now / 1000))
        cleanJobs := .bool true } }

/-- `resolve(true)` on the promise of `connect`: settles it only when pending. -/
def resolveTrue (c : StratumClient) : StratumClient :=
  match c.connectPromise with
  | .pending => { c with connectPromise := .resolved true }
  | _ => c

/-- `clearTimeout(timeout)`: cancels the timer when it has not fired yet. -/
def clearTimeout (c : StratumClient) : StratumClient :=
  match c.timer with
  | .pending => { c with timer := .cleared }
  | _ => c

/-- The value of `s.split("\n")` on the characters of `s`. -/
def splitNL : List Char → List (List Char)
  | [] => [[]]
  | ch :: cs =>
    match splitNL cs with
    | [] => [[]]
    | l :: ls => if ch = '\n' then [] :: l :: ls else (ch :: l) :: ls

/-- White space and line terminators of JavaScript, the characters `trim()` strips. -/
def isJSWhiteSpace (ch : Char) : Bool :=
  [0x09, 0x0A, 0x0B, 0x0C, 0x0D, 0x20, 0xA0, 0x1680, 0x2028, 0x2029, 0x202F, 0x205F,
    0x3000, 0xFEFF].contains ch.toNat || (0x2000 ≤ ch.toNat && ch.toNat ≤ 0x200A)

/-- Truthiness of `line.trim()`: the line has a character that is not white space. -/
def trimTruthy (line : List Char) : Bool := line.any (fun ch => !isJSWhiteSpace ch)

/-- `_handleMiningNotify(params)`.  The second component tells whether a
`TypeError` was thrown (reading an index of `null` or `undefined`); the object
literal is evaluated before the assignment, so a throw leaves `currentJob` as it
was. -/
def _handleMiningNotify (H : Host) (c : StratumClient) (params : JSVal) :
    StratumClient × Bool :=
  let job : Option Job := do
    let p0 ← params.index H 0
    let p1 ← params.index H 1
    let p2 ← params.index H 2
    let p3 ← params.index H 3
    let p4 ← params.index H 4
    let p5 ← params.index H 5
    let p6 ← params.index H 6
    let p7 ← params.index H 7
    let p8 ← params.index H 8
    pure
      { jobId := p0, prevHash := p1, coinbase1 := p2, coinbase2 := p3, merkleBranches := p4,
        version := p5, nbits := p6, ntime := p7, cleanJobs := p8 }
  match job with
  | some j => ({ c with currentJob := some j }, false)
  | none => (c, true)

/-- `_handleResponse(message)`.  The second component tells whether a
`TypeError` was thrown; the assignments made before the throw stay. -/
def _handleResponse (H : Host) (c : StratumClient) (message : JSVal) :
    StratumClient × Bool :=
  match message.get? "id", message.get? "result" with
  | some id, some result =>
    if id.strictEqNum 1 then
      -- Subscribe response
      let c := { c with subscribed := true }
      match result.index H 1 with
      | none => (c, true)
      | some e1 =>
        let c := { c with extranonce1 := e1 }
        match result.index H 2 with
        | none => (c, true)
        | some e2 => ({ c with extranonce2Size := e2 }, false)
    else if id.strictEqNum 2 then
      -- Authorize response
      ({ c with authorized := result }, false)
    else if JSNum.gt (toNumber H id) (.fin 2) then
      -- Share submission response: both branches only print
      (c, false)
    else (c, false)
  | _, _ => (c, true)

/-- `_handleStratumMessage(message)`.  The second component tells whether a
`TypeError` was thrown. -/
def _handleStratumMessage (H : Host) (c : StratumClient) (message : JSVal) :
    StratumClient × Bool :=
  match message.get? "method", message.get? "params", message.get? "result",
      message.get? "id" with
  | some method, some params, some result, some id =>
    if method.strictEqStr "mining.notify" then
      c._handleMiningNotify H params
    else if method.strictEqStr "mining.set_difficulty" then
      match params.index H 0 with
      | none => (c, true)
      | some d => ({ c with difficulty := d }, false)
    else if result.isDefined && toBoolean id then
      c._handleResponse H message
    else (c, false)
  | _, _, _, _ => (c, true)

/-- The body of `lines.forEach` in the data handler: a blank line is skipped, a
line `JSON.parse` rejects is dropped, and an exception of the message handler
is caught as well. -/
def handleLine (H : Host) (c : StratumClient) (line : List Char) : StratumClient :=
  if trimTruthy line then
    match H.jsonParse (String.mk line) with
    | none => c
    | some message => (c._handleStratumMessage H message).1
  else c

/-- The data handler installed by `_setupSocketHandlers`, on the chunk
`data.toString()`. -/
def onData (H : Host) (c : StratumClient) (data : String) : StratumClient :=
  match c.socket with
  | none => c
  | some s =>
    let buffer := s.buffer ++ data.toList
    let lines := splitNL buffer
    let c := { c with socket := some { s with buffer := lines.getLast?.getD [] } }
    lines.dropLast.foldl (handleLine H) c

/-- The close handler installed by `_setupSocketHandlers`. -/
def onClose (c : StratumClient) : StratumClient :=
  { c with connected := false }

/-- `_setupSocketHandlers()`: a fresh `buffer`, and the two handlers installed. -/
def _setupSocketHandlers (c : StratumClient) : StratumClient :=
  match c.socket with
  | none => c
  | some s => { c with socket := some { s with handlersInstalled := true, buffer := [] } }

/-- The synchronous part of `connect()`: the executor of the promise sets the
timer and calls `net.createConnection`, which returns a socket or throws.  An
exception thrown inside the executor rejects the promise; the promise is
returned without `await`, so the `catch` block of `connect` does not run. -/
def connect (c : StratumClient) (createThrows : Bool) : StratumClient :=
  let c := { c with timer := .pending, connectPromise := .pending }
  if createThrows then
    { c with connectPromise := .rejected }
  else
    { c with
      socket := some { handlersInstalled := false, buffer := [], written := [], ended := false } }

/-- The callback of `setTimeout` in `connect`. -/
def onTimeout (c : StratumClient) (now : Nat) : StratumClient :=
  let c := { c with timer := .fired }
  let c := { c with simulationMode := true }
  let c := c._setupSimulationMode now
  c.resolveTrue

/-- The connection listener given to `net.createConnection`. -/
def onConnect (c : StratumClient) : StratumClient :=
  let c := c.clearTimeout
  let c := { c with connected := true }
  let c := c._setupSocketHandlers
  c.resolveTrue

/-- The error handler of the socket installed in `connect`. -/
def onError (c : StratumClient) (now : Nat) : StratumClient :=
  let c := c.clearTimeout
  let c := { c with simulationMode := true }
  let c := c._setupSimulationMode now
  c.resolveTrue

/-- `_send(message)`. -/
def _send (c : StratumClient) (message : Request) : StratumClient :=
  match c.socket with
  | some s =>
    if c.connected then { c with socket := some { s with written := s.written ++ [message] } }
    else c
  | none => c

/-- The part of `subscribe()` before `await sleep(500)`. -/
def subscribe (c : StratumClient) : StratumClient :=
  if c.simulationMode then
    { c with subscribed := true }
  else
    let subscribeMsg : Request :=
      { id := c.messageId, method := "mining.subscribe",
        params := [.str "unified-aria-miner/1.0"] }
    let c := { c with messageId := c.messageId + 1 }
    c._send subscribeMsg

/-- The part of `authorize()` before `await sleep(500)`. -/
def authorize (c : StratumClient) : StratumClient :=
  if c.simulationMode then
    { c with authorized := .bool true }
  else
    let authorizeMsg : Request :=
      { id := c.messageId, method := "mining.authorize",
        params := [.str c.workerName, .str c.workerPassword] }
    let c := { c with messageId := c.messageId + 1 }
    c._send authorizeMsg

/-- `submitShare(jobId, extranonce2, ntime, nonce)`: the returned boolean and the
client afterwards; `rand` is the value `Math.random()` gives in simulation mode. -/
def submitShare (c : StratumClient) (jobId extranonce2 ntime nonce : JSVal) (rand : Rand) :
    Bool × StratumClient :=
  if c.simulationMode then
    -- In simulation mode, randomly accept shares
    (decide (rand.val > 1 / 2), c)
  else
    let submitMsg : Request :=
      { id := c.messageId, method := "mining.submit",
        params := [.str c.workerName, jobId, extranonce2, ntime, nonce] }
    let c := { c with messageId := c.messageId + 1 }
    (true, c._send submitMsg)

/-- `disconnect()`. -/
def disconnect (c : StratumClient) : StratumClient :=
  let c :=
    match c.socket with
    | some s => { c with socket := some { s with ended := true } }
    | none => c
  { c with connected := false }

end StratumClient

/-- What can happen to a `StratumClient`: the calls of its methods and the
callbacks of its timer and socket. -/
inductive Event where
  | connect (createThrows : Bool) : Event
  | timeout (now : Nat) : Event
  | socketConnect : Event
  | socketError (now : Nat) : Event
  | socketData (chunk : String) : Event
  | socketClose : Event
  | subscribe : Event
  | authorize : Event
  | submitShare (jobId extranonce2 ntime nonce : JSVal) (rand : Rand) : Event
  | disconnect : Event

/-- Whether the event can occur in the state: `connect` is called once, the
timer fires only while pending, the connection listener runs once and only on
an existing socket, socket errors need a socket, and data and close events need
the handlers of `_setupSocketHandlers`. -/
def Event.enabled (c : StratumClient) : Event → Bool
  | .connect _ => c.timer == .unset
  | .timeout _ => c.timer == .pending
  | .socketConnect =>
    match c.socket with
    | some s => !s.handlersInstalled
    | none => false
  | .socketError _ => c.socket.isSome
  | .socketData _ =>
    match c.socket with
    | some s => s.handlersInstalled
    | none => false
  | .socketClose =>
    match c.socket with
    | some s => s.handlersInstalled
    | none => false
  | _ => true

/-- The client after an event; an event that cannot occur leaves it as it is. -/
def StratumClient.step (H : Host) (c : StratumClient) (ev : Event) : StratumClient :=
  if ev.enabled c then
    match ev with
    | .connect createThrows => c.connect createThrows
    | .timeout now => c.onTimeout now
    | .socketConnect => c.onConnect
    | .socketError now => c.onError now
    | .socketData chunk => c.onData H chunk
    | .socketClose => c.onClose
    | .subscribe => c.subscribe
    | .authorize => c.authorize
    | .submitShare jobId extranonce2 ntime nonce rand =>
      (c.submitShare jobId extranonce2 ntime nonce rand).2
    | .disconnect => c.disconnect
  else c

/-- The client after a sequence of events, from the first to the last. -/
def StratumClient.run (H : Host) (c : StratumClient) (evs : List Event) : StratumClient :=
  evs.foldl (StratumClient.step H) c

/-! ## UnifiedMiningEngine -/

/-- `CONFIG.MINER_THREADS`. -/
def CONFIG.MINER_THREADS : Nat := 4

/-- `CONFIG.QUANTUM_SPEEDUP_FACTOR`. -/
def CONFIG.QUANTUM_SPEEDUP_FACTOR : ℚ := 5 / 2

/-- The object `stats` of the engine. -/
structure Stats where
  hashesComputed : Int
  sharesFound : Nat
  sharesAccepted : Nat
  sharesRejected : Nat
  blocksFound : Nat
  btcEarned : ℚ
  startTime : Nat
  lastHashRateCheck : Nat
  hashesAtLastCheck : Int

/-- The fields of a `UnifiedMiningEngine`; `quantumNetwork` is stored and never
read by the engine, and is left out. -/
structure UnifiedMiningEngine where
  stratum : StratumClient
  stats : Stats
  quantumSpeedup : ℚ
  isRunning : Bool

/-- The values one pass of the loop over `CONFIG.MINER_THREADS` reads from
`Math.random()` and `Date.now()`, in the order of the source; a value on a path
not taken is not read. -/
structure ThreadDraws where
  /-- `Math.random()` of the nonce. -/
  nonceRand : Rand
  /-- `Date.now()` inside `_doubleSHA256`. -/
  hashClock : Nat
  /-- `Math.random()` of `extranonce2`. -/
  extranonce2Rand : Rand
  /-- `Date.now()` of `ntime`. -/
  ntimeClock : Nat
  /-- `Math.random()` inside `submitShare` (simulation mode). -/
  submitRand : Rand
  /-- `Math.random()` of the block-found test. -/
  blockRand : Rand

namespace UnifiedMiningEngine

/-- The constructor; `now1` and `now2` are its two readings of `Date.now()`. -/
def new (stratum : StratumClient) (now1 now2 : Nat) : UnifiedMiningEngine where
  stratum := stratum
  stats :=
    { hashesComputed := 0
      sharesFound := 0
      sharesAccepted := 0
      sharesRejected := 0
      blocksFound := 0
      btcEarned := 0
      startTime := now1
      lastHashRateCheck := now2
      hashesAtLastCheck := 0 }
  quantumSpeedup := CONFIG.QUANTUM_SPEEDUP_FACTOR
  isRunning := false

/-- `_doubleSHA256(job, nonce)`, with `now` the value of `Date.now()`. -/
def _doubleSHA256 (H : Host) (job : Job) (nonce : Nat) (now : Nat) : String :=
  let data := H.toStr job.prevHash ++ toString nonce ++ toString now
  H.sha256d data

/-- One pass of the body of the loop `for (let i = 0; i < CONFIG.MINER_THREADS; i++)`
of `_miningIteration`. -/
def miningThread (H : Host) (job : Job) (e : UnifiedMiningEngine) (d : ThreadDraws) :
    UnifiedMiningEngine :=
  let nonce := (Int.floor (d.nonceRand.val * 4294967295)).toNat
  let hash := _doubleSHA256 H job nonce d.hashClock
  -- Check if we found a share (simplified difficulty check)
  if _checkDifficulty H hash e.stratum.difficulty then
    let stats := { e.stats with sharesFound := e.stats.sharesFound + 1 }
    let extranonce2 := substring2to10 (H.toString16 d.extranonce2Rand.val)
    let ntime := toHex (d.ntimeClock / 1000)
    let nonceHex := padStart8 (toHex nonce)
    let r := e.stratum.submitShare job.jobId (.str extranonce2) (.str ntime) (.str nonceHex)
      d.submitRand
    let accepted := r.1
    let e := { e with stratum := r.2 }
    if accepted then
      let stats := { stats with sharesAccepted := stats.sharesAccepted + 1 }
      -- Simulate block finding (rare event)
      if d.blockRand.val < 1 / 1000 then
        { e with stats :=
            { stats with blocksFound := stats.blocksFound + 1, btcEarned := stats.btcEarned + 25 / 4 } }
      else
        { e with stats := stats }
    else
      { e with stats := { stats with sharesRejected := stats.sharesRejected + 1 } }
  else e

/-- `_miningIteration(iteration, total)`; `hashRand` is the first value of
`Math.random()` and `draws i` holds the values read in pass `i` of the loop. -/
def _miningIteration (H : Host) (e : UnifiedMiningEngine) (hashRand : Rand)
    (draws : Nat → ThreadDraws) : UnifiedMiningEngine :=
  match e.stratum.currentJob with
  | none => e
  | some job =>
    -- Apply quantum enhancement to mining
    let quantumEnhancedHashes := Int.floor (1000 * e.quantumSpeedup * hashRand.val)
    let e := { e with stats :=
      { e.stats with hashesComputed := e.stats.hashesComputed + quantumEnhancedHashes } }
    (List.range CONFIG.MINER_THREADS).foldl (fun e i => miningThread H job e (draws i)) e

end UnifiedMiningEngine

/-- What happens while the engine exists: a call of `_miningIteration`, or an
event of the client the engine holds in `stratum`. -/
inductive EngineStep where
  | iteration (hashRand : Rand) (draws : Nat → ThreadDraws) : EngineStep
  | client (ev : Event) : EngineStep

/-- The engine after one step. -/
def UnifiedMiningEngine.step (H : Host) (e : UnifiedMiningEngine) :
    EngineStep → UnifiedMiningEngine
  | .iteration hashRand draws => e._miningIteration H hashRand draws
  | .client ev => { e with stratum := e.stratum.step H ev }

/-- The engine after a sequence of steps, from the first to the last. -/
def UnifiedMiningEngine.run (H : Host) (e : UnifiedMiningEngine) (steps : List EngineStep) :
    UnifiedMiningEngine :=
  steps.foldl (UnifiedMiningEngine.step H) e

/-! ## Return values of the asynchronous client methods -/

/-- The value `subscribe()` resolves to: `true` at once in simulation mode,
otherwise `this.subscribed` as it is in the state `later`, after `sleep(500)`;
`c` is the client at the call. -/
def StratumClient.subscribeReturn (c later : StratumClient) : Bool :=
  if c.simulationMode then true else later.subscribed

/-- The value `authorize()` resolves to: `true` at once in simulation mode,
otherwise `this.authorized` as it is in the state `later`, after `sleep(500)`;
`c` is the client at the call. -/
def StratumClient.authorizeReturn (c later : StratumClient) : JSVal :=
  if c.simulationMode then .bool true else later.authorized

/-- The client with the closure variable `buffer` of the data handler of its
socket `s` set to `buffer`. -/
def StratumClient.withBuffer (c : StratumClient) (s : Socket) (buffer : List Char) :
    StratumClient :=
  { c with socket := some { s with buffer := buffer } }

/-- The characters of the given lines, each followed by a newline. -/
def terminated : List (List Char) → List Char
  | [] => []
  | l :: ls => l ++ '\n' :: terminated ls

/-- The characters of the given chunks, one after the other. -/
def concatChunks : List String → String
  | [] => ""
  | d :: ds => d ++ concatChunks ds

/-! ## The loop of `startMining` -/

/-- The object `getStats()` returns: a copy of `stats` taken before
`getHashRate()` runs, with `hashRate` and `efficiency`. -/
structure StatsReport where
  stats : Stats
  hashRate : ℚ
  efficiency : ℚ

namespace UnifiedMiningEngine

/-- `getHashRate()`, with `now` the value of `Date.now()`: the returned rate and
the engine afterwards. -/
def getHashRate (e : UnifiedMiningEngine) (now : Nat) : ℚ × UnifiedMiningEngine :=
  let timeDelta : ℚ := ((now : ℚ) - (e.stats.lastHashRateCheck : ℚ)) / 1000
  let hashesDelta : ℤ := e.stats.hashesComputed - e.stats.hashesAtLastCheck
  if timeDelta > 0 then
    ((hashesDelta : ℚ) / timeDelta,
      { e with stats :=
        { e.stats with lastHashRateCheck := now, hashesAtLastCheck := e.stats.hashesComputed } })
  else
    (0, e)

/-- `_displayStats()`: apart from printing it calls `getHashRate()`; `now` is the
value of `Date.now()` read there. -/
def _displayStats (e : UnifiedMiningEngine) (now : Nat) : UnifiedMiningEngine :=
  (e.getHashRate now).2

/-- `getStats()`, with `now` the value of `Date.now()` read by `getHashRate()`. -/
def getStats (e : UnifiedMiningEngine) (now : Nat) : StatsReport × UnifiedMiningEngine :=
  let r := e.getHashRate now
  ({ stats := e.stats
     hashRate := r.1
     efficiency :=
      if r.2.stats.sharesFound > 0 then
        (r.2.stats.sharesAccepted : ℚ) / (r.2.stats.sharesFound : ℚ) * 100
      else 0 },
    r.2)

/-- `stop()`. -/
def stop (e : UnifiedMiningEngine) : UnifiedMiningEngine :=
  { e with isRunning := false }

end UnifiedMiningEngine

/-- What other code does to the engine while `startMining` is suspended at an
`await`: `stop()`, the `getStats()` call of the evolution loop, the assignment
`quantumSpeedup *= 1.1` of `_executeDecision`, or an event of the client. -/
inductive Interference where
  | stop : Interference
  | getStats (now : Nat) : Interference
  | optimizeSpeedup : Interference
  | client (ev : Event) : Interference

/-- Whether the interference is a call of `stop()`. -/
def Interference.isStop : Interference → Bool
  | .stop => true
  | _ => false

/-- The engine after an interference. -/
def UnifiedMiningEngine.interfere (H : Host) (e : UnifiedMiningEngine) :
    Interference → UnifiedMiningEngine
  | .stop => e.stop
  | .getStats now => (e.getStats now).2
  | .optimizeSpeedup => { e with quantumSpeedup := e.quantumSpeedup * (11 / 10) }
  | .client ev => { e with stratum := e.stratum.step H ev }

/-- What one pass of the loop of `startMining` reads and meets: the random values
and clock readings of `_miningIteration`, the clock reading of `_displayStats`,
and what other code does during `await this._miningIteration(...)` and during
`await sleep(100)`. -/
structure LoopInput where
  hashRand : Rand
  draws : Nat → ThreadDraws
  displayClock : Nat
  afterIteration : List Interference
  duringSleep : List Interference

/-- Whether `stop()` is called during the pass. -/
def LoopInput.stops (inp : LoopInput) : Bool :=
  inp.afterIteration.any Interference.isStop || inp.duringSleep.any Interference.isStop

namespace UnifiedMiningEngine

/-- The body of the loop of `startMining` in pass `i`, up to the end of
`await sleep(100)`. -/
def loopBody (H : Host) (i : Nat) (inp : LoopInput) (e : UnifiedMiningEngine) :
    UnifiedMiningEngine :=
  let e := e._miningIteration H inp.hashRand inp.draws
  let e := inp.afterIteration.foldl (interfere H) e
  -- Display stats periodically
  let e := if i % 10 = 0 then e._displayStats inp.displayClock else e
  inp.duringSleep.foldl (interfere H) e

/-- The loop `for (let i = 0; i < iterations && this.isRunning; i++)` of
`startMining` with `remaining = iterations - i` passes to go: the engine at the
exit of the loop and the number of times the body was run. -/
def miningLoop (H : Host) (iterations : Nat) (inputs : Nat → LoopInput) :
    Nat → UnifiedMiningEngine → UnifiedMiningEngine × Nat
  | 0, e => (e, 0)
  | remaining + 1, e =>
    if e.isRunning then
      let i := iterations - (remaining + 1)
      let e := loopBody H i (inputs i) e
      let r := miningLoop H iterations inputs remaining e
      (r.1, r.2 + 1)
    else
      (e, 0)

/-- `startMining(iterations)`, with `now` the value of `Date.now()`: the returned
`stats`, the engine afterwards and the number of times the body of the loop was
run. -/
def startMining (H : Host) (e : UnifiedMiningEngine) (iterations : Nat) (now : Nat)
    (inputs : Nat → LoopInput) : Stats × UnifiedMiningEngine × Nat :=
  let e := { e with isRunning := true }
  let e := { e with stats := { e.stats with startTime := now } }
  let r := miningLoop H iterations inputs iterations e
  (r.1.stats, r.1, r.2)

end UnifiedMiningEngine

/-! ## SHA-256 -/

namespace Sha256

/-- The round constants of SHA-256 (FIPS 180-4, section 4.2.2). -/
def K : List Nat :=
  [
    0x428a2f98, 0x71374491, 0xb5c0fbcf, 0xe9b5dba5, 0x3956c25b, 0x59f111f1,
    0x923f82a4, 0xab1c5ed5, 0xd807aa98, 0x12835b01, 0x243185be, 0x550c7dc3,
    0x72be5d74, 0x80deb1fe, 0x9bdc06a7, 0xc19bf174, 0xe49b69c1, 0xefbe4786,
    0x0fc19dc6, 0x240ca1cc, 0x2de92c6f, 0x4a7484aa, 0x5cb0a9dc, 0x76f988da,
    0x983e5152, 0xa831c66d, 0xb00327c8, 0xbf597fc7, 0xc6e00bf3, 0xd5a79147,
    0x06ca6351, 0x14292967, 0x27b70a85, 0x2e1b2138, 0x4d2c6dfc, 0x53380d13,
    0x650a7354, 0x766a0abb, 0x81c2c92e, 0x92722c85, 0xa2bfe8a1, 0xa81a664b,
    0xc24b8b70, 0xc76c51a3, 0xd192e819, 0xd6990624, 0xf40e3585, 0x106aa070,
    0x19a4c116, 0x1e376c08, 0x2748774c, 0x34b0bcb5, 0x391c0cb3, 0x4ed8aa4a,
    0x5b9cca4f, 0x682e6ff3, 0x748f82ee, 0x78a5636f, 0x84c87814, 0x8cc70208,
    0x90befffa, 0xa4506ceb, 0xbef9a3f7, 0xc67178f2]

/-- The initial hash value of SHA-256 (FIPS 180-4, section 5.3.3). -/
def H0 : List Nat :=
  [
    0x6a09e667, 0xbb67ae85, 0x3c6ef372, 0xa54ff53a,
    0x510e527f, 0x9b05688c, 0x1f83d9ab, 0x5be0cd19]

/-- Addition of 32-bit words. -/
def add32 (a b : Nat) : Nat := (a + b) % 4294967296

/-- Rotation of a 32-bit word to the right by `n` bits. -/
def rotr (x n : Nat) : Nat := ((x >>> n) ||| (x <<< (32 - n))) % 4294967296

/-- The function `Ch` of FIPS 180-4. -/
def ch (x y z : Nat) : Nat := (x &&& y) ^^^ ((x ^^^ 4294967295) &&& z)

/-- The function `Maj` of FIPS 180-4. -/
def maj (x y z : Nat) : Nat := (x &&& y) ^^^ (x &&& z) ^^^ (y &&& z)

/-- The function `Σ0` of FIPS 180-4. -/
def bsig0 (x : Nat) : Nat := rotr x 2 ^^^ rotr x 13 ^^^ rotr x 22

/-- The function `Σ1` of FIPS 180-4. -/
def bsig1 (x : Nat) : Nat := rotr x 6 ^^^ rotr x 11 ^^^ rotr x 25

/-- The function `σ0` of FIPS 180-4. -/
def ssig0 (x : Nat) : Nat := rotr x 7 ^^^ rotr x 18 ^^^ (x >>> 3)

/-- The function `σ1` of FIPS 180-4. -/
def ssig1 (x : Nat) : Nat := rotr x 17 ^^^ rotr x 19 ^^^ (x >>> 10)

/-- The `count` low bytes of `n`, most significant first. -/
def bigEndian (count n : Nat) : List Nat :=
  (List.range count).map (fun i => (n >>> (8 * (count - 1 - i))) % 256)

/-- The padded message: the bytes, `0x80`, zeros up to 56 modulo 64, and the
length in bits as eight bytes. -/
def pad (msg : List Nat) : List Nat :=
  msg ++ 128 :: List.replicate ((64 - (msg.length + 9) % 64) % 64) 0
    ++ bigEndian 8 (8 * msg.length)

/-- The 32-bit words of a list of bytes, four bytes each, most significant first. -/
def toWords : List Nat → List Nat
  | a :: b :: c :: d :: rest => (((a * 256 + b) * 256 + c) * 256 + d) :: toWords rest
  | _ => []

/-- The message schedule: the sixteen words of the block extended to 64 words. -/
def schedule (w16 : List Nat) : List Nat :=
  (List.range 48).foldl
    (fun w _ =>
      let t := w.length
      w ++ [add32 (add32 (ssig1 (w.getD (t - 2) 0)) (w.getD (t - 7) 0))
        (add32 (ssig0 (w.getD (t - 15) 0)) (w.getD (t - 16) 0))])
    w16

/-- One round on the working variables `[a, b, c, d, e, f, g, h]`. -/
def round (v : List Nat) (kw : Nat × Nat) : List Nat :=
  match v with
  | [a, b, c, d, e, f, g, h] =>
    let t1 := add32 (add32 (add32 h (bsig1 e)) (add32 (ch e f g) kw.1)) kw.2
    let t2 := add32 (bsig0 a) (maj a b c)
    [add32 t1 t2, a, b, c, add32 d t1, e, f, g]
  | _ => v

/-- The compression of one block of sixteen words into the hash value `hash`. -/
def compress (hash : List Nat) (w16 : List Nat) : List Nat :=
  List.zipWith add32 hash ((K.zip (schedule w16)).foldl round hash)

/-- The blocks of sixteen words of a list of words. -/
def blocks : Nat → List Nat → List (List Nat)
  | 0, _ => []
  | n + 1, ws => ws.take 16 :: blocks n (ws.drop 16)

/-- The SHA-256 digest of a list of bytes, as 32 bytes. -/
def digest (msg : List Nat) : List Nat :=
  let ws := toWords (pad msg)
  ((blocks (ws.length / 16) ws).foldl compress H0).flatMap (bigEndian 4)

/-- The UTF-8 bytes of a text. -/
def utf8 (text : String) : List Nat :=
  text.toList.flatMap (fun ch => (String.utf8EncodeChar ch).map UInt8.toNat)

/-- The two lower-case hexadecimal digits of each byte. -/
def hex (bytes : List Nat) : String :=
  String.mk (bytes.flatMap (fun b => [Nat.digitChar (b / 16), Nat.digitChar (b % 16)]))

/-- The value of `sha256(sha256(text)).digest('hex')`: the second hash is taken
over the 32 bytes of the first. -/
def sha256d (text : String) : String := hex (digest (digest (utf8 text)))

end Sha256

/-! ## Sequences of requests -/

/-- A call of one of the three methods of the client that make a request. -/
inductive Call where
  | subscribe : Call
  | authorize : Call
  | submitShare (jobId extranonce2 ntime nonce : JSVal) (rand : Rand) : Call

/-- The client after a call. -/
def StratumClient.call (c : StratumClient) : Call → StratumClient
  | .subscribe => c.subscribe
  | .authorize => c.authorize
  | .submitShare jobId extranonce2 ntime nonce rand =>
    (c.submitShare jobId extranonce2 ntime nonce rand).2

/-- The client after consecutive calls, from the first to the last. -/
def StratumClient.callAll (c : StratumClient) (calls : List Call) : StratumClient :=
  calls.foldl StratumClient.call c


/-! ## The fields of a submitted share -/

/-- The value of `nonce` in a pass of the loop of `_miningIteration`. -/
def ThreadDraws.nonce (d : ThreadDraws) : Nat :=
  (Int.floor (d.nonceRand.val * 4294967295)).toNat

/-- The value of `nonceHex` in a pass of the loop of `_miningIteration`. -/
def ThreadDraws.nonceHex (d : ThreadDraws) : String := padStart8 (toHex d.nonce)

/-- The value of `extranonce2` in a pass of the loop of `_miningIteration`. -/
def ThreadDraws.extranonce2 (H : Host) (d : ThreadDraws) : String :=
  substring2to10 (H.toString16 d.extranonce2Rand.val)

/-- Whether the character is one of `0`..`9`, `a`..`f`. -/
def isLowerHexDigit (ch : Char) : Bool :=
  "0123456789abcdef".toList.contains ch

/-- The value of a hexadecimal digit, 0 for another character. -/
def hexDigitValue (ch : Char) : Nat :=
  "0123456789abcdef".toList.indexOf ch % 16

/-- The value of `parseInt(text, 16)` on a text of hexadecimal digits. -/
def parseHex (text : String) : Nat :=
  text.toList.foldl (fun acc ch => acc * 16 + hexDigitValue ch) 0

/-- The first `fuel` hexadecimal digits after the point of a number in `[0, 1)`,
up to the last digit that is not zero. -/
def hexFraction : Nat → ℚ → List Char
  | 0, _ => []
  | fuel + 1, q =>
    if q = 0 then []
    else Nat.digitChar (Int.floor (q * 16)).toNat :: hexFraction fuel (q * 16 - Int.floor (q * 16))

/-- The hexadecimal expansion of a number in `[0, 1)`, cut after 20 digits: `0` for
zero and `0.8` for one half, as `toString(16)` gives for them. -/
def hexExpansion (q : ℚ) : String :=
  if q = 0 then "0" else String.mk ('0' :: '.' :: hexFraction 20 q)

/-! ## AutonomousDecisionEngine -/

/-- The priorities a decision rule can have. -/
inductive Priority where
  | CRITICAL : Priority
  | HIGH : Priority
  | MEDIUM : Priority
  | LOW : Priority
deriving DecidableEq

/-- The table `priorities` of the comparator in `makeDecision`. -/
def Priority.rank : Priority → Nat
  | .CRITICAL => 3
  | .HIGH => 2
  | .MEDIUM => 1
  | .LOW => 0

/-- A value of the map `decisionRules`.  `condition` gets the metrics and the
value `Math.random()` gives when the rule reads it; `none` is a thrown exception. -/
structure DecisionRule where
  name : String
  condition : Host → JSVal → Rand → Option Bool
  action : String
  priority : Priority

/-- A decision: a triggered rule with its name, or the default decision, which
has no name. -/
structure Decision where
  name : Option String
  action : String
  priority : Priority
deriving DecidableEq

/-- An element of `decisionHistory`. -/
structure DecisionRecord where
  context : JSVal
  decision : Decision
  timestamp : Nat

/-- The fields of an `AutonomousDecisionEngine`; `decisionRules` lists the values
of the map in insertion order. -/
structure AutonomousDecisionEngine where
  decisionHistory : List DecisionRecord
  decisionRules : List DecisionRule
  autonomyLevel : ℚ
  learningRate : ℚ

namespace AutonomousDecisionEngine

/-- The rules set by `_initializeDecisionRules()`, in the order they are set. -/
def _initializeDecisionRules : List DecisionRule :=
  [ { name := "LOW_HASHRATE"
      condition := fun H metrics _ =>
        (metrics.get? "hashRate").map (fun v => JSNum.lt (toNumber H v) (.fin 1000000))
      action := "OPTIMIZE_QUANTUM_SPEEDUP"
      priority := .HIGH },
    { name := "HIGH_ERROR_RATE"
      condition := fun H metrics _ =>
        (metrics.get? "errorRate").map (fun v => JSNum.gt (toNumber H v) (.fin (1 / 10)))
      action := "INITIATE_SELF_HEALING"
      priority := .CRITICAL },
    { name := "CONSCIOUSNESS_LOW"
      condition := fun H metrics _ =>
        (metrics.get? "consciousness").map (fun v => JSNum.lt (toNumber H v) (.fin (1 / 2)))
      action := "EXPAND_CONSCIOUSNESS"
      priority := .MEDIUM },
    { name := "BRIDGE_OPPORTUNITY"
      condition := fun H metrics rand =>
        (metrics.get? "universes").map
          (fun v => JSNum.lt (toNumber H v) (.fin 10) && decide (rand.val > 7 / 10))
      action := "BRIDGE_TO_MULTIVERSE"
      priority := .MEDIUM } ]

/-- The constructor. -/
def new : AutonomousDecisionEngine where
  decisionHistory := []
  decisionRules := _initializeDecisionRules
  autonomyLevel := 4 / 5
  learningRate := 1 / 20

/-- The array `triggeredRules` after the loop over the rules: a rule whose
condition throws is skipped. -/
def triggeredRules (H : Host) (rules : List DecisionRule) (context : JSVal) (rand : Rand) :
    List Decision :=
  rules.filterMap (fun rule =>
    match rule.condition H context rand with
    | some true => some { name := some rule.name, action := rule.action, priority := rule.priority }
    | _ => none)

/-- The array after `sort` with the comparator
`priorities[b.priority] - priorities[a.priority]`: the sort of arrays is stable,
so it is the stable arrangement by falling rank. -/
def sortByPriority (rules : List Decision) : List Decision :=
  rules.insertionSort (fun a b => b.priority.rank ≤ a.priority.rank)

/-- The decision `makeDecision` returns when no rule is triggered. -/
def defaultDecision : Decision :=
  { name := none, action := "CONTINUE_MINING", priority := .LOW }

/-- `makeDecision(context)`: the decision and the engine afterwards; `rand` is the
value of `Math.random()` and `now` that of `Date.now()`. -/
def makeDecision (H : Host) (eng : AutonomousDecisionEngine) (context : JSVal) (rand : Rand)
    (now : Nat) : Decision × AutonomousDecisionEngine :=
  let triggered := sortByPriority (triggeredRules H eng.decisionRules context rand)
  let decision := triggered.headD defaultDecision
  (decision,
    { eng with
      decisionHistory := eng.decisionHistory ++
        [{ context := context, decision := decision, timestamp := now }] })

end AutonomousDecisionEngine

/-! ## The standalone MCP server -/

/-- A thrown `Error`: its `message` and its `stack`. -/
structure JsError where
  message : String
  stack : String

/-- The member `error` of an error response. -/
structure RpcError where
  code : Int
  message : String
  data : JSVal

/-- The object `createResponse` or `createError` hands to `JSON.stringify`; the
member that is not set is absent. -/
structure RpcResponse where
  jsonrpc : String
  id : JSVal
  result : Option JSVal
  error : Option RpcError

/-- Library functions and texts of the engine that `handleRequest` meets. -/
structure McpHost where
  /-- `JSON.parse`, with the error it throws on a text that is not JSON. -/
  parse : String → Except JsError JSVal
  /-- The `TypeError` thrown when `null` or `undefined` is destructured. -/
  destructureError : JsError
  /-- `ToString` of a value inside a template literal. -/
  toStr : JSVal → String
  /-- The `stack` of a `new Error(message)`. -/
  stackOf : String → String

namespace JSONRPCHandler

/-- `createResponse(id, result)`, before `JSON.stringify`. -/
def createResponse (id result : JSVal) : RpcResponse :=
  { jsonrpc := "2.0", id := id, result := some result, error := none }

/-- `createError(id, code, message, data)`, before `JSON.stringify`. -/
def createError (id : JSVal) (code : Int) (message : String) (data : JSVal) : RpcResponse :=
  { jsonrpc := "2.0", id := id, result := none,
    error := some { code := code, message := message, data := data } }

end JSONRPCHandler

namespace StandaloneConsciousAIMCPServer

/-- The names the `switch` of the `tools/call` handler knows. -/
def toolNames : List String :=
  ["introspect", "generate_qualia", "form_intention", "process_emotion", "conscious_think",
    "learn_experience", "quantum_process", "bridge_multiverse", "get_consciousness_state",
    "interact_consciously"]

/-- The handler of `tools/call`: `runTool name args` is what the case of a known
tool, with the wrapping of its result, returns or throws; an unknown name reaches
`throw new Error("Unknown tool: " + name)`. -/
def toolsCall (M : McpHost) (runTool : String → JSVal → Except JsError JSVal)
    (params : JSVal) : Except JsError JSVal :=
  match params.get? "name", params.get? "arguments" with
  | some name, some args =>
    match name with
    | .str n =>
      if toolNames.contains n then runTool n args
      else
        .error
          { message := "Unknown tool: " ++ M.toStr name
            stack := M.stackOf ("Unknown tool: " ++ M.toStr name) }
    | _ =>
      .error
        { message := "Unknown tool: " ++ M.toStr name
          stack := M.stackOf ("Unknown tool: " ++ M.toStr name) }
  | _, _ => .error M.destructureError

/-- The methods `_registerHandlers()` registers. -/
def registeredMethods : List String :=
  ["initialize", "tools/list", "tools/call", "resources/list", "resources/read", "prompts/list",
    "prompts/get"]

/-- The map `handlers`: `tools/call` as above; `others` stands for the bodies of
the other registered handlers. -/
def handlers (M : McpHost) (runTool : String → JSVal → Except JsError JSVal)
    (others : String → JSVal → Except JsError JSVal) (method : JSVal) :
    Option (JSVal → Except JsError JSVal) :=
  match method with
  | .str m =>
    if m = "tools/call" then some (toolsCall M runTool)
    else if registeredMethods.contains m then some (others m)
    else none
  | _ => none

/-- `handleRequest(request)`: the response object whose JSON text it returns. -/
def handleRequest (M : McpHost) (handlerOf : JSVal → Option (JSVal → Except JsError JSVal))
    (request : String) : RpcResponse :=
  let attempt : Except JsError RpcResponse :=
    match M.parse request with
    | .error e => .error e
    | .ok parsed =>
      match parsed.get? "id", parsed.get? "method", parsed.get? "params" with
      | some id, some method, some params =>
        match handlerOf method with
        | none =>
          .ok (JSONRPCHandler.createError id (-32601) ("Method not found: " ++ M.toStr method)
            .null)
        | some handler =>
          match handler params with
          | .error e => .error e
          | .ok result => .ok (JSONRPCHandler.createResponse id result)
      | _, _, _ => .error M.destructureError
  match attempt with
  | .ok response => response
  | .error e =>
    JSONRPCHandler.createError .null (-32603) ("Internal error: " ++ e.message)
      (.obj [("stack", .str e.stack)])

end StandaloneConsciousAIMCPServer

/-! ## SecureUserProfileManager -/

/-- An element of `interactions`. -/
structure Interaction where
  topic : JSVal
  content : JSVal
  timestamp : Nat

/-- The object `preferences` of a profile. -/
structure Preferences where
  name : String
  interests : JSVal
  goals : JSVal
  reminderTopics : JSVal

/-- A user profile object. -/
structure UserProfile where
  userId : String
  username : String
  preferences : Preferences
  interactions : List Interaction
  createdAt : Nat
  lastSeen : Nat

/-- The fields of a `SecureUserProfileManager`.  `users` lists the entries of the
map in insertion order, each key once; `currentUser` is the key of the profile
object the field refers to, which is always an object held in the map. -/
structure SecureUserProfileManager where
  users : List (String × UserProfile)
  currentUser : Option String
  sessionId : Option String

/-- The values of `Date.now()` read by one call of `registerUser`, in the order of
the source (the second and third only when a profile is created), and the value
of `crypto.randomBytes(16).toString('hex')`. -/
structure RegisterReadings where
  idClock : Nat
  createdClock : Nat
  seenClock : Nat
  lastClock : Nat
  session : String

namespace SecureUserProfileManager

/-- The constructor. -/
def new : SecureUserProfileManager where
  users := []
  currentUser := none
  sessionId := none

/-- `_generateSecureUserId(username)`, with `sha256hex` the hexadecimal SHA-256
digest of a text and `now` the value of `Date.now()`. -/
def _generateSecureUserId (sha256hex : String → String) (username : String) (now : Nat) :
    String :=
  String.mk ((sha256hex (username ++ toString now)).toList.take 16)

/-- The value of `x || []`. -/
def orEmptyArray (x : JSVal) : JSVal :=
  if toBoolean x then x else .arr []

/-- `registerUser(username, preferences)`: the returned profile and the manager
afterwards; `none` when reading a member of `preferences` throws (it is `null`).
An omitted `preferences` is `.obj []`. -/
def registerUser (sha256hex : String → String) (m : SecureUserProfileManager)
    (username : String) (preferences : JSVal) (r : RegisterReadings) :
    Option (UserProfile × SecureUserProfileManager) :=
  -- Create a secure user ID (NOT from SSN or sensitive data)
  let userId := _generateSecureUserId sha256hex username r.idClock
  let entered : Option (List (String × UserProfile)) :=
    if (m.users.lookup userId).isSome then
      some m.users
    else
      match preferences.get? "interests", preferences.get? "goals",
          preferences.get? "reminderTopics" with
      | some interests, some goals, some reminderTopics =>
        some (m.users ++
          [(userId,
            { userId := userId
              username := username
              preferences :=
                { name := username
                  interests := orEmptyArray interests
                  goals := orEmptyArray goals
                  reminderTopics := orEmptyArray reminderTopics }
              interactions := []
              createdAt := r.createdClock
              lastSeen := r.seenClock })])
      | _, _, _ => none
  match entered with
  | none => none
  | some users =>
    let users := users.map (fun kv =>
      if kv.1 = userId then (kv.1, { kv.2 with lastSeen := r.lastClock }) else kv)
    match users.lookup userId with
    | some profile =>
      some (profile, { users := users, currentUser := some userId, sessionId := some r.session })
    | none => none

/-- `rememberInteraction(topic, content)`, with `now` the value of `Date.now()`. -/
def rememberInteraction (m : SecureUserProfileManager) (topic content : JSVal) (now : Nat) :
    SecureUserProfileManager :=
  match m.currentUser with
  | none => m
  | some userId =>
    { m with
      users := m.users.map (fun kv =>
        if kv.1 = userId then
          (kv.1, { kv.2 with
            interactions := kv.2.interactions ++
              [{ topic := topic, content := content, timestamp := now }] })
        else kv) }

end SecureUserProfileManager

/-! ## TaskSchedulerExecutor -/

/-- What `await task.function()` does: it gives a value or throws one. -/
inductive TaskOutcome where
  | returns (value : JSVal) : TaskOutcome
  | throws (error : JSVal) : TaskOutcome

/-- A task object of the scheduler; `function` stands for what calling
`task.function` does, and the members set only during execution are absent until
then.  Priorities are finite numbers. -/
structure Task where
  id : String
  name : String
  function : TaskOutcome
  schedule : String
  priority : ℚ
  createdAt : Nat
  status : String
  startedAt : Option Nat
  completedAt : Option Nat
  duration : Option Int
  result : Option JSVal
  error : Option JSVal
  success : Option Bool

/-- The fields of a `TaskSchedulerExecutor`. -/
structure TaskSchedulerExecutor where
  taskQueue : List Task
  scheduledTasks : List (String × Task)
  completedTasks : List Task
  isRunning : Bool
  executionInterval : Nat

namespace TaskSchedulerExecutor

/-- The constructor. -/
def new : TaskSchedulerExecutor where
  taskQueue := []
  scheduledTasks := []
  completedTasks := []
  isRunning := false
  executionInterval := 1000

/-- `scheduleTask(task, schedule)`; `taskId` is the text made from `Date.now()` and
`Math.random()`, `priority` is `task.priority` (`none` when absent) and `now` the
value of `Date.now()` for `createdAt`. -/
def scheduleTask (s : TaskSchedulerExecutor) (taskId name : String) (function : TaskOutcome)
    (priority : Option ℚ) (schedule : String) (now : Nat) : String × TaskSchedulerExecutor :=
  let scheduledTask : Task :=
    { id := taskId
      name := name
      function := function
      schedule := schedule
      priority :=
        match priority with
        | some p => if p = 0 then 5 else p
        | none => 5
      createdAt := now
      status := "SCHEDULED"
      startedAt := none
      completedAt := none
      duration := none
      result := none
      error := none
      success := none }
  if schedule = "immediate" then
    (taskId, { s with taskQueue := s.taskQueue ++ [scheduledTask] })
  else
    (taskId, { s with scheduledTasks := s.scheduledTasks ++ [(taskId, scheduledTask)] })

/-- The task object at the end of the `try`/`catch` of `_executeNextTask`, with
`now1` and `now2` the values of `Date.now()`; `none` when the `catch` block itself
throws, which reading `error.message` does on `null` and `undefined`. -/
def runTask (task : Task) (now1 now2 : Nat) : Option Task :=
  let task := { task with status := "EXECUTING", startedAt := some now1 }
  match task.function with
  | .returns value =>
    some
      { task with
        status := "COMPLETED"
        completedAt := some now2
        duration := some ((now2 : Int) - (now1 : Int))
        result := some value
        success := some true }
  | .throws error =>
    let task := { task with status := "FAILED" }
    match error.get? "message" with
    | none => none
    | some message => some { task with error := some message, success := some false }

/-- The array after `taskQueue.sort((a, b) => b.priority - a.priority)`: the sort
of arrays is stable, so it is the stable arrangement by falling priority. -/
def sortQueue (queue : List Task) : List Task :=
  queue.insertionSort (fun a b => b.priority ≤ a.priority)

/-- `_executeNextTask()`: the executor afterwards, and whether the call throws. -/
def _executeNextTask (s : TaskSchedulerExecutor) (now1 now2 : Nat) :
    TaskSchedulerExecutor × Bool :=
  -- Sort by priority
  match sortQueue s.taskQueue with
  | [] => ({ s with taskQueue := [] }, false)
  | task :: rest =>
    match runTask task now1 now2 with
    | some done =>
      ({ s with taskQueue := rest, completedTasks := s.completedTasks ++ [done] }, false)
    | none => ({ s with taskQueue := rest }, true)

end TaskSchedulerExecutor

/-! ## Decoding of the chunks a socket delivers -/

/-- The character U+FFFD, which the decoder puts where the bytes are not UTF-8. -/
def replacementChar : Char := Char.ofNat 0xFFFD

/-- State of the UTF-8 decoder inside a character: the bits of the code point read
so far, the number of continuation bytes still to come, and the range the next
byte has to lie in. -/
structure Utf8State where
  codePoint : Nat
  needed : Nat
  lower : Nat
  upper : Nat

/-- What the decoder does with the byte `b` when no character is open: the
characters it gives out, and the state when `b` opens a character of several
bytes. -/
def utf8Lead (b : Nat) : List Char × Option Utf8State :=
  if b ≤ 0x7F then ([Char.ofNat b], none)
  else if 0xC2 ≤ b ∧ b ≤ 0xDF then ([], some ⟨b % 32, 1, 0x80, 0xBF⟩)
  else if 0xE0 ≤ b ∧ b ≤ 0xEF then
    ([], some ⟨b % 16, 2, if b = 0xE0 then 0xA0 else 0x80, if b = 0xED then 0x9F else 0xBF⟩)
  else if 0xF0 ≤ b ∧ b ≤ 0xF4 then
    ([], some ⟨b % 8, 3, if b = 0xF0 then 0x90 else 0x80, if b = 0xF4 then 0x8F else 0xBF⟩)
  else ([replacementChar], none)

/-- UTF-8 decoding of a sequence of bytes: a byte that cannot continue the open
character ends it with U+FFFD and is read again as the start of a character, and
a character still open at the end of the bytes gives U+FFFD. -/
def utf8Decode : Option Utf8State → List Nat → List Char
  | none, [] => []
  | some _, [] => [replacementChar]
  | none, b :: bs => (utf8Lead b).1 ++ utf8Decode (utf8Lead b).2 bs
  | some st, b :: bs =>
    if st.lower ≤ b ∧ b ≤ st.upper then
      if st.needed = 1 then Char.ofNat (st.codePoint * 64 + b % 64) :: utf8Decode none bs
      else utf8Decode (some ⟨st.codePoint * 64 + b % 64, st.needed - 1, 0x80, 0xBF⟩) bs
    else replacementChar :: ((utf8Lead b).1 ++ utf8Decode (utf8Lead b).2 bs)

/-- `data.toString()` on the `Buffer` of a `data` event, given as its bytes: each
chunk is decoded on its own, from the start state. -/
def Buffer.toString (data : List Nat) : String := String.mk (utf8Decode none data)

/-- The data handler installed by `_setupSocketHandlers`, on the `Buffer` the
socket delivers (no encoding is set on the socket). -/
def StratumClient.onDataBuffer (H : Host) (c : StratumClient) (data : List Nat) :
    StratumClient :=
  c.onData H (Buffer.toString data)


/-- A host whose library functions are trivial, for evaluating the model on
concrete inputs that do not reach them. -/
def sampleHost : Host where
  objToNumber := fun _ => .nan
  jsonParse := fun _ => none
  sha256d := fun _ => ""
  toStr := fun _ => ""
  strIndex := fun _ _ => .undefined
  toString16 := fun _ => "0"

/-- A host whose `sha256d` is SHA-256 applied twice and whose `toStr` returns a
string value as it is (other values, which the inputs used with this host do not
contain, give the empty text). -/
def shaHost : Host :=
  { sampleHost with
    sha256d := Sha256.sha256d
    toStr := fun v =>
      match v with
      | .str text => text
      | _ => "" }

/-- A value of `Math.random()`: zero. -/
def randZero : Rand := ⟨0, le_refl 0, by norm_num⟩

/-- A value of `Math.random()`: three quarters. -/
def randHigh : Rand := ⟨3 / 4, by norm_num, by norm_num⟩

/-- Readings of one pass of the loop: every random value zero, the clock at zero. -/
def sampleDraws : ThreadDraws where
  nonceRand := randZero
  hashClock := 0
  extranonce2Rand := randZero
  ntimeClock := 0
  submitRand := randZero
  blockRand := randHigh

/-- A client as the constructor makes it. -/
def freshClient : StratumClient := StratumClient.new "pool.example" 3333 "worker1" "x"

/-- A client whose `connect()` ended in a socket error when the clock read zero. -/
def simClient : StratumClient := (freshClient.connect false).onError 0

/-- The job `_setupSimulationMode` stores when the clock reads zero. -/
def simJob : Job where
  jobId := .str "simulation_job_1"
  prevHash := .str (String.mk (List.replicate 64 '0'))
  coinbase1 := .str ""
  coinbase2 := .str ""
  merkleBranches := .arr []
  version := .str "00000001"
  nbits := .str "1d00ffff"
  ntime := .str (toHex 0)
  cleanJobs := .bool true

/-- An engine built on the client in simulation mode. -/
def simEngine : UnifiedMiningEngine := UnifiedMiningEngine.new simClient 0 0

/-- A 64-digit hash with exactly eight leading zero digits. -/
def hashEightZeros : String :=
  "00000000ffffffffffffffffffffffffffffffffffffffffffffffffffffffff"

/-- A client whose `connect()` ended with the connection established. -/
def connectedClient : StratumClient := (freshClient.connect false).onConnect

/-- The message `mining.notify` of a pool, as `JSON.parse` returns it. -/
def notifyMsg : JSVal :=
  .obj
    [("id", .null), ("method", .str "mining.notify"),
      ("params",
        .arr
          [.str "job1", .str "00ff", .str "01", .str "02", .arr [], .str "20000000",
            .str "1d00ffff", .str "65a0c000", .bool true])]

/-- A connected client after `subscribe()`, `authorize()` and a job notification. -/
def liveClient : StratumClient :=
  (connectedClient.subscribe.authorize._handleStratumMessage sampleHost notifyMsg).1

/-- An engine built on the connected client. -/
def liveEngine : UnifiedMiningEngine := UnifiedMiningEngine.new liveClient 0 0

/-- The response of a pool that declines the share submitted with request id 3. -/
def rejectMsg : JSVal :=
  .obj
    [("id", .num (.fin 3)), ("result", .bool false),
      ("error", .arr [.num (.fin 23), .str "Low difficulty share", .null])]

/-- The socket of `connectedClient`: handlers installed, nothing received or written. -/
def connectedSocket : Socket where
  handlersInstalled := true
  buffer := []
  written := []
  ended := false

/-- The arguments of one `submitShare` call. -/
def sampleShare : JSVal × JSVal × JSVal × JSVal × Rand :=
  (.str "job1", .str "00000000", .str "65a0c000", .str "0000002a", randZero)

/-- A response object of a pool, with the keys `id`, `result` and `error`. -/
def responseMsg (id result error : JSVal) : JSVal :=
  .obj [("id", id), ("result", result), ("error", error)]

/-- Consecutive calls of `submitShare`, one for each element of `shares`. -/
def StratumClient.submitAll (c : StratumClient)
    (shares : List (JSVal × JSVal × JSVal × JSVal × Rand)) : StratumClient :=
  shares.foldl (fun c a => (c.submitShare a.1 a.2.1 a.2.2.1 a.2.2.2.1 a.2.2.2.2).2) c

/-- The id and method of every request written to the socket, oldest first. -/
def StratumClient.writtenIds (c : StratumClient) : List (Nat × String) :=
  match c.socket with
  | some s => s.written.map (fun r => (r.id, r.method))
  | none => []

/-- The counters of `b` are not below those of `a`, and `sharesAccepted` has grown
by no more than `sharesFound`. -/
def Stats.NoDecrease (a b : Stats) : Prop :=
  a.hashesComputed ≤ b.hashesComputed ∧ a.sharesFound ≤ b.sharesFound ∧
    a.sharesAccepted ≤ b.sharesAccepted ∧ a.sharesRejected ≤ b.sharesRejected ∧
    a.blocksFound ≤ b.blocksFound ∧ a.btcEarned ≤ b.btcEarned ∧
    b.sharesAccepted + a.sharesFound ≤ a.sharesAccepted + b.sharesFound

/-- A pass of the loop of `startMining` during which nothing else happens. -/
def quietInput : LoopInput where
  hashRand := randZero
  draws := fun _ => sampleDraws
  displayClock := 0
  afterIteration := []
  duringSleep := []

/-- A pass of the loop of `startMining` during whose sleep `stop()` is called. -/
def stoppingInput : LoopInput :=
  { quietInput with duringSleep := [.stop] }

/-- The state the spec calls simulation mode: `simulationMode` true, the static
job present, the three connection flags true, difficulty 1 and the fixed
extranonce values. -/
def CompleteSimulationState (c : StratumClient) : Prop :=
  c.simulationMode = true ∧
    (∃ job, c.currentJob = some job ∧
      job.jobId = .str "simulation_job_1" ∧
      job.prevHash = .str "0000000000000000000000000000000000000000000000000000000000000000" ∧
      job.merkleBranches = .arr [] ∧
      job.cleanJobs = .bool true) ∧
    c.connected = true ∧ c.subscribed = true ∧ c.authorized = .bool true ∧
    c.difficulty = .num (.fin 1) ∧
    c.extranonce1 = .str "00000000" ∧
    c.extranonce2Size = .num (.fin 4)

/-- The message `mining.set_difficulty` of a pool with difficulty 8, as `JSON.parse`
returns it. -/
def setDifficultyMsg : JSVal :=
  .obj [("id", .null), ("method", .str "mining.set_difficulty"), ("params", .arr [.num (.fin 8)])]

/-- An engine built on a client that has no job yet. -/
def idleEngine : UnifiedMiningEngine := UnifiedMiningEngine.new connectedClient 0 0

/-- The line a pool sends to decline the share submitted with request id 3. -/
def rejectLine : String :=
  "\x7b\"id\":3,\"result\":false,\"error\":[23,\"Low difficulty share\",null]\x7d"

/-- A host whose `JSON.parse` knows the line `rejectLine`. -/
def poolHost : Host :=
  { sampleHost with jsonParse := fun line => if line = rejectLine then some rejectMsg else none }

/-- A chunk of four lines: a response, a line that is not JSON, the response again,
and the beginning of a line whose newline has not arrived. -/
def chunkWithBadLine : String :=
  rejectLine ++ "\nnot json\n" ++ rejectLine ++ "\npart"

/-- An engine in simulation mode after one `_miningIteration` that computed 1875
hashes. -/
def minedEngine : UnifiedMiningEngine :=
  simEngine._miningIteration sampleHost randHigh (fun _ => sampleDraws)

/-- The ids of the requests written to the socket, oldest first, are strictly
increasing, at least 1 and below `messageId`. -/
def StratumClient.IdsIncreasing (c : StratumClient) : Prop :=
  1 ≤ c.messageId ∧
    (c.writtenIds.map Prod.fst).Pairwise (fun a b => a < b) ∧
    ∀ i ∈ c.writtenIds.map Prod.fst, 1 ≤ i ∧ i < c.messageId

/-- The line of a `mining.notify` message for the job `job1`. -/
def notifyLine : String :=
  "\x7b\"id\":null,\"method\":\"mining.notify\",\"params\":[\"job1\",\"00ff\",\"01\",\"02\",[],\"20000000\",\"1d00ffff\",\"65a0c000\",true]\x7d"

/-- The line of a `mining.set_difficulty` message with difficulty 8. -/
def setDifficultyLine : String :=
  "\x7b\"id\":null,\"method\":\"mining.set_difficulty\",\"params\":[8]\x7d"

/-- The line by which a pool refuses the subscription made with request id 1. -/
def subscribeFailLine : String :=
  "\x7b\"id\":1,\"result\":null,\"error\":[20,\"Not supported\",null]\x7d"

/-- The response object of `subscribeFailLine`. -/
def subscribeFailMsg : JSVal :=
  responseMsg (.num (.fin 1)) .null (.arr [.num (.fin 20), .str "Not supported", .null])

/-- The line by which a pool accepts the subscription made with request id 1. -/
def subscribeOkLine : String :=
  "\x7b\"id\":1,\"result\":[[[\"mining.notify\",\"ae6812eb\"]],\"08000002\",4],\"error\":null\x7d"

/-- The response object of `subscribeOkLine`. -/
def subscribeOkMsg : JSVal :=
  responseMsg (.num (.fin 1))
    (.arr [.arr [.arr [.str "mining.notify", .str "ae6812eb"]], .str "08000002", .num (.fin 4)])
    .null

/-- A host whose `JSON.parse` knows the five lines above and rejects every other
text. -/
def wireHost : Host :=
  { sampleHost with
    jsonParse := fun line =>
      if line = notifyLine then some notifyMsg
      else if line = setDifficultyLine then some setDifficultyMsg
      else if line = subscribeFailLine then some subscribeFailMsg
      else if line = subscribeOkLine then some subscribeOkMsg
      else if line = rejectLine then some rejectMsg
      else none }

/-- The connected client after the socket has closed. -/
def closedClient : StratumClient := liveClient.step sampleHost .socketClose

/-- An engine built on the client whose socket has closed. -/
def closedEngine : UnifiedMiningEngine := UnifiedMiningEngine.new closedClient 0 0

/-- The timer of `connect` fires, then the socket connects after all, and the
pool sends a job and a difficulty. -/
def lateConnectEvents : List Event :=
  [.connect false, .timeout 5000, .socketConnect,
    .socketData (notifyLine ++ "\n" ++ setDifficultyLine ++ "\n")]

/-- The socket connects, the pool accepts the subscription and sends a job and a
difficulty, and then the socket reports an error. -/
def errorAfterConnectEvents : List Event :=
  [.connect false, .socketConnect, .subscribe,
    .socketData (subscribeOkLine ++ "\n" ++ notifyLine ++ "\n" ++ setDifficultyLine ++ "\n"),
    .socketError 1700000000000]

/-- A value of `Math.random()`: one half. -/
def randHalf : Rand := ⟨1 / 2, by norm_num, by norm_num⟩

/-- Readings of one pass of the loop in which `Math.random()` gives one half for
`extranonce2`. -/
def halfDraws : ThreadDraws := { sampleDraws with extranonce2Rand := randHalf }

/-- A host that parses the lines of `wireHost` and whose `toString16` is the
hexadecimal expansion. -/
def hexHost : Host := { wireHost with toString16 := hexExpansion }

/-- A connected client whose subscription the pool has accepted with
`extranonce2Size` 4 and which has received the job `job1`. -/
def subscribedClient : StratumClient :=
  freshClient.run wireHost
    [.connect false, .socketConnect, .subscribe,
      .socketData (subscribeOkLine ++ "\n" ++ notifyLine ++ "\n")]

/-- An engine built on the subscribed client. -/
def subscribedEngine : UnifiedMiningEngine := UnifiedMiningEngine.new subscribedClient 0 0

/-- The request line that calls the tool `nope` with the id 7. -/
def unknownToolLine : String :=
  "\x7b\"jsonrpc\":\"2.0\",\"id\":7,\"method\":\"tools/call\",\"params\":\x7b\"name\":\"nope\",\"arguments\":\x7b\x7d\x7d\x7d"

/-- The request object of `unknownToolLine`. -/
def unknownToolRequest : JSVal :=
  .obj
    [("jsonrpc", .str "2.0"), ("id", .num (.fin 7)), ("method", .str "tools/call"),
      ("params", .obj [("name", .str "nope"), ("arguments", .obj [])])]

/-- The request line that calls the method `nope/method` with the id 8. -/
def unknownMethodLine : String :=
  "\x7b\"jsonrpc\":\"2.0\",\"id\":8,\"method\":\"nope/method\"\x7d"

/-- The request object of `unknownMethodLine`. -/
def unknownMethodRequest : JSVal :=
  .obj [("jsonrpc", .str "2.0"), ("id", .num (.fin 8)), ("method", .str "nope/method")]

/-- A host whose `parse` knows the two request lines above. -/
def mcpHost : McpHost where
  parse := fun text =>
    if text = unknownToolLine then .ok unknownToolRequest
    else if text = unknownMethodLine then .ok unknownMethodRequest
    else .error { message := "Unexpected token", stack := "" }
  destructureError := { message := "Cannot destructure", stack := "" }
  toStr := shaHost.toStr
  stackOf := fun _ => ""

/-- The handlers of the server with tools and other handlers that return `null`. -/
def mcpHandlers : JSVal → Option (JSVal → Except JsError JSVal) :=
  StandaloneConsciousAIMCPServer.handlers mcpHost (fun _ _ => .ok .null) (fun _ _ => .ok .null)

/-- The hexadecimal SHA-256 digest of a text. -/
def sha256hex (text : String) : String := Sha256.hex (Sha256.digest (Sha256.utf8 text))

/-- The readings of a call of `registerUser` during which the clock stays at `now`. -/
def readingsAt (now : Nat) (session : String) : RegisterReadings where
  idClock := now
  createdClock := now
  seenClock := now
  lastClock := now
  session := session

/-- The manager after `registerUser('alice')` at clock 1700000000000 and one
remembered interaction. -/
def managerWithAlice : SecureUserProfileManager :=
  (((SecureUserProfileManager.new.registerUser sha256hex "alice" (.obj [])
      (readingsAt 1700000000000 "00112233445566778899aabbccddeeff")).map Prod.snd).getD
    SecureUserProfileManager.new).rememberInteraction (.str "goals") (.str "learn Lean")
    1700000000000

/-- The second `registerUser('alice')`, one millisecond later. -/
def aliceAgain : Option (UserProfile × SecureUserProfileManager) :=
  managerWithAlice.registerUser sha256hex "alice" (.obj [])
    (readingsAt 1700000000001 "ffeeddccbbaa99887766554433221100")

/-- An executor with two immediate tasks: `report`, of priority 1, whose function
returns, and `cleanup`, of priority 9, whose function throws `undefined`. -/
def executorWithThrowingTask : TaskSchedulerExecutor :=
  ((TaskSchedulerExecutor.new.scheduleTask "TASK-1-a" "report" (.returns .null) (some 1)
      "immediate" 0).2.scheduleTask "TASK-2-b" "cleanup" (.throws .undefined) (some 9)
      "immediate" 0).2

/-- A 64-digit hash with exactly 49 leading zero digits. -/
def hashFortyNineZeros : String :=
  "00000000000000000000000000000000000000000000000009f3a7c21b5e8d40"

/-- The bytes of the UTF-8 form of a character. -/
def utf8EncodeChar (ch : Char) : List Nat :=
  if ch.toNat < 0x80 then [ch.toNat]
  else if ch.toNat < 0x800 then [0xC0 + ch.toNat / 64, 0x80 + ch.toNat % 64]
  else if ch.toNat < 0x10000 then
    [0xE0 + ch.toNat / 4096, 0x80 + ch.toNat / 64 % 64, 0x80 + ch.toNat % 64]
  else
    [0xF0 + ch.toNat / 262144, 0x80 + ch.toNat / 4096 % 64, 0x80 + ch.toNat / 64 % 64,
      0x80 + ch.toNat % 64]

/-- The bytes a pool writes for a text. -/
def utf8Bytes (text : String) : List Nat := text.toList.flatMap utf8EncodeChar

/-- The line of a `mining.notify` message whose job id is the given text. -/
def notifyLineFor (jobId : String) : String :=
  "\x7b\"id\":null,\"method\":\"mining.notify\",\"params\":[\"" ++ jobId
    ++ "\",\"00ff\",\"01\",\"02\",[],\"20000000\",\"1d00ffff\",\"65a0c000\",true]\x7d"

/-- The message `mining.notify` with the given job id, as `JSON.parse` returns it. -/
def notifyMsgFor (jobId : String) : JSVal :=
  .obj
    [("id", .null), ("method", .str "mining.notify"),
      ("params",
        .arr
          [.str jobId, .str "00ff", .str "01", .str "02", .arr [], .str "20000000",
            .str "1d00ffff", .str "65a0c000", .bool true])]

/-- The job id `jobé`, whose last character takes the two bytes `C3 A9`. -/
def accentJobId : String := "job" ++ String.singleton (Char.ofNat 0xE9)

/-- The job id `job` followed by two characters U+FFFD. -/
def brokenJobId : String := "job" ++ String.mk [replacementChar, replacementChar]

/-- The bytes of the notification of the job `jobé`, with its newline. -/
def accentStream : List Nat := utf8Bytes (notifyLineFor accentJobId ++ "\n")

/-- A host whose `JSON.parse` knows the notification lines of the job ids `jobé`
and `job` with two U+FFFD, and rejects every other text. -/
def utf8Host : Host :=
  { sampleHost with
    jsonParse := fun line =>
      if line = notifyLineFor accentJobId then some (notifyMsgFor accentJobId)
      else if line = notifyLineFor brokenJobId then some (notifyMsgFor brokenJobId)
      else none }


/-! ## Properties of the share-qualification predicate -/

theorem take_eq_replicate_zero_iff (l : List Char) (k : Nat) :
    l.take k = List.replicate k '0' ↔ k ≤ (l.takeWhile (fun c => c == '0')).length := by
  induction l generalizing k with
  | nil =>
    cases k with
    | zero => simp
    | succ k => simp [List.replicate_succ]
  | cons a l ih =>
    cases k with
    | zero => simp
    | succ k =>
      by_cases ha : a = '0'
      · subst ha
        simp [List.replicate_succ, List.takeWhile_cons, ih]
      · simp [List.replicate_succ, List.takeWhile_cons, ha]

theorem startsWithZeros_iff (h : String) (k : Nat) :
    h.toList.take k = List.replicate k '0' ↔ k ≤ leadingZeros h :=
  take_eq_replicate_zero_iff h.toList k

theorem halfGapExponent_pos (z : Nat) : 1 ≤ halfGapExponent z := by
  unfold halfGapExponent
  split
  · omega
  · omega

theorem pow_le_of_le_two_pow (q : ℚ) (z n : Nat) (hq : 0 < q) (hle : q ≤ 2 ^ z) :
    q ^ n ≤ 2 ^ (z * n + 1) := by
  calc q ^ n ≤ (2 ^ z) ^ n := pow_le_pow_left₀ hq.le hle n
    _ = 2 ^ (z * n) := by rw [pow_mul]
    _ ≤ 2 ^ (z * n + 1) := pow_le_pow_right₀ (by norm_num) (by omega)

theorem lt_pow_of_gap_lt (q : ℚ) (z n : Nat) (hn : 0 < n)
    (hlt : 2 ^ z * (1 + 1 / (n : ℚ)) < q) : 2 ^ (z * n + 1) < q ^ n := by
  have hn' : (0 : ℚ) < n := by exact_mod_cast hn
  have hb : (2 : ℚ) ≤ (1 + 1 / (n : ℚ)) ^ n := by
    have := one_add_mul_le_pow (show (-2 : ℚ) ≤ 1 / (n : ℚ) by
      have : (0 : ℚ) ≤ 1 / (n : ℚ) := by positivity
      linarith) n
    have h2 : (1 : ℚ) + (n : ℚ) * (1 / (n : ℚ)) = 2 := by
      field_simp
      norm_num
    linarith
  have hpos : (0 : ℚ) < 2 ^ z * (1 + 1 / (n : ℚ)) := by positivity
  calc (2 : ℚ) ^ (z * n + 1) = (2 ^ z) ^ n * 2 := by rw [pow_succ, pow_mul]
    _ ≤ (2 ^ z) ^ n * (1 + 1 / (n : ℚ)) ^ n := by
        apply mul_le_mul_of_nonneg_left hb
        positivity
    _ = (2 ^ z * (1 + 1 / (n : ℚ))) ^ n := by rw [mul_pow]
    _ < q ^ n := pow_lt_pow_left₀ hlt hpos.le (by omega)

theorem one_add_pow_le_two_of_mul_le (x : ℚ) (n : Nat) (hx : 0 ≤ x)
    (hle : x * n ≤ 6931471803 / 10000000000) : (1 + x) ^ n ≤ 2 := by
  have hx' : (0 : ℝ) ≤ (x : ℝ) := by exact_mod_cast hx
  have hle' : (x : ℝ) * n ≤ 6931471803 / 10000000000 := by
    have h := (Rat.cast_le (K := ℝ)).mpr hle
    push_cast at h
    exact h
  have hlog : (x : ℝ) * n ≤ Real.log 2 := by
    have := Real.log_two_gt_d9
    norm_num at this
    linarith
  have hreal : (1 + (x : ℝ)) ^ n ≤ 2 := by
    calc (1 + (x : ℝ)) ^ n ≤ Real.exp (x : ℝ) ^ n := by
          apply pow_le_pow_left₀ (by linarith)
          have := Real.add_one_le_exp (x : ℝ)
          linarith
      _ = Real.exp ((x : ℝ) * n) := by rw [← Real.exp_nat_mul, mul_comm]
      _ ≤ Real.exp (Real.log 2) := Real.exp_le_exp.mpr hlog
      _ = 2 := Real.exp_log (by norm_num)
  exact_mod_cast hreal

theorem two_lt_one_add_pow_of_le_mul (x : ℚ) (n : Nat) (hx : 0 ≤ x)
    (hle : 6931471808 / 10000000000 * (1 + x) ≤ x * n) : 2 < (1 + x) ^ n := by
  have hx' : (0 : ℝ) ≤ (x : ℝ) := by exact_mod_cast hx
  have hpos : (0 : ℝ) < 1 + (x : ℝ) := by linarith
  have hle' : (6931471808 / 10000000000 : ℝ) * (1 + (x : ℝ)) ≤ (x : ℝ) * n := by
    have h := (Rat.cast_le (K := ℝ)).mpr hle
    push_cast at h
    exact h
  have hlog2 : Real.log 2 < 6931471808 / 10000000000 := by
    have := Real.log_two_lt_d9
    norm_num at this
    linarith
  have hlog1 : 1 - (1 + (x : ℝ))⁻¹ ≤ Real.log (1 + (x : ℝ)) :=
    Real.one_sub_inv_le_log_of_pos hpos
  have hfrac : 1 - (1 + (x : ℝ))⁻¹ = (x : ℝ) / (1 + (x : ℝ)) := by
    field_simp
  have hn : Real.log 2 < n * Real.log (1 + (x : ℝ)) := by
    have h1 : (6931471808 / 10000000000 : ℝ) ≤ n * ((x : ℝ) / (1 + (x : ℝ))) := by
      rw [← mul_div_assoc, le_div_iff₀ hpos]
      linarith
    have h2 : (n : ℝ) * ((x : ℝ) / (1 + (x : ℝ))) ≤ n * Real.log (1 + (x : ℝ)) := by
      apply mul_le_mul_of_nonneg_left _ (Nat.cast_nonneg n)
      rw [← hfrac]
      exact hlog1
    linarith
  have hreal : (2 : ℝ) < (1 + (x : ℝ)) ^ n := by
    rw [← Real.log_lt_log_iff (by norm_num) (by positivity), Real.log_pow]
    exact hn
  exact_mod_cast hreal

theorem pow_eq_two_pow_mul (q : ℚ) (z n : Nat) :
    q ^ n = (2 ^ z) ^ n * (1 + (q - 2 ^ z) / 2 ^ z) ^ n := by
  rw [← mul_pow]
  congr 1
  field_simp

theorem natGeLog2_ofPos (z : Nat) (q : ℚ) (hq : 0 < q) :
    natGeLog2 z (.ofPos q) = true ↔
      q ^ 2 ^ halfGapExponent z ≤ 2 ^ (z * 2 ^ halfGapExponent z + 1) := by
  have hz : (0 : ℚ) < 2 ^ z := by positivity
  have hsplit : (2 : ℚ) ^ (z * 2 ^ halfGapExponent z + 1)
      = (2 ^ z) ^ 2 ^ halfGapExponent z * 2 := by rw [pow_succ, pow_mul]
  simp only [natGeLog2]
  split_ifs with h1 h2 h3
  · simp only [true_iff]
    exact pow_le_of_le_two_pow q z _ hq h1
  · simp only [true_iff]
    have hx : 0 ≤ (q - 2 ^ z) / 2 ^ z := by
      apply div_nonneg _ hz.le
      linarith [not_le.mp h1]
    have hb := one_add_pow_le_two_of_mul_le ((q - 2 ^ z) / 2 ^ z) (2 ^ halfGapExponent z) hx
      (by
        have e1 : (q - 2 ^ z) / 2 ^ z * 2 ^ halfGapExponent z
            = (q - 2 ^ z) * 2 ^ halfGapExponent z / 2 ^ z := by ring
        rw [Nat.cast_pow, Nat.cast_ofNat, e1, div_le_iff₀ hz]
        exact h2)
    rw [pow_eq_two_pow_mul q z, hsplit]
    exact mul_le_mul_of_nonneg_left hb (by positivity)
  · have hx : 0 ≤ (q - 2 ^ z) / 2 ^ z := by
      apply div_nonneg _ hz.le
      linarith [not_le.mp h1]
    have hb := two_lt_one_add_pow_of_le_mul ((q - 2 ^ z) / 2 ^ z) (2 ^ halfGapExponent z) hx
      (by
        have e1 : (q - 2 ^ z) / 2 ^ z * 2 ^ halfGapExponent z
            = (q - 2 ^ z) * 2 ^ halfGapExponent z / 2 ^ z := by ring
        have e2 : (6931471808 / 10000000000 : ℚ) * (1 + (q - 2 ^ z) / 2 ^ z)
            = 6931471808 / 10000000000 * q / 2 ^ z := by
          field_simp
        rw [Nat.cast_pow, Nat.cast_ofNat, e1, e2]
        exact div_le_div_of_nonneg_right h3 hz.le)
    have hlt : (2 : ℚ) ^ (z * 2 ^ halfGapExponent z + 1) < q ^ 2 ^ halfGapExponent z := by
      rw [pow_eq_two_pow_mul q z, hsplit]
      exact mul_lt_mul_of_pos_left hb (by positivity)
    constructor
    · intro hf
      exact absurd hf (by simp)
    · intro hle
      exact absurd hle (not_le.mpr hlt)
  · simp only [decide_eq_true_eq]

theorem natGeLog2_le_gap (z : Nat) (q : ℚ) (hq : 0 < q) (h : natGeLog2 z (.ofPos q) = true) :
    q ≤ 2 ^ z * (1 + 1 / 2 ^ halfGapExponent z) := by
  rw [natGeLog2_ofPos z q hq] at h
  by_contra hlt
  have := lt_pow_of_gap_lt q z (2 ^ halfGapExponent z) (by positivity)
      (by push_cast; exact not_le.mp hlt)
  exact absurd h (not_le.mpr this)

theorem one_add_half_pow_le_two (n : Nat) (hn : 0 < n) :
    (1 + 1 / (2 * (n : ℚ))) ^ n ≤ 2 := by
  have hn' : (0 : ℚ) < n := by exact_mod_cast hn
  have hy : (1 : ℚ) / 2 ≤ (1 + -(1 / (2 * (n : ℚ) + 1))) ^ n := by
    have hb := one_add_mul_le_pow (show (-2 : ℚ) ≤ -(1 / (2 * (n : ℚ) + 1)) by
      have : (1 : ℚ) / (2 * (n : ℚ) + 1) ≤ 1 := by
        rw [div_le_one (by positivity)]
        linarith
      linarith) n
    have h2 : (1 : ℚ) / 2 ≤ 1 + (n : ℚ) * -(1 / (2 * (n : ℚ) + 1)) := by
      rw [mul_neg, mul_one_div, ← sub_eq_add_neg, le_sub_iff_add_le, ← le_sub_iff_add_le']
      rw [div_le_iff₀ (by positivity)]
      linarith
    linarith
  have hprod : (1 + 1 / (2 * (n : ℚ))) * (1 + -(1 / (2 * (n : ℚ) + 1))) = 1 := by
    field_simp
  have hpow : (1 + 1 / (2 * (n : ℚ))) ^ n * (1 + -(1 / (2 * (n : ℚ) + 1))) ^ n = 1 := by
    rw [← mul_pow, hprod, one_pow]
  have hpos : (0 : ℚ) < (1 + 1 / (2 * (n : ℚ))) ^ n := by positivity
  nlinarith

theorem natGeLog2_of_le_half_gap (z : Nat) (q : ℚ) (hq : 0 < q)
    (hle : q ≤ 2 ^ z * (1 + 1 / (2 * 2 ^ halfGapExponent z))) :
    natGeLog2 z (.ofPos q) = true := by
  rw [natGeLog2_ofPos z q hq]
  have h2 := one_add_half_pow_le_two (2 ^ halfGapExponent z) (by positivity)
  push_cast at h2
  calc q ^ 2 ^ halfGapExponent z
      ≤ (2 ^ z * (1 + 1 / (2 * 2 ^ halfGapExponent z))) ^ 2 ^ halfGapExponent z :=
        pow_le_pow_left₀ hq.le hle _
    _ = (2 ^ z) ^ 2 ^ halfGapExponent z
          * (1 + 1 / (2 * 2 ^ halfGapExponent z)) ^ 2 ^ halfGapExponent z := by rw [mul_pow]
    _ ≤ (2 ^ z) ^ 2 ^ halfGapExponent z * 2 := by
        apply mul_le_mul_of_nonneg_left h2
        positivity
    _ = 2 ^ (z * 2 ^ halfGapExponent z + 1) := by rw [pow_succ, pow_mul]

theorem natGeLog2_two_pow (z j : Nat) : natGeLog2 z (.ofPos (2 ^ j)) = true ↔ j ≤ z := by
  rw [natGeLog2_ofPos z _ (by positivity), ← pow_mul]
  rw [pow_le_pow_iff_right₀ (by norm_num)]
  have hk := halfGapExponent_pos z
  have h2 : 2 ≤ 2 ^ halfGapExponent z := by
    calc 2 = 2 ^ 1 := by norm_num
      _ ≤ 2 ^ halfGapExponent z := Nat.pow_le_pow_right (by norm_num) hk
  constructor
  · intro h
    by_contra hlt
    have hz : z + 1 ≤ j := by omega
    have := Nat.mul_le_mul_right (2 ^ halfGapExponent z) hz
    nlinarith
  · intro h
    have := Nat.mul_le_mul_right (2 ^ halfGapExponent z) h
    omega

theorem natGeLog2_iff_logb (z : Nat) (q : ℚ) (hq : 0 < q) :
    natGeLog2 z (.ofPos q) = true ↔
      Real.logb 2 (q : ℝ) ≤ (z : ℝ) + 1 / 2 ^ halfGapExponent z := by
  rw [natGeLog2_ofPos z q hq]
  have hq' : (0 : ℝ) < (q : ℝ) := by exact_mod_cast hq
  have hN : (0 : ℝ) < 2 ^ halfGapExponent z := by positivity
  have hcast : q ^ 2 ^ halfGapExponent z ≤ 2 ^ (z * 2 ^ halfGapExponent z + 1) ↔
      (q : ℝ) ^ 2 ^ halfGapExponent z ≤ 2 ^ (z * 2 ^ halfGapExponent z + 1) := by
    constructor
    · intro h
      exact_mod_cast h
    · intro h
      exact_mod_cast h
  rw [hcast, ← Real.logb_le_logb (b := 2) (by norm_num) (by positivity) (by positivity)]
  rw [Real.logb_pow, Real.logb_pow, Real.logb_self_eq_one (by norm_num)]
  push_cast
  rw [mul_one, ← le_div_iff₀' hN]
  have : ((z : ℝ) * 2 ^ halfGapExponent z + 1) / 2 ^ halfGapExponent z
      = (z : ℝ) + 1 / 2 ^ halfGapExponent z := by
    field_simp
  rw [this]

theorem checkDifficulty_fin_pos (H : Host) (h : String) (D : ℚ) (hD : 0 < D) :
    _checkDifficulty H h (.num (.fin D)) = natGeLog2 (leadingZeros h) (.ofPos D) := by
  have h1 : ¬ D < 0 := not_lt.mpr hD.le
  have h2 : D ≠ 0 := ne_of_gt hD
  simp [_checkDifficulty, toNumber, Math_log2, h1, h2]

theorem checkDifficulty_of_le (H : Host) (h : String) (D : ℚ) (hD : 0 < D)
    (hle : D ≤ 2 ^ leadingZeros h) : _checkDifficulty H h (.num (.fin D)) = true := by
  rw [checkDifficulty_fin_pos H h D hD, natGeLog2_ofPos _ _ hD]
  exact pow_le_of_le_two_pow D _ _ hD hle

theorem checkDifficulty_two_pow (H : Host) (h : String) (j : Nat) :
    _checkDifficulty H h (.num (.fin (2 ^ j))) = true ↔ j ≤ leadingZeros h := by
  rw [checkDifficulty_fin_pos H h _ (by positivity), natGeLog2_two_pow]

/-- C1, as stated, fails: at difficulty `2 ^ 49 + 1` a 64-digit hash with exactly 49
leading zero digits qualifies although `log2 (2 ^ 49 + 1)` is larger than 49, and so
does a hash with exactly 4 leading zero digits at difficulty `16 + 2 ^ (-48)`:
the double nearest to the logarithm is 49, respectively 4.  At the difficulties
`2 ^ 49 + 2` and `16 + 2 ^ (-47)` the same hashes do not qualify. -/
theorem checkDifficulty_true_below_log2 :
    (hashFortyNineZeros.length = 64 ∧ leadingZeros hashFortyNineZeros = 49 ∧
        _checkDifficulty sampleHost hashFortyNineZeros (.num (.fin (2 ^ 49 + 1))) = true ∧
        ¬ Real.logb 2 (((2 ^ 49 + 1 : ℚ)) : ℝ) ≤ ((leadingZeros hashFortyNineZeros : ℕ) : ℝ)) ∧
      (leadingZeros "0000f" = 4 ∧
        _checkDifficulty sampleHost "0000f" (.num (.fin (16 + 1 / 2 ^ 48))) = true ∧
        ¬ Real.logb 2 (((16 + 1 / 2 ^ 48 : ℚ)) : ℝ) ≤ ((leadingZeros "0000f" : ℕ) : ℝ)) ∧
      (_checkDifficulty sampleHost hashFortyNineZeros (.num (.fin (2 ^ 49 + 2))) = false ∧
        _checkDifficulty sampleHost "0000f" (.num (.fin (16 + 1 / 2 ^ 47))) = false) := by
  have hz49 : leadingZeros hashFortyNineZeros = 49 := by decide
  have hz4 : leadingZeros "0000f" = 4 := by decide
  have hk49 : halfGapExponent 49 = 48 := by decide!
  have hk4 : halfGapExponent 4 = 51 := by decide!
  refine ⟨⟨by decide, hz49, ?_, ?_⟩, ⟨hz4, ?_, ?_⟩, by decide!⟩
  · rw [checkDifficulty_fin_pos _ _ _ (by positivity), hz49]
    apply natGeLog2_of_le_half_gap _ _ (by positivity)
    rw [hk49]
    norm_num
  · rw [hz49, Real.logb_le_iff_le_rpow (by norm_num) (by positivity)]
    norm_num
  · rw [checkDifficulty_fin_pos _ _ _ (by positivity), hz4]
    apply natGeLog2_of_le_half_gap _ _ (by positivity)
    rw [hk4]
    norm_num
  · rw [hz4, Real.logb_le_iff_le_rpow (by norm_num) (by positivity)]
    norm_num

/-- C1, amended: for a positive finite difficulty `D` and a hash `h` with `z` leading
`'0'` digits, `_checkDifficulty(h, D)` is true exactly when `z` is at least the
double nearest to `log2 D`, that is when `log2 D ≤ z + 2 ^ (-k)` with `2 ^ (-k)`
half the distance from `z` to the next double.  It is true whenever `log2 D ≤ z`,
and when it is true `D ≤ 2 ^ z * (1 + 2 ^ (-k))`.  For `D = 2 ^ j` it is true
exactly when `h` starts with at least `j` zero digits. -/
theorem checkDifficulty_iff_rounded_log2_le (H : Host) (h : String) (D : ℚ) (hD : 0 < D) :
    (_checkDifficulty H h (.num (.fin D)) = true ↔
        Real.logb 2 (D : ℝ)
          ≤ (leadingZeros h : ℝ) + 1 / 2 ^ halfGapExponent (leadingZeros h)) ∧
      (Real.logb 2 (D : ℝ) ≤ (leadingZeros h : ℝ) →
        _checkDifficulty H h (.num (.fin D)) = true) ∧
      (_checkDifficulty H h (.num (.fin D)) = true →
        D ≤ 2 ^ leadingZeros h * (1 + 1 / 2 ^ halfGapExponent (leadingZeros h))) ∧
      ∀ j : ℕ, D = 2 ^ j →
        (_checkDifficulty H h (.num (.fin D)) = true ↔
          h.toList.take j = List.replicate j '0') := by
  refine ⟨?_, ?_, ?_, ?_⟩
  · rw [checkDifficulty_fin_pos H h D hD]
    exact natGeLog2_iff_logb _ D hD
  · intro hle
    apply checkDifficulty_of_le H h D hD
    have hD' : (0 : ℝ) < (D : ℝ) := by exact_mod_cast hD
    rw [Real.logb_le_iff_le_rpow (by norm_num) hD', Real.rpow_natCast] at hle
    exact_mod_cast hle
  · intro hq
    rw [checkDifficulty_fin_pos H h D hD] at hq
    exact natGeLog2_le_gap _ D hD hq
  · intro j hj
    rw [hj, checkDifficulty_two_pow, startsWithZeros_iff]

/-- Instance of the amended C1 at the hash `00ab` and difficulty 4. -/
theorem checkDifficulty_iff_rounded_log2_le_witness :
    (0 : ℚ) < 4 ∧
      ((_checkDifficulty sampleHost "00ab" (.num (.fin 4)) = true ↔
          Real.logb 2 ((4 : ℚ) : ℝ)
            ≤ (leadingZeros "00ab" : ℝ) + 1 / 2 ^ halfGapExponent (leadingZeros "00ab")) ∧
        (Real.logb 2 ((4 : ℚ) : ℝ) ≤ (leadingZeros "00ab" : ℝ) →
          _checkDifficulty sampleHost "00ab" (.num (.fin 4)) = true) ∧
        (_checkDifficulty sampleHost "00ab" (.num (.fin 4)) = true →
          (4 : ℚ) ≤ 2 ^ leadingZeros "00ab"
            * (1 + 1 / 2 ^ halfGapExponent (leadingZeros "00ab"))) ∧
        ∀ j : ℕ, (4 : ℚ) = 2 ^ j →
          (_checkDifficulty sampleHost "00ab" (.num (.fin 4)) = true ↔
            "00ab".toList.take j = List.replicate j '0')) :=
  ⟨by norm_num, checkDifficulty_iff_rounded_log2_le sampleHost "00ab" 4 (by norm_num)⟩

/-- C2, as stated, fails: `-1 <= 1`, the hash `00ab` qualifies at difficulty `1`
and does not qualify at difficulty `-1`. -/
theorem checkDifficulty_not_monotone_at_negative :
    JSNum.le (.fin (-1)) (.fin 1) = true ∧
      _checkDifficulty sampleHost "00ab" (.num (.fin 1)) = true ∧
      _checkDifficulty sampleHost "00ab" (.num (.fin (-1))) = false := by
  refine ⟨?_, ?_, ?_⟩
  · simp [JSNum.le]
  · exact checkDifficulty_of_le _ _ 1 (by norm_num)
      (one_le_pow₀ (show (1 : ℚ) ≤ 2 by norm_num))
  · have hneg : ((-1 : ℚ) < 0) := by norm_num
    simp [_checkDifficulty, toNumber, Math_log2, natGeLog2, hneg]

/-- C2, amended: for numeric difficulties `D1 <= D2`, unless `D1` is negative and
`D2` is not, a hash that qualifies at `D2` qualifies at `D1` (zero included). -/
theorem checkDifficulty_antitone (H : Host) (h : String) (D1 D2 : JSNum)
    (hle : JSNum.le D1 D2 = true)
    (hsign : JSNum.lt D1 (.fin 0) = false ∨ JSNum.lt D2 (.fin 0) = true)
    (hq : _checkDifficulty H h (.num D2) = true) :
    _checkDifficulty H h (.num D1) = true := by
  cases D1 with
  | nan => simp [JSNum.le] at hle
  | posInf =>
    cases D2 <;> simp [JSNum.le, _checkDifficulty, toNumber, Math_log2, natGeLog2] at hle hq
  | negInf =>
    cases D2 <;>
      simp [JSNum.le, JSNum.lt, _checkDifficulty, toNumber, Math_log2, natGeLog2] at hle hsign hq
    rename_i b
    have hb : b < 0 := hsign
    simp [hb, natGeLog2] at hq
  | fin a =>
    cases D2 with
    | nan => simp [JSNum.le] at hle
    | posInf => simp [_checkDifficulty, toNumber, Math_log2, natGeLog2] at hq
    | negInf => simp [JSNum.le] at hle
    | fin b =>
      have hab : a ≤ b := by simpa [JSNum.le] using hle
      by_cases hb : b < 0
      · simp [_checkDifficulty, toNumber, Math_log2, natGeLog2, hb] at hq
      · have ha : ¬ a < 0 := by
          rcases hsign with h1 | h1
          · simpa [JSNum.lt] using h1
          · exact absurd (by simpa [JSNum.lt] using h1) hb
        by_cases ha0 : a = 0
        · simp [_checkDifficulty, toNumber, Math_log2, natGeLog2, ha0]
        · have hb0 : b ≠ 0 := by
            intro hb0
            apply ha0
            have : 0 ≤ a := not_lt.mp ha
            linarith
          have hapos : 0 < a := lt_of_le_of_ne (not_lt.mp ha) (Ne.symm ha0)
          have hbpos : 0 < b := lt_of_lt_of_le hapos hab
          rw [checkDifficulty_fin_pos H h b hbpos, natGeLog2_ofPos _ _ hbpos] at hq
          rw [checkDifficulty_fin_pos H h a hapos, natGeLog2_ofPos _ _ hapos]
          exact le_trans (pow_le_pow_left₀ hapos.le hab _) hq

/-- Instance of the amended C2 at the hash `00ab` and the difficulties 0 and 4. -/
theorem checkDifficulty_antitone_witness :
    JSNum.le (.fin 0) (.fin 4) = true ∧
      (JSNum.lt (.fin 0) (.fin 0) = false ∨ JSNum.lt (.fin 4) (.fin 0) = true) ∧
      _checkDifficulty sampleHost "00ab" (.num (.fin 4)) = true ∧
      _checkDifficulty sampleHost "00ab" (.num (.fin 0)) = true :=
  have h1 : JSNum.le (.fin 0) (.fin 4) = true := by simp [JSNum.le]
  have h2 : JSNum.lt (.fin 0) (.fin 0) = false ∨ JSNum.lt (.fin 4) (.fin 0) = true :=
    Or.inl (by simp [JSNum.lt])
  have h3 : _checkDifficulty sampleHost "00ab" (.num (.fin 4)) = true := by
    apply checkDifficulty_of_le _ _ 4 (by norm_num)
    have hz : leadingZeros "00ab" = 2 := by decide
    rw [hz]
    norm_num
  ⟨h1, h2, h3, checkDifficulty_antitone sampleHost "00ab" (.fin 0) (.fin 4) h1 h2 h3⟩

/-! ## The work loop at difficulty 1 -/

theorem checkDifficulty_one (H : Host) (h : String) :
    _checkDifficulty H h (.num (.fin 1)) = true :=
  checkDifficulty_of_le H h 1 (by norm_num) (one_le_pow₀ (show (1 : ℚ) ≤ 2 by norm_num))

theorem send_difficulty (c : StratumClient) (m : Request) :
    (c._send m).difficulty = c.difficulty := by
  unfold StratumClient._send
  split
  · split <;> rfl
  · rfl

theorem submitShare_difficulty (c : StratumClient) (a b t n : JSVal) (r : Rand) :
    (c.submitShare a b t n r).2.difficulty = c.difficulty := by
  unfold StratumClient.submitShare
  split
  · rfl
  · simp [send_difficulty]

theorem miningThread_difficulty (H : Host) (job : Job) (e : UnifiedMiningEngine)
    (d : ThreadDraws) :
    (UnifiedMiningEngine.miningThread H job e d).stratum.difficulty = e.stratum.difficulty := by
  unfold UnifiedMiningEngine.miningThread
  simp only []
  split_ifs <;> simp [submitShare_difficulty]

theorem miningThread_sharesFound_of_qualifies (H : Host) (job : Job) (e : UnifiedMiningEngine)
    (d : ThreadDraws)
    (hq : ∀ h, _checkDifficulty H h e.stratum.difficulty = true) :
    (UnifiedMiningEngine.miningThread H job e d).stats.sharesFound = e.stats.sharesFound + 1 := by
  unfold UnifiedMiningEngine.miningThread
  simp only [hq]
  split_ifs <;> rfl

theorem foldl_miningThread_sharesFound (H : Host) (job : Job) (draws : Nat → ThreadDraws)
    (l : List Nat) (e : UnifiedMiningEngine)
    (hq : ∀ h, _checkDifficulty H h e.stratum.difficulty = true) :
    (l.foldl (fun e i => UnifiedMiningEngine.miningThread H job e (draws i)) e).stats.sharesFound
      = e.stats.sharesFound + l.length := by
  induction l generalizing e with
  | nil => simp
  | cons i l ih =>
    have hq2 : ∀ h, _checkDifficulty H h
        (UnifiedMiningEngine.miningThread H job e (draws i)).stratum.difficulty = true := by
      intro h
      rw [miningThread_difficulty]
      exact hq h
    rw [List.foldl_cons, ih _ hq2, miningThread_sharesFound_of_qualifies H job e (draws i) hq]
    simp only [List.length_cons]
    omega

/-- C3: at difficulty 1 every hash qualifies, and one `_miningIteration` with a
current job and difficulty 1 adds exactly `CONFIG.MINER_THREADS` to
`stats.sharesFound`. -/
theorem miningIteration_difficulty_one (H : Host) (e : UnifiedMiningEngine) (job : Job)
    (hashRand : Rand) (draws : Nat → ThreadDraws)
    (hjob : e.stratum.currentJob = some job)
    (hdiff : e.stratum.difficulty = .num (.fin 1)) :
    (∀ h : String, _checkDifficulty H h (.num (.fin 1)) = true) ∧
      (e._miningIteration H hashRand draws).stats.sharesFound
        = e.stats.sharesFound + CONFIG.MINER_THREADS ∧
      0 < CONFIG.MINER_THREADS := by
  refine ⟨checkDifficulty_one H, ?_, by decide⟩
  unfold UnifiedMiningEngine._miningIteration
  rw [hjob]
  simp only []
  rw [foldl_miningThread_sharesFound]
  · simp
  · intro h
    simp only [hdiff]
    exact checkDifficulty_one H h

/-- Instance of C3 at an engine whose client is in simulation mode. -/
theorem miningIteration_difficulty_one_witness :
    simEngine.stratum.currentJob = some simJob ∧
      simEngine.stratum.difficulty = .num (.fin 1) ∧
      ((∀ h : String, _checkDifficulty sampleHost h (.num (.fin 1)) = true) ∧
        (simEngine._miningIteration sampleHost randZero (fun _ => sampleDraws)).stats.sharesFound
          = simEngine.stats.sharesFound + CONFIG.MINER_THREADS ∧
        0 < CONFIG.MINER_THREADS) :=
  ⟨rfl, rfl,
    miningIteration_difficulty_one sampleHost simEngine simJob randZero (fun _ => sampleDraws)
      rfl rfl⟩

/-! ## The predicate at difficulty 2 ^ 32 -/

/-- C4, as stated, fails: a 64-digit hash with exactly eight leading zero digits
does not qualify at difficulty `2 ^ 32 = 4294967296`. -/
theorem checkDifficulty_two_pow_32_eight_zeros_fails :
    hashEightZeros.length = 64 ∧
      hashEightZeros.toList.take 8 = List.replicate 8 '0' ∧
      leadingZeros hashEightZeros = 8 ∧
      _checkDifficulty sampleHost hashEightZeros (.num (.fin 4294967296)) = false := by
  have hz : leadingZeros hashEightZeros = 8 := by decide
  refine ⟨by decide, by decide, hz, ?_⟩
  have h32 : (4294967296 : ℚ) = 2 ^ 32 := by norm_num
  rw [Bool.eq_false_iff, Ne, h32, checkDifficulty_two_pow, hz]
  norm_num

/-- C4, amended: at difficulty `2 ^ 32 = 4294967296` a hash qualifies exactly when
it starts with at least 32 zero digits (`log2` of the difficulty), whatever its
length. -/
theorem checkDifficulty_two_pow_32 (H : Host) (h : String) :
    _checkDifficulty H h (.num (.fin 4294967296)) = true ↔
      h.toList.take 32 = List.replicate 32 '0' := by
  have h32 : (4294967296 : ℚ) = 2 ^ 32 := by norm_num
  rw [h32, checkDifficulty_two_pow, startsWithZeros_iff]

/-! ## Share accounting -/

theorem miningThread_accounting (H : Host) (job : Job) (e : UnifiedMiningEngine)
    (d : ThreadDraws)
    (hinv : e.stats.sharesFound = e.stats.sharesAccepted + e.stats.sharesRejected) :
    (UnifiedMiningEngine.miningThread H job e d).stats.sharesFound
      = (UnifiedMiningEngine.miningThread H job e d).stats.sharesAccepted
        + (UnifiedMiningEngine.miningThread H job e d).stats.sharesRejected := by
  unfold UnifiedMiningEngine.miningThread
  simp only []
  split_ifs <;> first | omega | (simp only []; omega)

theorem foldl_miningThread_accounting (H : Host) (job : Job) (draws : Nat → ThreadDraws)
    (l : List Nat) (e : UnifiedMiningEngine)
    (hinv : e.stats.sharesFound = e.stats.sharesAccepted + e.stats.sharesRejected) :
    (l.foldl (fun e i => UnifiedMiningEngine.miningThread H job e (draws i)) e).stats.sharesFound
      = (l.foldl (fun e i => UnifiedMiningEngine.miningThread H job e (draws i)) e).stats.sharesAccepted
        + (l.foldl (fun e i => UnifiedMiningEngine.miningThread H job e (draws i)) e).stats.sharesRejected := by
  induction l generalizing e with
  | nil => simpa using hinv
  | cons i l ih =>
    rw [List.foldl_cons]
    exact ih _ (miningThread_accounting H job e (draws i) hinv)

theorem miningIteration_accounting (H : Host) (e : UnifiedMiningEngine) (hashRand : Rand)
    (draws : Nat → ThreadDraws)
    (hinv : e.stats.sharesFound = e.stats.sharesAccepted + e.stats.sharesRejected) :
    (e._miningIteration H hashRand draws).stats.sharesFound
      = (e._miningIteration H hashRand draws).stats.sharesAccepted
        + (e._miningIteration H hashRand draws).stats.sharesRejected := by
  unfold UnifiedMiningEngine._miningIteration
  split
  · exact hinv
  · exact foldl_miningThread_accounting H _ draws _ _ hinv

theorem step_accounting (H : Host) (e : UnifiedMiningEngine) (st : EngineStep)
    (hinv : e.stats.sharesFound = e.stats.sharesAccepted + e.stats.sharesRejected) :
    (e.step H st).stats.sharesFound
      = (e.step H st).stats.sharesAccepted + (e.step H st).stats.sharesRejected := by
  cases st with
  | iteration hashRand draws => exact miningIteration_accounting H e hashRand draws hinv
  | client ev => exact hinv

theorem run_accounting (H : Host) (steps : List EngineStep) (e : UnifiedMiningEngine)
    (hinv : e.stats.sharesFound = e.stats.sharesAccepted + e.stats.sharesRejected) :
    (e.run H steps).stats.sharesFound
      = (e.run H steps).stats.sharesAccepted + (e.run H steps).stats.sharesRejected := by
  induction steps generalizing e with
  | nil => exact hinv
  | cons st steps ih =>
    unfold UnifiedMiningEngine.run
    rw [List.foldl_cons]
    exact ih _ (step_accounting H e st hinv)

/-- C5: from a freshly constructed engine on any client, after any sequence of
`_miningIteration` calls interleaved with any events of the client, in simulation
or real mode and for any random values, `sharesFound` equals
`sharesAccepted + sharesRejected`. -/
theorem share_accounting_conserved (H : Host) (stratum : StratumClient) (now1 now2 : Nat)
    (steps : List EngineStep) :
    ((UnifiedMiningEngine.new stratum now1 now2).run H steps).stats.sharesFound
      = ((UnifiedMiningEngine.new stratum now1 now2).run H steps).stats.sharesAccepted
        + ((UnifiedMiningEngine.new stratum now1 now2).run H steps).stats.sharesRejected :=
  run_accounting H steps _ rfl

/-! ## A share the pool declines -/

/-- C6 at a concrete input: on a connected client in real mode, one
`_miningIteration` at difficulty 1 submits four shares with request ids 3 to 6 and
counts all four as accepted; when the line of the pool declining request 3
arrives, no counter changes: `sharesRejected` stays 0 and `sharesAccepted` stays 4. -/
theorem declined_share_counted_as_accepted :
    liveEngine.stratum.simulationMode = false ∧
      ((liveEngine._miningIteration poolHost randZero (fun _ => sampleDraws)).stratum.socket.map
          (fun s => s.written.map (fun r => (r.id, r.method))))
        = some [(1, "mining.subscribe"), (2, "mining.authorize"), (3, "mining.submit"),
            (4, "mining.submit"), (5, "mining.submit"), (6, "mining.submit")] ∧
      (liveEngine._miningIteration poolHost randZero (fun _ => sampleDraws)).stats.sharesFound = 4 ∧
      (liveEngine._miningIteration poolHost randZero (fun _ => sampleDraws)).stats.sharesAccepted = 4 ∧
      (liveEngine._miningIteration poolHost randZero (fun _ => sampleDraws)).stats.sharesRejected = 0 ∧
      poolHost.jsonParse rejectLine = some rejectMsg ∧
      ((liveEngine._miningIteration poolHost randZero (fun _ => sampleDraws)).step poolHost
          (.client (.socketData (rejectLine ++ "\n")))).stats.sharesAccepted = 4 ∧
      ((liveEngine._miningIteration poolHost randZero (fun _ => sampleDraws)).step poolHost
          (.client (.socketData (rejectLine ++ "\n")))).stats.sharesRejected = 0 := by
  refine ⟨by decide!, by decide!, by decide!, by decide!, by decide!, ?_, by decide!, by decide!⟩
  simp [poolHost]

/-! ## The outcome of `connect` -/

/-- C8 at a concrete input: when `net.createConnection` throws, the promise
returned by `connect` is rejected, and it stays rejected when the timer, which
was set before the throw, fires and calls `resolve(true)`; in the other three
outcomes the promise is resolved with `true`. -/
theorem connect_rejects_when_createConnection_throws :
    (freshClient.connect true).connectPromise = .rejected ∧
      (freshClient.connect true).timer = .pending ∧
      ((freshClient.connect true).step sampleHost (.timeout 5000)).connectPromise = .rejected ∧
      ((freshClient.connect true).step sampleHost (.timeout 5000)).simulationMode = true ∧
      ((freshClient.connect false).step sampleHost .socketConnect).connectPromise
        = .resolved true ∧
      ((freshClient.connect false).step sampleHost (.socketError 0)).connectPromise
        = .resolved true ∧
      ((freshClient.connect false).step sampleHost (.timeout 5000)).connectPromise
        = .resolved true := by
  decide!

/-! ## Simulation mode -/

theorem resolveTrue_fields (c : StratumClient) :
    c.resolveTrue.simulationMode = c.simulationMode ∧
      c.resolveTrue.currentJob = c.currentJob ∧
      c.resolveTrue.connected = c.connected ∧
      c.resolveTrue.subscribed = c.subscribed ∧
      c.resolveTrue.authorized = c.authorized ∧
      c.resolveTrue.difficulty = c.difficulty ∧
      c.resolveTrue.extranonce1 = c.extranonce1 ∧
      c.resolveTrue.extranonce2Size = c.extranonce2Size := by
  unfold StratumClient.resolveTrue
  split <;> simp

theorem clearTimeout_simulationMode (c : StratumClient) :
    c.clearTimeout.simulationMode = c.simulationMode := by
  unfold StratumClient.clearTimeout
  split <;> rfl

/-- C9: after the error handler of the socket or the timer callback of `connect`
has run, in any state and at any clock reading, `simulationMode` is true,
`currentJob` is the static job (`jobId` `simulation_job_1`, `prevHash` of 64
zeros, no merkle branches, `cleanJobs` true), `connected`, `subscribed` and
`authorized` are true, `difficulty` is 1, `extranonce1` is `00000000` and
`extranonce2Size` is 4. -/
theorem failure_enters_complete_simulation_state (c : StratumClient) (now : Nat) :
    CompleteSimulationState (c.onError now) ∧ CompleteSimulationState (c.onTimeout now) := by
  have hzeros : String.mk (List.replicate 64 '0')
      = "0000000000000000000000000000000000000000000000000000000000000000" := by decide
  constructor
  · obtain ⟨h1, h2, h3, h4, h5, h6, h7, h8⟩ :=
      resolveTrue_fields (StratumClient._setupSimulationMode
        { c.clearTimeout with simulationMode := true } now)
    simp only [StratumClient.onError, CompleteSimulationState]
    rw [h1, h2, h3, h4, h5, h6, h7, h8]
    simp [StratumClient._setupSimulationMode, hzeros]
  · obtain ⟨h1, h2, h3, h4, h5, h6, h7, h8⟩ :=
      resolveTrue_fields (StratumClient._setupSimulationMode
        { ({ c with timer := .fired } : StratumClient) with simulationMode := true } now)
    simp only [StratumClient.onTimeout, CompleteSimulationState]
    rw [h1, h2, h3, h4, h5, h6, h7, h8]
    simp [StratumClient._setupSimulationMode, hzeros]

theorem handleMiningNotify_simulationMode (H : Host) (c : StratumClient) (params : JSVal) :
    (c._handleMiningNotify H params).1.simulationMode = c.simulationMode := by
  unfold StratumClient._handleMiningNotify
  simp only []
  split <;> rfl

theorem handleResponse_simulationMode (H : Host) (c : StratumClient) (message : JSVal) :
    (c._handleResponse H message).1.simulationMode = c.simulationMode := by
  unfold StratumClient._handleResponse
  split
  · split_ifs
    · simp only []
      split
      · rfl
      · split <;> rfl
    · rfl
    · rfl
    · rfl
  · rfl

theorem handleStratumMessage_simulationMode (H : Host) (c : StratumClient) (message : JSVal) :
    (c._handleStratumMessage H message).1.simulationMode = c.simulationMode := by
  unfold StratumClient._handleStratumMessage
  split
  · split_ifs
    · exact handleMiningNotify_simulationMode H c _
    · split <;> rfl
    · exact handleResponse_simulationMode H c _
    · rfl
  · rfl

theorem handleLine_simulationMode (H : Host) (c : StratumClient) (line : List Char) :
    (c.handleLine H line).simulationMode = c.simulationMode := by
  unfold StratumClient.handleLine
  split_ifs
  · split
    · rfl
    · exact handleStratumMessage_simulationMode H c _
  · rfl

theorem foldl_handleLine_simulationMode (H : Host) (lines : List (List Char))
    (c : StratumClient) :
    (lines.foldl (StratumClient.handleLine H) c).simulationMode = c.simulationMode := by
  induction lines generalizing c with
  | nil => rfl
  | cons l ls ih => rw [List.foldl_cons, ih, handleLine_simulationMode]

theorem onData_simulationMode (H : Host) (c : StratumClient) (data : String) :
    (c.onData H data).simulationMode = c.simulationMode := by
  unfold StratumClient.onData
  split
  · rfl
  · simp only []
    rw [foldl_handleLine_simulationMode]

theorem send_simulationMode (c : StratumClient) (m : Request) :
    (c._send m).simulationMode = c.simulationMode := by
  unfold StratumClient._send
  split
  · split <;> rfl
  · rfl

theorem step_keeps_simulationMode (H : Host) (c : StratumClient) (ev : Event)
    (hsim : c.simulationMode = true) : (c.step H ev).simulationMode = true := by
  unfold StratumClient.step
  split_ifs
  · cases ev with
    | connect createThrows =>
      simp only [StratumClient.connect]
      split_ifs <;> exact hsim
    | timeout now =>
      simp only [StratumClient.onTimeout]
      rw [(resolveTrue_fields _).1]
      rfl
    | socketConnect =>
      simp only [StratumClient.onConnect, StratumClient._setupSocketHandlers]
      rw [(resolveTrue_fields _).1]
      split
      · simpa [clearTimeout_simulationMode] using hsim
      · simpa [clearTimeout_simulationMode] using hsim
    | socketError now =>
      simp only [StratumClient.onError]
      rw [(resolveTrue_fields _).1]
      rfl
    | socketData chunk =>
      simp only []
      rw [onData_simulationMode]
      exact hsim
    | socketClose => exact hsim
    | subscribe =>
      simp only [StratumClient.subscribe, hsim]
      rfl
    | authorize =>
      simp only [StratumClient.authorize, hsim]
      rfl
    | submitShare jobId extranonce2 ntime nonce rand =>
      simp [StratumClient.submitShare, hsim]
    | disconnect =>
      simp only [StratumClient.disconnect]
      split <;> exact hsim
  · exact hsim

theorem run_keeps_simulationMode (H : Host) (evs : List Event) (c : StratumClient)
    (hsim : c.simulationMode = true) : (c.run H evs).simulationMode = true := by
  induction evs generalizing c with
  | nil => exact hsim
  | cons ev evs ih =>
    unfold StratumClient.run
    rw [List.foldl_cons]
    exact ih _ (step_keeps_simulationMode H c ev hsim)

/-- C10: in a state reached from a constructed client by any sequence of events
(connect outcomes, incoming data, socket close, `subscribe`, `authorize`,
`submitShare`, `disconnect`), if `simulationMode` is true then it is true after
every further sequence of events. -/
theorem simulationMode_permanent (H : Host) (host : String) (port : Nat)
    (workerName workerPassword : String) (before after : List Event)
    (hsim : ((StratumClient.new host port workerName workerPassword).run H before).simulationMode
      = true) :
    (((StratumClient.new host port workerName workerPassword).run H before).run H
      after).simulationMode = true :=
  run_keeps_simulationMode H after _ hsim

/-- Instance of C10: the timer of `connect` fires, and the later events, the late connection of the socket included, leave `simulationMode` true. -/
theorem simulationMode_permanent_witness :
    ((StratumClient.new "pool.example" 3333 "worker1" "x").run sampleHost
        [.connect false, .timeout 5000]).simulationMode = true ∧
      (((StratumClient.new "pool.example" 3333 "worker1" "x").run sampleHost
        [.connect false, .timeout 5000]).run sampleHost
        [.socketConnect, .socketData "x", .subscribe, .authorize, .socketClose,
          .disconnect]).simulationMode = true :=
  ⟨by decide!,
    simulationMode_permanent sampleHost "pool.example" 3333 "worker1" "x"
      [.connect false, .timeout 5000]
      [.socketConnect, .socketData "x", .subscribe, .authorize, .socketClose, .disconnect]
      (by decide!)⟩

/-! ## Correlation of responses -/

/-- C7, as stated, fails: when `authorize()` is the first request of a connected
client it is assigned id 1, and the response `{id: 1, result: true}` to it is
handled as a subscribe response: `subscribed` becomes true and `authorized`
stays false. -/
theorem authorize_first_response_handled_as_subscribe :
    connectedClient.simulationMode = false ∧
      connectedClient.authorize.writtenIds = [(1, "mining.authorize")] ∧
      connectedClient.authorize.subscribed = false ∧
      (connectedClient.authorize._handleStratumMessage sampleHost
          (responseMsg (.num (.fin 1)) (.bool true) .null)).1.subscribed = true ∧
      toBoolean (connectedClient.authorize._handleStratumMessage sampleHost
          (responseMsg (.num (.fin 1)) (.bool true) .null)).1.authorized = false := by
  decide!

theorem submitShare_real (c : StratumClient) (s : Socket) (a b t n : JSVal) (r : Rand)
    (hreal : c.simulationMode = false) (hsock : c.socket = some s)
    (hconn : c.connected = true) :
    (c.submitShare a b t n r).2.simulationMode = false ∧
      (c.submitShare a b t n r).2.connected = true ∧
      (c.submitShare a b t n r).2.messageId = c.messageId + 1 ∧
      ∃ s2, (c.submitShare a b t n r).2.socket = some s2 ∧
        s2.written.map (fun r => (r.id, r.method))
          = s.written.map (fun r => (r.id, r.method)) ++ [(c.messageId, "mining.submit")] := by
  simp [StratumClient.submitShare, StratumClient._send, hreal, hsock, hconn]

theorem submitAll_written (shares : List (JSVal × JSVal × JSVal × JSVal × Rand))
    (c : StratumClient) (s : Socket)
    (hreal : c.simulationMode = false) (hsock : c.socket = some s)
    (hconn : c.connected = true) :
    (c.submitAll shares).writtenIds
      = s.written.map (fun r => (r.id, r.method))
        ++ (List.range' c.messageId shares.length).map (fun i => (i, "mining.submit")) := by
  induction shares generalizing c s with
  | nil => simp [StratumClient.submitAll, StratumClient.writtenIds, hsock]
  | cons a shares ih =>
    obtain ⟨h1, h2, h3, s2, h4, h5⟩ :=
      submitShare_real c s a.1 a.2.1 a.2.2.1 a.2.2.2.1 a.2.2.2.2 hreal hsock hconn
    have := ih _ s2 h1 h4 h2
    unfold StratumClient.submitAll at this ⊢
    rw [List.foldl_cons, this, h5, h3]
    simp [List.range'_succ]

/-- C7, amended: when `subscribe()` is the first request of a connected real-mode
client and `authorize()` the second, followed by any `submitShare` calls, the
requests carry the ids 1, 2, 3, 4, ... in that order; a response with id 1 is
handled as the subscribe response (sets `subscribed`, `extranonce1`,
`extranonce2Size` and nothing else), a response with id 2 sets `authorized` and
nothing else, and a response with an id above 2 changes nothing. -/
theorem responses_correlated_in_handshake_order (H : Host) (c : StratumClient) (s : Socket)
    (shares : List (JSVal × JSVal × JSVal × JSVal × Rand))
    (hreal : c.simulationMode = false) (hid : c.messageId = 1)
    (hsock : c.socket = some s) (hconn : c.connected = true) :
    (c.subscribe.authorize.submitAll shares).writtenIds
        = s.written.map (fun r => (r.id, r.method))
          ++ (1, "mining.subscribe") :: (2, "mining.authorize")
            :: (List.range' 3 shares.length).map (fun i => (i, "mining.submit")) ∧
      ∀ (c2 : StratumClient) (result error : JSVal),
        (∀ e1 e2, result.index H 1 = some e1 → result.index H 2 = some e2 →
          (c2._handleStratumMessage H (responseMsg (.num (.fin 1)) result error)).1
            = { c2 with subscribed := true, extranonce1 := e1, extranonce2Size := e2 }) ∧
        (result.isDefined = true →
          (c2._handleStratumMessage H (responseMsg (.num (.fin 2)) result error)).1
            = { c2 with authorized := result }) ∧
        (∀ n : ℕ, 2 < n →
          (c2._handleStratumMessage H (responseMsg (.num (.fin n)) result error)).1 = c2) := by
  constructor
  · have hs : c.subscribe.authorize.simulationMode = false := by
      simp [StratumClient.subscribe, StratumClient.authorize, StratumClient._send, hreal, hsock,
        hconn]
    have hc : c.subscribe.authorize.connected = true := by
      simp [StratumClient.subscribe, StratumClient.authorize, StratumClient._send, hreal, hsock,
        hconn]
    have hm : c.subscribe.authorize.messageId = 3 := by
      simp [StratumClient.subscribe, StratumClient.authorize, StratumClient._send, hreal, hsock,
        hconn, hid]
    have hk : c.subscribe.authorize.socket = some
        { s with written := s.written ++
          [{ id := 1, method := "mining.subscribe", params := [.str "unified-aria-miner/1.0"] },
            { id := 2, method := "mining.authorize",
              params := [.str c.workerName, .str c.workerPassword] }] } := by
      simp [StratumClient.subscribe, StratumClient.authorize, StratumClient._send, hreal, hsock,
        hconn, hid]
    rw [submitAll_written shares _ _ hs hk hc, hm]
    simp
  · intro c2 result error
    refine ⟨?_, ?_, ?_⟩
    · intro e1 e2 h1 h2
      have hdef : result.isDefined = true := by
        cases result <;> simp [JSVal.index, JSVal.isDefined] at h1 ⊢
      simp [StratumClient._handleStratumMessage, responseMsg, JSVal.get?, List.lookup,
        JSVal.strictEqStr, hdef, toBoolean, StratumClient._handleResponse, JSVal.strictEqNum,
        h1, h2]
    · intro hdef
      simp [StratumClient._handleStratumMessage, responseMsg, JSVal.get?, List.lookup,
        JSVal.strictEqStr, hdef, toBoolean, StratumClient._handleResponse, JSVal.strictEqNum]
    · intro n hn
      have hn0 : (n : ℚ) ≠ 0 := by
        have : n ≠ 0 := by omega
        exact_mod_cast this
      have hn1 : (n : ℚ) ≠ 1 := by
        have : n ≠ 1 := by omega
        exact_mod_cast this
      have hn2 : (n : ℚ) ≠ 2 := by
        have : n ≠ 2 := by omega
        exact_mod_cast this
      by_cases hdef : result.isDefined = true
      · simp [StratumClient._handleStratumMessage, responseMsg, JSVal.get?, List.lookup,
          JSVal.strictEqStr, hdef, toBoolean, StratumClient._handleResponse, JSVal.strictEqNum,
          hn0, hn1, hn2]
      · simp [StratumClient._handleStratumMessage, responseMsg, JSVal.get?, List.lookup,
          JSVal.strictEqStr, hdef, toBoolean, StratumClient._handleResponse, JSVal.strictEqNum,
          hn0, hn1, hn2]

/-- Instance of the amended C7 at a connected client: `subscribe`, `authorize` and two `submitShare` calls are written with the ids 1, 2, 3, 4. -/
theorem responses_correlated_in_handshake_order_witness :
    connectedClient.simulationMode = false ∧ connectedClient.messageId = 1 ∧
      connectedClient.socket = some connectedSocket ∧ connectedClient.connected = true ∧
      (connectedClient.subscribe.authorize.submitAll [sampleShare, sampleShare]).writtenIds
        = connectedSocket.written.map (fun r => (r.id, r.method))
          ++ (1, "mining.subscribe") :: (2, "mining.authorize")
            :: (List.range' 3 [sampleShare, sampleShare].length).map
              (fun i => (i, "mining.submit")) :=
  ⟨rfl, rfl, rfl, rfl,
    (responses_correlated_in_handshake_order sampleHost connectedClient connectedSocket
      [sampleShare, sampleShare] rfl rfl rfl rfl).1⟩

/-! ## Simulation mode without a socket -/

/-- C11: in simulation mode `subscribe()` resolves to `true` and sets only
`subscribed`, `authorize()` resolves to `true` and sets only `authorized`,
`submitShare` returns at once the boolean `Math.random() > 0.5` (both outcomes
occur) and leaves the client as it is; so none of the three writes to the socket
or changes `messageId`. -/
theorem simulation_mode_self_consistent (c later : StratumClient)
    (jobId extranonce2 ntime nonce : JSVal) (rand : Rand)
    (hsim : c.simulationMode = true) :
    (c.subscribeReturn later = true ∧ c.subscribe = { c with subscribed := true }) ∧
      (c.authorizeReturn later = .bool true ∧ c.authorize = { c with authorized := .bool true }) ∧
      ((c.submitShare jobId extranonce2 ntime nonce rand).1 = decide (rand.val > 1 / 2) ∧
        (c.submitShare jobId extranonce2 ntime nonce rand).2 = c ∧
        (c.submitShare jobId extranonce2 ntime nonce randHigh).1 = true ∧
        (c.submitShare jobId extranonce2 ntime nonce randZero).1 = false) ∧
      (c.subscribe.socket = c.socket ∧ c.authorize.socket = c.socket ∧
        (c.submitShare jobId extranonce2 ntime nonce rand).2.socket = c.socket) ∧
      (c.subscribe.messageId = c.messageId ∧ c.authorize.messageId = c.messageId ∧
        (c.submitShare jobId extranonce2 ntime nonce rand).2.messageId = c.messageId) := by
  have h1 : c.subscribe = { c with subscribed := true } := by
    simp [StratumClient.subscribe, hsim]
  have h2 : c.authorize = { c with authorized := .bool true } := by
    simp [StratumClient.authorize, hsim]
  have h3 : ∀ r : Rand, c.submitShare jobId extranonce2 ntime nonce r
      = (decide (r.val > 1 / 2), c) := by
    intro r
    simp [StratumClient.submitShare, hsim]
  refine ⟨⟨?_, h1⟩, ⟨?_, h2⟩, ⟨?_, ?_, ?_, ?_⟩, ⟨?_, ?_, ?_⟩, ⟨?_, ?_, ?_⟩⟩
  · simp [StratumClient.subscribeReturn, hsim]
  · simp [StratumClient.authorizeReturn, hsim]
  · rw [h3]
  · rw [h3]
  · rw [h3]
    simp only [randHigh]
    norm_num
  · rw [h3]
    simp only [randZero]
    norm_num
  · rw [h1]
  · rw [h2]
  · rw [h3]
  · rw [h1]
  · rw [h2]
  · rw [h3]

/-- Instance of C11 at the client whose `connect()` ended in a socket error. -/
theorem simulation_mode_self_consistent_witness :
    simClient.simulationMode = true ∧
      (simClient.subscribeReturn simClient = true ∧
        simClient.subscribe = { simClient with subscribed := true }) :=
  ⟨rfl,
    (simulation_mode_self_consistent simClient simClient (.str "simulation_job_1")
      (.str "00000000") (.str "0") (.str "0000002a") randZero rfl).1⟩

/-! ## Job notifications -/

/-- C12: for every client state (with or without a previous job) and every
message whose `method` is `mining.notify` and whose `params` is an array of at
least nine elements, `_handleStratumMessage` does not throw and changes only
`currentJob`, which becomes the object made of the first nine elements in the
order `jobId, prevHash, coinbase1, coinbase2, merkleBranches, version, nbits,
ntime, cleanJobs`. -/
theorem notify_replaces_job_wholesale (H : Host) (c : StratumClient) (message : JSVal)
    (p0 p1 p2 p3 p4 p5 p6 p7 p8 : JSVal) (rest : List JSVal)
    (hmethod : message.get? "method" = some (.str "mining.notify"))
    (hparams : message.get? "params"
      = some (.arr (p0 :: p1 :: p2 :: p3 :: p4 :: p5 :: p6 :: p7 :: p8 :: rest))) :
    c._handleStratumMessage H message
      = ({ c with
            currentJob := some
              ({ jobId := p0, prevHash := p1, coinbase1 := p2, coinbase2 := p3,
                 merkleBranches := p4, version := p5, nbits := p6, ntime := p7,
                 cleanJobs := p8 } : Job) }, false) := by
  cases message with
  | obj fields =>
    simp only [JSVal.get?] at hmethod hparams
    simp only [Option.some.injEq] at hmethod hparams
    simp [StratumClient._handleStratumMessage, JSVal.get?, hmethod, hparams,
      JSVal.strictEqStr, StratumClient._handleMiningNotify, JSVal.index]
  | undefined => simp [JSVal.get?] at hmethod
  | null => simp [JSVal.get?] at hmethod
  | bool b => simp [JSVal.get?] at hmethod
  | num n => simp [JSVal.get?] at hmethod
  | str t => simp [JSVal.get?] at hmethod
  | arr xs => simp [JSVal.get?] at hmethod

/-- Instance of C12 at a connected client and the job `job1`. -/
theorem notify_replaces_job_wholesale_witness :
    notifyMsg.get? "method" = some (.str "mining.notify") ∧
      notifyMsg.get? "params"
        = some (.arr [.str "job1", .str "00ff", .str "01", .str "02", .arr [], .str "20000000",
            .str "1d00ffff", .str "65a0c000", .bool true]) ∧
      connectedClient._handleStratumMessage sampleHost notifyMsg
        = ({ connectedClient with
              currentJob := some
                ({ jobId := .str "job1", prevHash := .str "00ff", coinbase1 := .str "01",
                   coinbase2 := .str "02", merkleBranches := .arr [], version := .str "20000000",
                   nbits := .str "1d00ffff", ntime := .str "65a0c000",
                   cleanJobs := .bool true } : Job) },
            false) :=
  ⟨rfl, rfl,
    notify_replaces_job_wholesale sampleHost connectedClient notifyMsg (.str "job1")
      (.str "00ff") (.str "01") (.str "02") (.arr []) (.str "20000000") (.str "1d00ffff")
      (.str "65a0c000") (.bool true) [] rfl rfl⟩

/-! ## The idle work loop -/

/-- C17: when `stratum.currentJob` is `null`, `_miningIteration` returns the
engine as it was: no counter of `stats` changes and the client, its `messageId`
and the requests written to its socket included, is untouched, so `submitShare`
was not called. -/
theorem miningIteration_idle_without_job (H : Host) (e : UnifiedMiningEngine) (hashRand : Rand)
    (draws : Nat → ThreadDraws) (hjob : e.stratum.currentJob = none) :
    e._miningIteration H hashRand draws = e := by
  unfold UnifiedMiningEngine._miningIteration
  rw [hjob]

/-- Instance of C17 at an engine whose client is connected and has no job yet. -/
theorem miningIteration_idle_without_job_witness :
    idleEngine.stratum.currentJob = none ∧
      idleEngine._miningIteration sampleHost randZero (fun _ => sampleDraws) = idleEngine :=
  ⟨rfl, miningIteration_idle_without_job sampleHost idleEngine randZero (fun _ => sampleDraws) rfl⟩

/-! ## The stream parser -/

open StratumClient (splitNL trimTruthy)

theorem splitNL_ne_nil (l : List Char) : splitNL l ≠ [] := by
  cases l with
  | nil => simp [splitNL]
  | cons ch cs =>
    unfold splitNL
    split
    · simp
    · split <;> simp

theorem splitNL_cons_newline (cs : List Char) : splitNL ('\n' :: cs) = [] :: splitNL cs := by
  obtain ⟨l, ls, h⟩ := List.exists_cons_of_ne_nil (splitNL_ne_nil cs)
  simp [splitNL, h]

theorem splitNL_cons_other (ch : Char) (cs : List Char) (hch : ch ≠ '\n') :
    splitNL (ch :: cs)
      = (ch :: (splitNL cs).headD []) :: (splitNL cs).tail := by
  obtain ⟨l, ls, h⟩ := List.exists_cons_of_ne_nil (splitNL_ne_nil cs)
  simp [splitNL, h, hch]

theorem splitNL_of_no_newline (l : List Char) (hl : '\n' ∉ l) : splitNL l = [l] := by
  induction l with
  | nil => simp [splitNL]
  | cons ch cs ih =>
    have hch : ch ≠ '\n' := fun h => hl (by simp [h])
    have hcs : '\n' ∉ cs := fun h => hl (by simp [h])
    rw [splitNL_cons_other ch cs hch, ih hcs]
    simp

theorem splitNL_line (l t : List Char) (hl : '\n' ∉ l) :
    splitNL (l ++ '\n' :: t) = l :: splitNL t := by
  induction l with
  | nil => simpa using splitNL_cons_newline t
  | cons ch cs ih =>
    have hch : ch ≠ '\n' := fun h => hl (by simp [h])
    have hcs : '\n' ∉ cs := fun h => hl (by simp [h])
    rw [List.cons_append, splitNL_cons_other ch _ hch, ih hcs]
    simp

theorem splitNL_terminated (ls : List (List Char)) (rest : List Char)
    (hls : ∀ l ∈ ls, '\n' ∉ l) (hrest : '\n' ∉ rest) :
    splitNL (terminated ls ++ rest) = ls ++ [rest] := by
  induction ls with
  | nil => simpa [terminated] using splitNL_of_no_newline rest hrest
  | cons l ls ih =>
    have h1 : '\n' ∉ l := hls l (by simp)
    have h2 : ∀ m ∈ ls, '\n' ∉ m := fun m hm => hls m (by simp [hm])
    simp only [terminated, List.append_assoc, List.cons_append]
    rw [splitNL_line l _ h1, ih h2]

theorem splitNL_append (a b : List Char) :
    splitNL (a ++ b)
      = (splitNL a).dropLast ++ splitNL ((splitNL a).getLast?.getD [] ++ b) := by
  induction a with
  | nil => simp [splitNL]
  | cons ch cs ih =>
    obtain ⟨l, ls, h⟩ := List.exists_cons_of_ne_nil (splitNL_ne_nil cs)
    obtain ⟨m, ms, hm⟩ := List.exists_cons_of_ne_nil
      (splitNL_ne_nil ((splitNL cs).getLast?.getD [] ++ b))
    by_cases hch : ch = '\n'
    · subst hch
      rw [List.cons_append, splitNL_cons_newline, splitNL_cons_newline, ih, h]
      simp [List.dropLast, List.getLast?_cons_cons]
    · rw [List.cons_append, splitNL_cons_other ch _ hch, splitNL_cons_other ch cs hch, ih, h]
      cases ls with
      | nil =>
        simp only [List.dropLast_single, List.nil_append, List.getLast?_singleton,
          Option.getD_some, List.headD_cons, List.tail_cons, List.cons_append]
        rw [splitNL_cons_other ch _ hch]
      | cons k ks =>
        simp [List.dropLast, List.getLast?_cons_cons]

theorem handleMiningNotify_socket (H : Host) (c : StratumClient) (x : Option Socket)
    (params : JSVal) :
    (StratumClient._handleMiningNotify H { c with socket := x } params).1
      = { (c._handleMiningNotify H params).1 with socket := x } := by
  unfold StratumClient._handleMiningNotify
  simp only []
  split <;> rfl

theorem handleResponse_socket (H : Host) (c : StratumClient) (x : Option Socket)
    (message : JSVal) :
    (StratumClient._handleResponse H { c with socket := x } message).1
      = { (c._handleResponse H message).1 with socket := x } := by
  unfold StratumClient._handleResponse
  split
  · split_ifs
    · simp only []
      split
      · rfl
      · split <;> rfl
    · rfl
    · rfl
    · rfl
  · rfl

theorem handleStratumMessage_socket (H : Host) (c : StratumClient) (x : Option Socket)
    (message : JSVal) :
    (StratumClient._handleStratumMessage H { c with socket := x } message).1
      = { (c._handleStratumMessage H message).1 with socket := x } := by
  unfold StratumClient._handleStratumMessage
  split
  · split_ifs
    · exact handleMiningNotify_socket H c x _
    · split <;> rfl
    · exact handleResponse_socket H c x _
    · rfl
  · rfl

theorem handleLine_socket (H : Host) (c : StratumClient) (x : Option Socket)
    (line : List Char) :
    StratumClient.handleLine H { c with socket := x } line
      = { c.handleLine H line with socket := x } := by
  unfold StratumClient.handleLine
  split_ifs
  · split
    · rfl
    · exact handleStratumMessage_socket H c x _
  · rfl

theorem foldl_handleLine_withBuffer (H : Host) (lines : List (List Char)) (c : StratumClient)
    (s : Socket) (buffer : List Char) :
    lines.foldl (StratumClient.handleLine H) (c.withBuffer s buffer)
      = (lines.foldl (StratumClient.handleLine H) c).withBuffer s buffer := by
  induction lines generalizing c with
  | nil => rfl
  | cons l ls ih =>
    rw [List.foldl_cons, List.foldl_cons, ← ih]
    congr 1
    exact handleLine_socket H c _ l

theorem onData_eq (H : Host) (c : StratumClient) (s : Socket) (data : String)
    (hsock : c.socket = some s) :
    c.onData H data
      = ((splitNL (s.buffer ++ data.toList)).dropLast.foldl (StratumClient.handleLine H) c).withBuffer
          s ((splitNL (s.buffer ++ data.toList)).getLast?.getD []) := by
  unfold StratumClient.onData
  rw [hsock]
  exact foldl_handleLine_withBuffer H _ c s _

theorem onData_append (H : Host) (c : StratumClient) (d1 d2 : String) :
    (c.onData H d1).onData H d2 = c.onData H (d1 ++ d2) := by
  cases hsock : c.socket with
  | none => simp [StratumClient.onData, hsock]
  | some s =>
    have happ : (d1 ++ d2).toList = d1.toList ++ d2.toList := String.data_append d1 d2
    rw [onData_eq H c s d1 hsock, onData_eq H c s (d1 ++ d2) hsock]
    rw [onData_eq H _ { s with buffer := (splitNL (s.buffer ++ d1.toList)).getLast?.getD [] } d2 rfl]
    rw [happ, ← List.append_assoc, splitNL_append (s.buffer ++ d1.toList) d2.toList]
    have hne := splitNL_ne_nil ((splitNL (s.buffer ++ d1.toList)).getLast?.getD [] ++ d2.toList)
    rw [List.dropLast_append_of_ne_nil _ hne, List.getLast?_append_of_ne_nil _ hne,
      List.foldl_append, foldl_handleLine_withBuffer]
    rfl

theorem handleLine_of_parse_error (H : Host) (c : StratumClient) (line : List Char)
    (hbad : H.jsonParse (String.mk line) = none) : c.handleLine H line = c := by
  unfold StratumClient.handleLine
  split_ifs
  · rw [hbad]
  · rfl

theorem handleLine_of_blank (H : Host) (c : StratumClient) (line : List Char)
    (hblank : trimTruthy line = false) : c.handleLine H line = c := by
  unfold StratumClient.handleLine
  simp [hblank]

theorem foldl_handleLine_filter (H : Host) (lines : List (List Char)) (c : StratumClient) :
    lines.foldl (StratumClient.handleLine H) c
      = (lines.filter trimTruthy).foldl (StratumClient.handleLine H) c := by
  induction lines generalizing c with
  | nil => rfl
  | cons l ls ih =>
    by_cases hl : trimTruthy l = true
    · rw [List.filter_cons_of_pos hl, List.foldl_cons, List.foldl_cons, ih]
    · rw [List.filter_cons_of_neg hl, List.foldl_cons, ih,
        handleLine_of_blank H c l (by simpa using hl)]

theorem onData_of_lines (H : Host) (c : StratumClient) (s : Socket) (data : String)
    (lines : List (List Char)) (rest : List Char)
    (hsock : c.socket = some s)
    (htext : s.buffer ++ data.toList = terminated lines ++ rest)
    (hlines : ∀ l ∈ lines, '\n' ∉ l) (hrest : '\n' ∉ rest) :
    c.onData H data = (lines.foldl (StratumClient.handleLine H) c).withBuffer s rest := by
  rw [onData_eq H c s data hsock, htext, splitNL_terminated lines rest hlines hrest]
  simp

/-- C14: when the buffered text and a received chunk together are the complete
lines `pre`, `bad`, `post` and the unfinished text `rest`, and `JSON.parse`
rejects `bad`, then handling `bad` changes no field of any client, and the data
handler has the effect of handling the lines of `pre` and then those of `post`,
in order, with `rest` kept in the buffer. -/
theorem malformed_line_dropped (H : Host) (c : StratumClient) (s : Socket) (data : String)
    (pre post : List (List Char)) (bad rest : List Char)
    (hsock : c.socket = some s)
    (htext : s.buffer ++ data.toList = terminated (pre ++ bad :: post) ++ rest)
    (hpre : ∀ l ∈ pre, '\n' ∉ l) (hbadline : '\n' ∉ bad) (hpost : ∀ l ∈ post, '\n' ∉ l)
    (hrest : '\n' ∉ rest)
    (hbad : H.jsonParse (String.mk bad) = none) :
    (∀ c2 : StratumClient, c2.handleLine H bad = c2) ∧
      c.onData H data
        = (post.foldl (StratumClient.handleLine H)
            (pre.foldl (StratumClient.handleLine H) c)).withBuffer s rest := by
  refine ⟨fun c2 => handleLine_of_parse_error H c2 bad hbad, ?_⟩
  have hlines : ∀ l ∈ pre ++ bad :: post, '\n' ∉ l := by
    intro l hl
    rcases List.mem_append.mp hl with h | h
    · exact hpre l h
    · rcases List.mem_cons.mp h with h | h
      · rw [h]
        exact hbadline
      · exact hpost l h
  rw [onData_of_lines H c s data _ rest hsock htext hlines hrest, List.foldl_append,
    List.foldl_cons, handleLine_of_parse_error H _ bad hbad]

/-- Instance of C14: a chunk with a response, the line `not json`, the response
again and an unfinished line, received by a connected client. -/
theorem malformed_line_dropped_witness :
    connectedClient.socket = some connectedSocket ∧
      connectedSocket.buffer ++ chunkWithBadLine.toList
        = terminated ([rejectLine.toList] ++ "not json".toList :: [rejectLine.toList])
          ++ "part".toList ∧
      poolHost.jsonParse (String.mk "not json".toList) = none ∧
      ((∀ c2 : StratumClient, c2.handleLine poolHost "not json".toList = c2) ∧
        connectedClient.onData poolHost chunkWithBadLine
          = ([rejectLine.toList].foldl (StratumClient.handleLine poolHost)
              ([rejectLine.toList].foldl (StratumClient.handleLine poolHost)
                connectedClient)).withBuffer connectedSocket "part".toList) :=
  have hbad : poolHost.jsonParse (String.mk "not json".toList) = none := by
    have hne : ¬ "not json" = rejectLine := by decide
    simp [poolHost, hne]
  ⟨rfl, by decide!, hbad,
    malformed_line_dropped poolHost connectedClient connectedSocket chunkWithBadLine
      [rejectLine.toList] [rejectLine.toList] "not json".toList "part".toList rfl (by decide!)
      (by decide!) (by decide!) (by decide!) (by decide!) hbad⟩

theorem foldl_onData_eq_concat (H : Host) (ds : List String) (d : String) (c : StratumClient) :
    (d :: ds).foldl (StratumClient.onData H) c = c.onData H (concatChunks (d :: ds)) := by
  induction ds generalizing c d with
  | nil => simp [concatChunks]
  | cons d2 ds ih =>
    rw [List.foldl_cons, ih d2 (c.onData H d)]
    rw [onData_append]
    rfl

/-- The data handler on decoded text: the client after the handler has received the
texts of the chunks one by one is the client after it has received the joined text
as one chunk, so two ways of splitting the same text give the same client; and when
the text, after what the buffer held, consists of the complete lines `lines` and
the unfinished text `rest`, the effect is that of handling the non-blank lines of
`lines` in order, with `rest` kept in the buffer and not parsed. -/
theorem stream_parser_chunk_independent (H : Host) (c : StratumClient) :
    (∀ (d : String) (ds : List String),
        (d :: ds).foldl (StratumClient.onData H) c = c.onData H (concatChunks (d :: ds))) ∧
      (∀ (d1 d2 : String) (ds1 ds2 : List String),
        concatChunks (d1 :: ds1) = concatChunks (d2 :: ds2) →
        (d1 :: ds1).foldl (StratumClient.onData H) c
          = (d2 :: ds2).foldl (StratumClient.onData H) c) ∧
      (∀ (s : Socket) (whole : String) (lines : List (List Char)) (rest : List Char),
        c.socket = some s →
        s.buffer ++ whole.toList = terminated lines ++ rest →
        (∀ l ∈ lines, '\n' ∉ l) → '\n' ∉ rest →
        c.onData H whole
          = ((lines.filter trimTruthy).foldl (StratumClient.handleLine H) c).withBuffer s
              rest) := by
  refine ⟨fun d ds => foldl_onData_eq_concat H ds d c, ?_, ?_⟩
  · intro d1 d2 ds1 ds2 h
    rw [foldl_onData_eq_concat, foldl_onData_eq_concat, h]
  · intro s whole lines rest hsock htext hlines hrest
    rw [onData_of_lines H c s whole lines rest hsock htext hlines hrest, foldl_handleLine_filter]

/-! ## Who changes the difficulty -/

/-- C13 at a concrete input: a connected client that has received
`mining.set_difficulty` with `[8]` holds difficulty 8, and a socket error
afterwards, which is not a difficulty-change event, sets the difficulty to 1 (and
`simulationMode` to true).  When the socket error comes before the connection is
established, the difficulty is 1 before and after it. -/
theorem socket_error_resets_difficulty :
    (connectedClient.connected = true ∧ connectedClient.simulationMode = false ∧
      toNumber sampleHost
        (connectedClient._handleStratumMessage sampleHost setDifficultyMsg).1.difficulty
        = .fin 8 ∧
      Event.enabled (connectedClient._handleStratumMessage sampleHost setDifficultyMsg).1
        (.socketError 0) = true ∧
      toNumber sampleHost
        ((connectedClient._handleStratumMessage sampleHost setDifficultyMsg).1.step sampleHost
          (.socketError 0)).difficulty
        = .fin 1 ∧
      ((connectedClient._handleStratumMessage sampleHost setDifficultyMsg).1.step sampleHost
          (.socketError 0)).simulationMode = true) ∧
      (toNumber sampleHost (freshClient.connect false).difficulty = .fin 1 ∧
        Event.enabled (freshClient.connect false) (.socketError 0) = true ∧
        toNumber sampleHost
          ((freshClient.connect false).step sampleHost (.socketError 0)).difficulty = .fin 1) := by
  decide!

theorem clearTimeout_difficulty (c : StratumClient) :
    c.clearTimeout.difficulty = c.difficulty := by
  unfold StratumClient.clearTimeout
  split <;> rfl

theorem handleMiningNotify_difficulty (H : Host) (c : StratumClient) (params : JSVal) :
    (c._handleMiningNotify H params).1.difficulty = c.difficulty := by
  unfold StratumClient._handleMiningNotify
  simp only []
  split <;> rfl

theorem handleResponse_difficulty (H : Host) (c : StratumClient) (message : JSVal) :
    (c._handleResponse H message).1.difficulty = c.difficulty := by
  unfold StratumClient._handleResponse
  split
  · split_ifs
    · simp only []
      split
      · rfl
      · split <;> rfl
    · rfl
    · rfl
    · rfl
  · rfl

/-- What changes the difficulty: a `mining.set_difficulty` message and entering
simulation mode, nothing else.  `connect`, the connection listener,
the close handler, `subscribe`, `authorize`, `submitShare`, `disconnect`, a
job notification, a response and every message whose method is not
`mining.set_difficulty` leave it unchanged; `mining.set_difficulty` with params
`[d, ...]` sets it to `d`; the error handler of the socket and the timer
callback of `connect` set it to 1. -/
theorem difficulty_changed_only_by_set_difficulty_or_simulation (H : Host)
    (c : StratumClient) :
    ((∀ createThrows, (c.connect createThrows).difficulty = c.difficulty) ∧
        c.onConnect.difficulty = c.difficulty ∧
        c.onClose.difficulty = c.difficulty ∧
        c.subscribe.difficulty = c.difficulty ∧
        c.authorize.difficulty = c.difficulty ∧
        (∀ jobId extranonce2 ntime nonce rand,
          (c.submitShare jobId extranonce2 ntime nonce rand).2.difficulty = c.difficulty) ∧
        c.disconnect.difficulty = c.difficulty) ∧
      ((∀ params, (c._handleMiningNotify H params).1.difficulty = c.difficulty) ∧
        (∀ message, (c._handleResponse H message).1.difficulty = c.difficulty) ∧
        (∀ message,
          (∀ method, message.get? "method" = some method →
            method.strictEqStr "mining.set_difficulty" = false) →
          (c._handleStratumMessage H message).1.difficulty = c.difficulty)) ∧
      (∀ message d rest,
        message.get? "method" = some (.str "mining.set_difficulty") →
        message.get? "params" = some (.arr (d :: rest)) →
        (c._handleStratumMessage H message).1.difficulty = d) ∧
      (∀ now, (c.onError now).difficulty = .num (.fin 1) ∧
        (c.onTimeout now).difficulty = .num (.fin 1)) := by
  refine ⟨⟨?_, ?_, rfl, ?_, ?_, ?_, ?_⟩, ⟨?_, ?_, ?_⟩, ?_, ?_⟩
  · intro createThrows
    simp only [StratumClient.connect]
    split_ifs <;> rfl
  · simp only [StratumClient.onConnect, StratumClient._setupSocketHandlers]
    rw [(resolveTrue_fields _).2.2.2.2.2.1]
    split <;> simp [clearTimeout_difficulty]
  · simp only [StratumClient.subscribe]
    split_ifs
    · rfl
    · rw [send_difficulty]
  · simp only [StratumClient.authorize]
    split_ifs
    · rfl
    · rw [send_difficulty]
  · intro jobId extranonce2 ntime nonce rand
    exact submitShare_difficulty c _ _ _ _ _
  · simp only [StratumClient.disconnect]
    split <;> rfl
  · exact handleMiningNotify_difficulty H c
  · exact handleResponse_difficulty H c
  · intro message hmethod
    unfold StratumClient._handleStratumMessage
    split
    · rename_i method params result id hm hp hr hi
      have hnot := hmethod method hm
      split_ifs with h1 h2 h3
      · exact handleMiningNotify_difficulty H c _
      · rw [hnot] at h2
        exact absurd h2 (by simp)
      · exact handleResponse_difficulty H c _
      · rfl
    · rfl
  · intro message d rest hmethod hparams
    cases message with
    | obj fields =>
      simp only [JSVal.get?, Option.some.injEq] at hmethod hparams
      simp [StratumClient._handleStratumMessage, JSVal.get?, hmethod, hparams,
        JSVal.strictEqStr, JSVal.index]
    | undefined => simp [JSVal.get?] at hmethod
    | null => simp [JSVal.get?] at hmethod
    | bool b => simp [JSVal.get?] at hmethod
    | num n => simp [JSVal.get?] at hmethod
    | str t => simp [JSVal.get?] at hmethod
    | arr xs => simp [JSVal.get?] at hmethod
  · intro now
    constructor
    · simp only [StratumClient.onError]
      rw [(resolveTrue_fields _).2.2.2.2.2.1]
      rfl
    · simp only [StratumClient.onTimeout]
      rw [(resolveTrue_fields _).2.2.2.2.2.1]
      rfl

/-! ## The loop of `startMining` -/

theorem miningThread_isRunning (H : Host) (job : Job) (e : UnifiedMiningEngine)
    (d : ThreadDraws) :
    (UnifiedMiningEngine.miningThread H job e d).isRunning = e.isRunning := by
  unfold UnifiedMiningEngine.miningThread
  simp only []
  split_ifs <;> rfl

theorem foldl_miningThread_induct (H : Host) (job : Job) (draws : Nat → ThreadDraws)
    (P : UnifiedMiningEngine → Prop)
    (hstep : ∀ e d, P e → P (UnifiedMiningEngine.miningThread H job e d))
    (l : List Nat) (e : UnifiedMiningEngine) (h : P e) :
    P (l.foldl (fun e i => UnifiedMiningEngine.miningThread H job e (draws i)) e) := by
  induction l generalizing e with
  | nil => exact h
  | cons i l ih =>
    rw [List.foldl_cons]
    exact ih _ (hstep e (draws i) h)

theorem miningIteration_isRunning (H : Host) (e : UnifiedMiningEngine) (hashRand : Rand)
    (draws : Nat → ThreadDraws) :
    (e._miningIteration H hashRand draws).isRunning = e.isRunning := by
  unfold UnifiedMiningEngine._miningIteration
  split
  · rfl
  · exact foldl_miningThread_induct H _ draws (fun x => x.isRunning = e.isRunning)
      (fun x d hx => (miningThread_isRunning H _ x d).trans hx) _ _ rfl

theorem getHashRate_isRunning (e : UnifiedMiningEngine) (now : Nat) :
    (e.getHashRate now).2.isRunning = e.isRunning := by
  unfold UnifiedMiningEngine.getHashRate
  simp only []
  split_ifs <;> rfl

theorem interfere_isRunning (H : Host) (e : UnifiedMiningEngine) (x : Interference) :
    (e.interfere H x).isRunning = (e.isRunning && !x.isStop) := by
  cases x with
  | stop => simp [UnifiedMiningEngine.interfere, UnifiedMiningEngine.stop, Interference.isStop]
  | getStats now =>
    simp [UnifiedMiningEngine.interfere, UnifiedMiningEngine.getStats, Interference.isStop,
      getHashRate_isRunning]
  | optimizeSpeedup => simp [UnifiedMiningEngine.interfere, Interference.isStop]
  | client ev => simp [UnifiedMiningEngine.interfere, Interference.isStop]

theorem foldl_interfere_isRunning (H : Host) (xs : List Interference) (e : UnifiedMiningEngine) :
    (xs.foldl (UnifiedMiningEngine.interfere H) e).isRunning
      = (e.isRunning && !xs.any Interference.isStop) := by
  induction xs generalizing e with
  | nil => simp
  | cons x xs ih =>
    rw [List.foldl_cons, ih, interfere_isRunning]
    simp [Bool.and_assoc]

theorem loopBody_isRunning (H : Host) (i : Nat) (inp : LoopInput) (e : UnifiedMiningEngine) :
    (UnifiedMiningEngine.loopBody H i inp e).isRunning = (e.isRunning && !inp.stops) := by
  unfold UnifiedMiningEngine.loopBody
  simp only []
  rw [foldl_interfere_isRunning]
  have hdisp : ∀ x : UnifiedMiningEngine,
      (if i % 10 = 0 then x._displayStats inp.displayClock else x).isRunning = x.isRunning := by
    intro x
    split_ifs
    · exact getHashRate_isRunning x _
    · rfl
  rw [hdisp, foldl_interfere_isRunning, miningIteration_isRunning]
  simp [LoopInput.stops, Bool.and_assoc]

theorem miningLoop_of_not_running (H : Host) (iterations : Nat) (inputs : Nat → LoopInput)
    (remaining : Nat) (e : UnifiedMiningEngine) (hrun : e.isRunning = false) :
    UnifiedMiningEngine.miningLoop H iterations inputs remaining e = (e, 0) := by
  cases remaining with
  | zero => rfl
  | succ r => simp [UnifiedMiningEngine.miningLoop, hrun]

theorem miningLoop_count_no_stop (H : Host) (iterations : Nat) (inputs : Nat → LoopInput)
    (remaining : Nat) (e : UnifiedMiningEngine) (hrun : e.isRunning = true)
    (hle : remaining ≤ iterations)
    (hquiet : ∀ i, iterations - remaining ≤ i → i < iterations → (inputs i).stops = false) :
    (UnifiedMiningEngine.miningLoop H iterations inputs remaining e).2 = remaining := by
  induction remaining generalizing e with
  | zero => rfl
  | succ r ih =>
    have hq := hquiet (iterations - (r + 1)) (le_refl _) (by omega)
    simp only [UnifiedMiningEngine.miningLoop, hrun, if_true]
    rw [ih _ (by rw [loopBody_isRunning, hrun, hq]; rfl) (by omega)
      (fun i h1 h2 => hquiet i (by omega) h2)]

theorem miningLoop_count_stop (H : Host) (iterations : Nat) (inputs : Nat → LoopInput)
    (k : Nat) (remaining : Nat) (e : UnifiedMiningEngine) (hrun : e.isRunning = true)
    (hle : remaining ≤ iterations) (hk1 : iterations - remaining ≤ k) (hk2 : k < iterations)
    (hquiet : ∀ i, iterations - remaining ≤ i → i < k → (inputs i).stops = false)
    (hstop : (inputs k).stops = true) :
    (UnifiedMiningEngine.miningLoop H iterations inputs remaining e).2
        = k + 1 - (iterations - remaining) ∧
      (UnifiedMiningEngine.miningLoop H iterations inputs remaining e).1.isRunning = false := by
  induction remaining generalizing e with
  | zero => omega
  | succ r ih =>
    simp only [UnifiedMiningEngine.miningLoop, hrun, if_true]
    by_cases hk : k = iterations - (r + 1)
    · have hoff : (UnifiedMiningEngine.loopBody H (iterations - (r + 1))
          (inputs (iterations - (r + 1))) e).isRunning = false := by
        rw [loopBody_isRunning, hrun, ← hk, hstop]
        rfl
      rw [miningLoop_of_not_running _ _ _ _ _ hoff]
      simp only []
      exact ⟨by omega, hoff⟩
    · have hq := hquiet (iterations - (r + 1)) (le_refl _) (by omega)
      have hon : (UnifiedMiningEngine.loopBody H (iterations - (r + 1))
          (inputs (iterations - (r + 1))) e).isRunning = true := by
        rw [loopBody_isRunning, hrun, hq]
        rfl
      obtain ⟨h1, h2⟩ := ih _ hon (by omega) (by omega)
        (fun i h1 h2 => hquiet i (by omega) h2)
      exact ⟨by rw [h1]; omega, h2⟩

/-- C16: `startMining(n)` returns, for every `n`, the `stats` of the engine; when
`stop()` is not called during any of the `n` passes the body of the loop is run
exactly `n` times, and when `stop()` is first called during pass `k` (counted
from 0) the body is run exactly `k + 1` times: no pass is started after it. -/
theorem startMining_bounded_and_stoppable (H : Host) (e : UnifiedMiningEngine) (n now : Nat)
    (inputs : Nat → LoopInput) :
    (e.startMining H n now inputs).1 = (e.startMining H n now inputs).2.1.stats ∧
      ((∀ i, i < n → (inputs i).stops = false) →
        (e.startMining H n now inputs).2.2 = n) ∧
      (∀ k, k < n → (∀ i, i < k → (inputs i).stops = false) → (inputs k).stops = true →
        (e.startMining H n now inputs).2.2 = k + 1 ∧
        (e.startMining H n now inputs).2.1.isRunning = false) := by
  refine ⟨rfl, ?_, ?_⟩
  · intro hquiet
    exact miningLoop_count_no_stop H n inputs n _ rfl (le_refl _) (fun i _ h2 => hquiet i h2)
  · intro k hk hquiet hstop
    obtain ⟨h1, h2⟩ := miningLoop_count_stop H n inputs k n
      ({ ({ e with isRunning := true } : UnifiedMiningEngine) with
          stats := { e.stats with startTime := now } })
      rfl (le_refl _) (by omega) hk (fun i _ h2 => hquiet i h2) hstop
    constructor
    · simp only [UnifiedMiningEngine.startMining]
      rw [h1]
      omega
    · exact h2

/-- Instance of C16 at an engine in simulation mode: three quiet passes run the
body three times, and `stop()` during the second of three passes leaves two. -/
theorem startMining_bounded_and_stoppable_witness :
    (simEngine.startMining sampleHost 3 0 (fun _ => quietInput)).2.2 = 3 ∧
      (simEngine.startMining sampleHost 3 0
        (fun i => if i = 1 then stoppingInput else quietInput)).2.2 = 1 + 1 :=
  ⟨(startMining_bounded_and_stoppable sampleHost simEngine 3 0 (fun _ => quietInput)).2.1
      (fun _ _ => rfl),
    ((startMining_bounded_and_stoppable sampleHost simEngine 3 0
      (fun i => if i = 1 then stoppingInput else quietInput)).2.2 1 (by decide)
      (fun i hi => by
        have h0 : i = 0 := by omega
        subst h0
        rfl)
      rfl).1⟩

/-! ## The batch size -/

theorem miningThread_sharesFound_le (H : Host) (job : Job) (e : UnifiedMiningEngine)
    (d : ThreadDraws) :
    (UnifiedMiningEngine.miningThread H job e d).stats.sharesFound ≤ e.stats.sharesFound + 1 := by
  unfold UnifiedMiningEngine.miningThread
  simp only []
  split_ifs <;> simp

theorem foldl_miningThread_sharesFound_le (H : Host) (job : Job) (draws : Nat → ThreadDraws)
    (l : List Nat) (e : UnifiedMiningEngine) :
    (l.foldl (fun e i => UnifiedMiningEngine.miningThread H job e (draws i)) e).stats.sharesFound
      ≤ e.stats.sharesFound + l.length := by
  induction l generalizing e with
  | nil => simp
  | cons i l ih =>
    rw [List.foldl_cons]
    have h1 := ih (UnifiedMiningEngine.miningThread H job e (draws i))
    have h2 := miningThread_sharesFound_le H job e (draws i)
    simp only [List.length_cons]
    omega

theorem miningIteration_sharesFound_le (H : Host) (e : UnifiedMiningEngine) (hashRand : Rand)
    (draws : Nat → ThreadDraws) :
    (e._miningIteration H hashRand draws).stats.sharesFound
      ≤ e.stats.sharesFound + CONFIG.MINER_THREADS := by
  unfold UnifiedMiningEngine._miningIteration
  split
  · omega
  · rename_i job hjob
    have h := foldl_miningThread_sharesFound_le H job draws (List.range CONFIG.MINER_THREADS)
      { e with stats :=
        { e.stats with hashesComputed :=
            e.stats.hashesComputed + Int.floor (1000 * e.quantumSpeedup * hashRand.val) } }
    simpa using h

theorem getHashRate_sharesFound (e : UnifiedMiningEngine) (now : Nat) :
    (e.getHashRate now).2.stats.sharesFound = e.stats.sharesFound := by
  unfold UnifiedMiningEngine.getHashRate
  simp only []
  split_ifs <;> rfl

theorem interfere_sharesFound (H : Host) (e : UnifiedMiningEngine) (x : Interference) :
    (e.interfere H x).stats.sharesFound = e.stats.sharesFound := by
  cases x with
  | stop => rfl
  | getStats now => exact getHashRate_sharesFound e now
  | optimizeSpeedup => rfl
  | client ev => rfl

theorem foldl_interfere_sharesFound (H : Host) (xs : List Interference)
    (e : UnifiedMiningEngine) :
    (xs.foldl (UnifiedMiningEngine.interfere H) e).stats.sharesFound = e.stats.sharesFound := by
  induction xs generalizing e with
  | nil => rfl
  | cons x xs ih => rw [List.foldl_cons, ih, interfere_sharesFound]

theorem loopBody_sharesFound_le (H : Host) (i : Nat) (inp : LoopInput)
    (e : UnifiedMiningEngine) :
    (UnifiedMiningEngine.loopBody H i inp e).stats.sharesFound
      ≤ e.stats.sharesFound + CONFIG.MINER_THREADS := by
  unfold UnifiedMiningEngine.loopBody
  simp only []
  rw [foldl_interfere_sharesFound]
  have hdisp : ∀ x : UnifiedMiningEngine,
      (if i % 10 = 0 then x._displayStats inp.displayClock else x).stats.sharesFound
        = x.stats.sharesFound := by
    intro x
    split_ifs
    · exact getHashRate_sharesFound x _
    · rfl
  rw [hdisp, foldl_interfere_sharesFound]
  exact miningIteration_sharesFound_le H e _ _

theorem miningLoop_sharesFound_le (H : Host) (iterations : Nat) (inputs : Nat → LoopInput)
    (remaining : Nat) (e : UnifiedMiningEngine) :
    (UnifiedMiningEngine.miningLoop H iterations inputs remaining e).1.stats.sharesFound
      ≤ e.stats.sharesFound + CONFIG.MINER_THREADS * remaining := by
  induction remaining generalizing e with
  | zero => simp [UnifiedMiningEngine.miningLoop]
  | succ r ih =>
    simp only [UnifiedMiningEngine.miningLoop]
    split_ifs
    · have h1 := ih (UnifiedMiningEngine.loopBody H (iterations - (r + 1))
        (inputs (iterations - (r + 1))) e)
      have h2 := loopBody_sharesFound_le H (iterations - (r + 1))
        (inputs (iterations - (r + 1))) e
      simp only []
      rw [Nat.mul_succ]
      omega
    · simp

/-- C18: `CONFIG.MINER_THREADS` is 4; with a job present `_miningIteration` is
exactly four passes of the loop body, one candidate nonce each, after the hash
counter is raised; so `sharesFound` grows by at most 4 in one `_miningIteration`
and by at most `4 * n` over `startMining(n)`. -/
theorem batch_size_is_thread_count (H : Host) (e : UnifiedMiningEngine) (hashRand : Rand)
    (draws : Nat → ThreadDraws) (n now : Nat) (inputs : Nat → LoopInput) :
    CONFIG.MINER_THREADS = 4 ∧
      (∀ job, e.stratum.currentJob = some job →
        e._miningIteration H hashRand draws
          = UnifiedMiningEngine.miningThread H job
              (UnifiedMiningEngine.miningThread H job
                (UnifiedMiningEngine.miningThread H job
                  (UnifiedMiningEngine.miningThread H job
                    { e with stats :=
                      { e.stats with hashesComputed :=
                          e.stats.hashesComputed
                            + Int.floor (1000 * e.quantumSpeedup * hashRand.val) } }
                    (draws 0))
                  (draws 1))
                (draws 2))
              (draws 3)) ∧
      (e._miningIteration H hashRand draws).stats.sharesFound ≤ e.stats.sharesFound + 4 ∧
      (e.startMining H n now inputs).1.sharesFound ≤ e.stats.sharesFound + 4 * n := by
  refine ⟨rfl, ?_, miningIteration_sharesFound_le H e hashRand draws, ?_⟩
  · intro job hjob
    unfold UnifiedMiningEngine._miningIteration
    rw [hjob]
    rfl
  · exact miningLoop_sharesFound_le H n inputs n _

/-! ## Monotonic statistics -/

theorem noDecrease_refl (a : Stats) : Stats.NoDecrease a a := by
  simp [Stats.NoDecrease]

theorem noDecrease_trans (a b c : Stats) (hab : Stats.NoDecrease a b)
    (hbc : Stats.NoDecrease b c) : Stats.NoDecrease a c := by
  obtain ⟨a1, a2, a3, a4, a5, a6, a7⟩ := hab
  obtain ⟨b1, b2, b3, b4, b5, b6, b7⟩ := hbc
  exact ⟨le_trans a1 b1, le_trans a2 b2, le_trans a3 b3, le_trans a4 b4, le_trans a5 b5,
    le_trans a6 b6, by omega⟩

theorem miningThread_noDecrease (H : Host) (job : Job) (e : UnifiedMiningEngine)
    (d : ThreadDraws) :
    Stats.NoDecrease e.stats (UnifiedMiningEngine.miningThread H job e d).stats := by
  unfold UnifiedMiningEngine.miningThread Stats.NoDecrease
  simp only []
  split_ifs <;> simp <;> first | omega | exact ⟨by norm_num, by omega⟩

theorem miningIteration_noDecrease (H : Host) (e : UnifiedMiningEngine) (hashRand : Rand)
    (draws : Nat → ThreadDraws) (hq : 0 ≤ e.quantumSpeedup) :
    Stats.NoDecrease e.stats (e._miningIteration H hashRand draws).stats := by
  unfold UnifiedMiningEngine._miningIteration
  split
  · exact noDecrease_refl _
  · rename_i job hjob
    apply foldl_miningThread_induct H job draws (fun x => Stats.NoDecrease e.stats x.stats)
      (fun x d hx => noDecrease_trans _ _ _ hx (miningThread_noDecrease H job x d))
    have hfloor : 0 ≤ Int.floor (1000 * e.quantumSpeedup * hashRand.val) :=
      Int.floor_nonneg.mpr (mul_nonneg (mul_nonneg (by norm_num) hq) hashRand.nonneg)
    simp only [Stats.NoDecrease]
    refine ⟨by omega, le_refl _, le_refl _, le_refl _, le_refl _, le_refl _, le_refl _⟩

/-- C20: across one `_miningIteration`, whatever the job, the difficulty, the mode
and the random values, provided `quantumSpeedup` is not negative, none of
`hashesComputed`, `sharesFound`, `sharesAccepted`, `sharesRejected`,
`blocksFound` and `btcEarned` decreases, and `sharesAccepted <= sharesFound` is
kept; it holds for a new engine, hence after every sequence of iterations and
client events from a new engine. -/
theorem statistics_monotonic (H : Host) (e : UnifiedMiningEngine) (hashRand : Rand)
    (draws : Nat → ThreadDraws) (hq : 0 ≤ e.quantumSpeedup) :
    (e.stats.hashesComputed ≤ (e._miningIteration H hashRand draws).stats.hashesComputed ∧
        e.stats.sharesFound ≤ (e._miningIteration H hashRand draws).stats.sharesFound ∧
        e.stats.sharesAccepted ≤ (e._miningIteration H hashRand draws).stats.sharesAccepted ∧
        e.stats.sharesRejected ≤ (e._miningIteration H hashRand draws).stats.sharesRejected ∧
        e.stats.blocksFound ≤ (e._miningIteration H hashRand draws).stats.blocksFound ∧
        e.stats.btcEarned ≤ (e._miningIteration H hashRand draws).stats.btcEarned) ∧
      (e.stats.sharesAccepted ≤ e.stats.sharesFound →
        (e._miningIteration H hashRand draws).stats.sharesAccepted
          ≤ (e._miningIteration H hashRand draws).stats.sharesFound) ∧
      (∀ (stratum : StratumClient) (now1 now2 : Nat) (steps : List EngineStep),
        ((UnifiedMiningEngine.new stratum now1 now2).run H steps).stats.sharesAccepted
          ≤ ((UnifiedMiningEngine.new stratum now1 now2).run H steps).stats.sharesFound) := by
  obtain ⟨h1, h2, h3, h4, h5, h6, h7⟩ := miningIteration_noDecrease H e hashRand draws hq
  refine ⟨⟨h1, h2, h3, h4, h5, h6⟩, fun h => by omega, ?_⟩
  intro stratum now1 now2 steps
  have := run_accounting H steps (UnifiedMiningEngine.new stratum now1 now2) rfl
  omega

/-- Instance of C20 at an engine in simulation mode, whose `quantumSpeedup` is 2.5. -/
theorem statistics_monotonic_witness :
    (0 : ℚ) ≤ simEngine.quantumSpeedup ∧
      simEngine.stats.sharesFound
        ≤ (simEngine._miningIteration sampleHost randHigh (fun _ => sampleDraws)).stats.sharesFound :=
  have hq : (0 : ℚ) ≤ simEngine.quantumSpeedup := by
    show (0 : ℚ) ≤ 5 / 2
    norm_num
  ⟨hq, (statistics_monotonic sampleHost simEngine randHigh (fun _ => sampleDraws) hq).1.2.1⟩

/-! ## The candidate hash -/

/-- The SHA-256 of this file agrees with the test vector `abc` of FIPS 180-4. -/
theorem sha256_abc :
    Sha256.hex (Sha256.digest (Sha256.utf8 "abc"))
      = "ba7816bf8f01cfea414140de5dae2223b00361a396177a9cb410ff61f20015ad" := by
  decide!

/-- C19, as stated, fails: for the job of simulation mode and the nonce 0, the
digest computed when `Date.now()` is 1700000000000 differs from the one computed
a millisecond later. -/
theorem candidate_hash_depends_on_clock :
    UnifiedMiningEngine._doubleSHA256 shaHost simJob 0 1700000000000
        = "59616a12104095074d4ab2ef8bd886525c20394b6952575da60fdf6137567e05" ∧
      UnifiedMiningEngine._doubleSHA256 shaHost simJob 0 1700000000001
        = "eb480ef1f9bb6f028a689c42545ae9dc7af039c72c878c8799fda5f3a8912a6d" ∧
      UnifiedMiningEngine._doubleSHA256 shaHost simJob 0 1700000000000
        ≠ UnifiedMiningEngine._doubleSHA256 shaHost simJob 0 1700000000001 := by
  decide!

/-- C19, amended: the candidate hash is a function of `job.prevHash`, the nonce
and the value of `Date.now()` at the call: two calls with the same nonce and the
same clock reading, on jobs with the same `prevHash`, return the same digest,
whatever the other fields of the jobs. -/
theorem candidate_hash_function_of_prevHash_nonce_clock (H : Host) (job1 job2 : Job)
    (nonce now : Nat) (hprev : job1.prevHash = job2.prevHash) :
    UnifiedMiningEngine._doubleSHA256 H job1 nonce now
      = UnifiedMiningEngine._doubleSHA256 H job2 nonce now := by
  unfold UnifiedMiningEngine._doubleSHA256
  rw [hprev]

/-- Instance of the amended C19: the job of simulation mode and the same job
under another `jobId` give the same digest. -/
theorem candidate_hash_function_of_prevHash_nonce_clock_witness :
    simJob.prevHash = ({ simJob with jobId := .str "job2" } : Job).prevHash ∧
      UnifiedMiningEngine._doubleSHA256 shaHost simJob 42 1700000000000
        = UnifiedMiningEngine._doubleSHA256 shaHost { simJob with jobId := .str "job2" } 42
            1700000000000 :=
  ⟨rfl,
    candidate_hash_function_of_prevHash_nonce_clock shaHost simJob
      { simJob with jobId := .str "job2" } 42 1700000000000 rfl⟩

/-! ## The reporting layer -/

/-- C21, as stated, fails: on an engine that has computed 1875 hashes since the
last check at clock 0, `getStats()` at clock 1000 returns the hash rate 1875 and
moves `lastHashRateCheck` and `hashesAtLastCheck`; a second `getStats()` at clock
2000, with no mining in between, returns the hash rate 0. -/
theorem getStats_twice_different_hashRate :
    minedEngine.stats.hashesComputed = 1875 ∧
      minedEngine.stats.lastHashRateCheck = 0 ∧ minedEngine.stats.hashesAtLastCheck = 0 ∧
      (minedEngine.getStats 1000).1.hashRate = 1875 ∧
      (minedEngine.getStats 1000).2.stats.lastHashRateCheck = 1000 ∧
      (minedEngine.getStats 1000).2.stats.hashesAtLastCheck = 1875 ∧
      ((minedEngine.getStats 1000).2.getStats 2000).1.hashRate = 0 := by
  decide!

theorem getHashRate_counters (e : UnifiedMiningEngine) (now : Nat) :
    (e.getHashRate now).2.stats.hashesComputed = e.stats.hashesComputed ∧
      (e.getHashRate now).2.stats.sharesFound = e.stats.sharesFound ∧
      (e.getHashRate now).2.stats.sharesAccepted = e.stats.sharesAccepted ∧
      (e.getHashRate now).2.stats.sharesRejected = e.stats.sharesRejected ∧
      (e.getHashRate now).2.stats.blocksFound = e.stats.blocksFound ∧
      (e.getHashRate now).2.stats.btcEarned = e.stats.btcEarned ∧
      (e.getHashRate now).2.stats.startTime = e.stats.startTime := by
  unfold UnifiedMiningEngine.getHashRate
  simp only []
  split_ifs <;> simp

theorem getHashRate_of_later (e : UnifiedMiningEngine) (now : Nat)
    (hlater : e.stats.lastHashRateCheck < now) :
    e.getHashRate now
      = (((e.stats.hashesComputed - e.stats.hashesAtLastCheck : ℤ) : ℚ)
            / (((now : ℚ) - (e.stats.lastHashRateCheck : ℚ)) / 1000),
          { e with stats :=
            { e.stats with
              lastHashRateCheck := now, hashesAtLastCheck := e.stats.hashesComputed } }) := by
  have hpos : ((now : ℚ) - (e.stats.lastHashRateCheck : ℚ)) / 1000 > 0 := by
    have : (e.stats.lastHashRateCheck : ℚ) < (now : ℚ) := by exact_mod_cast hlater
    apply div_pos
    · linarith
    · norm_num
  unfold UnifiedMiningEngine.getHashRate
  simp only []
  rw [if_pos hpos]

/-- C21, amended: `getHashRate`, `_displayStats` and `getStats` leave the counters
`hashesComputed`, `sharesFound`, `sharesAccepted`, `sharesRejected`,
`blocksFound`, `btcEarned` and `startTime` unchanged, and when the clock has
advanced since the last check they set `lastHashRateCheck` to the clock and
`hashesAtLastCheck` to `hashesComputed`; so of two consecutive `getStats` calls
with no mining in between and the clock advancing, the first returns the hashes
computed since the last check divided by the seconds elapsed and the second
returns the hash rate 0. -/
theorem reporting_keeps_counters_and_moves_rate_window (e : UnifiedMiningEngine)
    (now1 now2 : Nat) (h1 : e.stats.lastHashRateCheck < now1) (h2 : now1 < now2) :
    ((e.getHashRate now1).2.stats.hashesComputed = e.stats.hashesComputed ∧
        (e.getHashRate now1).2.stats.sharesFound = e.stats.sharesFound ∧
        (e.getHashRate now1).2.stats.sharesAccepted = e.stats.sharesAccepted ∧
        (e.getHashRate now1).2.stats.sharesRejected = e.stats.sharesRejected ∧
        (e.getHashRate now1).2.stats.blocksFound = e.stats.blocksFound ∧
        (e.getHashRate now1).2.stats.btcEarned = e.stats.btcEarned ∧
        (e.getHashRate now1).2.stats.startTime = e.stats.startTime) ∧
      (e._displayStats now1 = (e.getHashRate now1).2 ∧
        (e.getStats now1).2 = (e.getHashRate now1).2) ∧
      ((e.getHashRate now1).2.stats.lastHashRateCheck = now1 ∧
        (e.getHashRate now1).2.stats.hashesAtLastCheck = e.stats.hashesComputed) ∧
      (e.getStats now1).1.hashRate
        = ((e.stats.hashesComputed - e.stats.hashesAtLastCheck : ℤ) : ℚ)
            / (((now1 : ℚ) - (e.stats.lastHashRateCheck : ℚ)) / 1000) ∧
      ((e.getStats now1).2.getStats now2).1.hashRate = 0 := by
  refine ⟨getHashRate_counters e now1, ⟨rfl, rfl⟩, ?_, ?_, ?_⟩
  · rw [getHashRate_of_later e now1 h1]
    exact ⟨rfl, rfl⟩
  · simp only [UnifiedMiningEngine.getStats]
    rw [getHashRate_of_later e now1 h1]
  · simp only [UnifiedMiningEngine.getStats]
    rw [getHashRate_of_later e now1 h1]
    rw [getHashRate_of_later _ now2 h2]
    simp

/-- Instance of the amended C21 at the engine that has computed 1875 hashes, with
`getStats()` at the clock readings 1000 and 2000. -/
theorem reporting_keeps_counters_and_moves_rate_window_witness :
    minedEngine.stats.lastHashRateCheck < 1000 ∧ 1000 < 2000 ∧
      ((minedEngine.getStats 1000).2.getStats 2000).1.hashRate = 0 :=
  ⟨by decide!, by decide,
    (reporting_keeps_counters_and_moves_rate_window minedEngine 1000 2000 (by decide!)
      (by decide)).2.2.2.2⟩

/-! ## Request ids -/

theorem handleMiningNotify_frame (H : Host) (c : StratumClient) (params : JSVal) :
    (c._handleMiningNotify H params).1.socket = c.socket ∧
      (c._handleMiningNotify H params).1.messageId = c.messageId ∧
      (c._handleMiningNotify H params).1.connected = c.connected := by
  unfold StratumClient._handleMiningNotify
  simp only []
  split <;> exact ⟨rfl, rfl, rfl⟩

theorem handleResponse_frame (H : Host) (c : StratumClient) (message : JSVal) :
    (c._handleResponse H message).1.socket = c.socket ∧
      (c._handleResponse H message).1.messageId = c.messageId ∧
      (c._handleResponse H message).1.connected = c.connected := by
  unfold StratumClient._handleResponse
  split
  · split_ifs
    · simp only []
      split
      · exact ⟨rfl, rfl, rfl⟩
      · split <;> exact ⟨rfl, rfl, rfl⟩
    · exact ⟨rfl, rfl, rfl⟩
    · exact ⟨rfl, rfl, rfl⟩
    · exact ⟨rfl, rfl, rfl⟩
  · exact ⟨rfl, rfl, rfl⟩

theorem handleStratumMessage_frame (H : Host) (c : StratumClient) (message : JSVal) :
    (c._handleStratumMessage H message).1.socket = c.socket ∧
      (c._handleStratumMessage H message).1.messageId = c.messageId ∧
      (c._handleStratumMessage H message).1.connected = c.connected := by
  unfold StratumClient._handleStratumMessage
  split
  · split_ifs
    · exact handleMiningNotify_frame H c _
    · split <;> exact ⟨rfl, rfl, rfl⟩
    · exact handleResponse_frame H c _
    · exact ⟨rfl, rfl, rfl⟩
  · exact ⟨rfl, rfl, rfl⟩

theorem handleLine_frame (H : Host) (c : StratumClient) (line : List Char) :
    (c.handleLine H line).socket = c.socket ∧
      (c.handleLine H line).messageId = c.messageId ∧
      (c.handleLine H line).connected = c.connected := by
  unfold StratumClient.handleLine
  split_ifs
  · split
    · exact ⟨rfl, rfl, rfl⟩
    · exact handleStratumMessage_frame H c _
  · exact ⟨rfl, rfl, rfl⟩

theorem foldl_handleLine_frame (H : Host) (lines : List (List Char)) (c : StratumClient) :
    (lines.foldl (StratumClient.handleLine H) c).socket = c.socket ∧
      (lines.foldl (StratumClient.handleLine H) c).messageId = c.messageId ∧
      (lines.foldl (StratumClient.handleLine H) c).connected = c.connected := by
  induction lines generalizing c with
  | nil => exact ⟨rfl, rfl, rfl⟩
  | cons l ls ih =>
    obtain ⟨h1, h2, h3⟩ := ih (c.handleLine H l)
    obtain ⟨g1, g2, g3⟩ := handleLine_frame H c l
    rw [List.foldl_cons]
    exact ⟨h1.trans g1, h2.trans g2, h3.trans g3⟩

theorem onData_ids (H : Host) (c : StratumClient) (data : String) :
    (c.onData H data).writtenIds = c.writtenIds ∧
      (c.onData H data).messageId = c.messageId := by
  cases hsock : c.socket with
  | none => simp [StratumClient.onData, hsock]
  | some s =>
    rw [onData_eq H c s data hsock]
    obtain ⟨_, h2, _⟩ := foldl_handleLine_frame H
      (splitNL (s.buffer ++ data.toList)).dropLast c
    refine ⟨?_, h2⟩
    simp [StratumClient.writtenIds, StratumClient.withBuffer, hsock]

theorem idsIncreasing_of_same (c c2 : StratumClient) (hinv : c.IdsIncreasing)
    (hw : c2.writtenIds = c.writtenIds) (hm : c2.messageId = c.messageId) :
    c2.IdsIncreasing := by
  unfold StratumClient.IdsIncreasing at *
  rw [hw, hm]
  exact hinv

theorem send_ids (c : StratumClient) (m : Request) (hinv : c.IdsIncreasing) :
    ({ c with messageId := c.messageId + 1 } : StratumClient)._send
        { id := c.messageId, method := m.method, params := m.params } |>.IdsIncreasing := by
  obtain ⟨h1, h2, h3⟩ := hinv
  unfold StratumClient._send
  cases hsock : c.socket with
  | none =>
    simp only [hsock]
    refine ⟨by simp, by simp [StratumClient.writtenIds, hsock], ?_⟩
    simp [StratumClient.writtenIds, hsock]
  | some s =>
    simp only [hsock]
    have h2s : (s.written.map (fun r => r.id)).Pairwise (fun a b => a < b) := by
      simpa [StratumClient.writtenIds, hsock, List.map_map, Function.comp_def] using h2
    have h3s : ∀ i ∈ s.written.map (fun r => r.id), 1 ≤ i ∧ i < c.messageId := by
      simpa [StratumClient.writtenIds, hsock, List.map_map, Function.comp_def] using h3
    split_ifs
    · refine ⟨by simp, ?_, ?_⟩
      · simp only [StratumClient.writtenIds, List.map_append, List.map_map, List.map_cons,
          List.map_nil, Function.comp_def]
        rw [List.pairwise_append]
        refine ⟨h2s, by simp, ?_⟩
        intro a ha b hb
        simp only [List.mem_singleton] at hb
        rw [hb]
        exact (h3s a ha).2
      · intro i hi
        simp only [StratumClient.writtenIds, List.map_append, List.map_map, List.map_cons,
          List.map_nil, Function.comp_def, List.mem_append, List.mem_singleton] at hi
        rcases hi with hi | hi
        · have := h3s i hi
          exact ⟨this.1, by simp; omega⟩
        · rw [hi]
          exact ⟨h1, by simp⟩
    · refine ⟨by simp, ?_, ?_⟩
      · simpa [StratumClient.writtenIds, hsock, List.map_map, Function.comp_def] using h2s
      · intro i hi
        have hi2 : i ∈ s.written.map (fun r => r.id) := by
          simpa [StratumClient.writtenIds, hsock, List.map_map, Function.comp_def] using hi
        have := h3s i hi2
        exact ⟨this.1, by simp; omega⟩

theorem resolveTrue_ids (c : StratumClient) :
    c.resolveTrue.writtenIds = c.writtenIds ∧ c.resolveTrue.messageId = c.messageId := by
  unfold StratumClient.resolveTrue
  split <;> exact ⟨rfl, rfl⟩

theorem clearTimeout_ids (c : StratumClient) :
    c.clearTimeout.writtenIds = c.writtenIds ∧ c.clearTimeout.messageId = c.messageId := by
  unfold StratumClient.clearTimeout
  split <;> exact ⟨rfl, rfl⟩

theorem setupSocketHandlers_ids (c : StratumClient) :
    c._setupSocketHandlers.writtenIds = c.writtenIds ∧
      c._setupSocketHandlers.messageId = c.messageId := by
  unfold StratumClient._setupSocketHandlers
  cases hs : c.socket with
  | none => exact ⟨rfl, rfl⟩
  | some s => simp [StratumClient.writtenIds, hs]

theorem step_idsIncreasing (H : Host) (c : StratumClient) (ev : Event)
    (hinv : c.IdsIncreasing) : (c.step H ev).IdsIncreasing := by
  unfold StratumClient.step
  split_ifs
  · cases ev with
    | connect createThrows =>
      simp only [StratumClient.connect]
      split_ifs
      · exact idsIncreasing_of_same c _ hinv rfl rfl
      · exact ⟨hinv.1, by simp [StratumClient.writtenIds], by simp [StratumClient.writtenIds]⟩
    | timeout now =>
      simp only [StratumClient.onTimeout]
      exact idsIncreasing_of_same c _ hinv (resolveTrue_ids _).1 (resolveTrue_ids _).2
    | socketConnect =>
      simp only [StratumClient.onConnect]
      apply idsIncreasing_of_same c _ hinv
      · rw [(resolveTrue_ids _).1, (setupSocketHandlers_ids _).1]
        exact (clearTimeout_ids c).1
      · rw [(resolveTrue_ids _).2, (setupSocketHandlers_ids _).2]
        exact (clearTimeout_ids c).2
    | socketError now =>
      simp only [StratumClient.onError]
      apply idsIncreasing_of_same c _ hinv
      · rw [(resolveTrue_ids _).1]
        exact (clearTimeout_ids c).1
      · rw [(resolveTrue_ids _).2]
        exact (clearTimeout_ids c).2
    | socketData chunk =>
      exact idsIncreasing_of_same c _ hinv (onData_ids H c chunk).1 (onData_ids H c chunk).2
    | socketClose => exact idsIncreasing_of_same c _ hinv rfl rfl
    | subscribe =>
      simp only [StratumClient.subscribe]
      split_ifs
      · exact idsIncreasing_of_same c _ hinv rfl rfl
      · exact send_ids c ⟨0, "mining.subscribe", [.str "unified-aria-miner/1.0"]⟩ hinv
    | authorize =>
      simp only [StratumClient.authorize]
      split_ifs
      · exact idsIncreasing_of_same c _ hinv rfl rfl
      · exact send_ids c ⟨0, "mining.authorize", [.str c.workerName, .str c.workerPassword]⟩ hinv
    | submitShare jobId extranonce2 ntime nonce rand =>
      simp only [StratumClient.submitShare]
      split_ifs
      · exact idsIncreasing_of_same c _ hinv rfl rfl
      · exact send_ids c
          ⟨0, "mining.submit", [.str c.workerName, jobId, extranonce2, ntime, nonce]⟩ hinv
    | disconnect =>
      simp only [StratumClient.disconnect]
      apply idsIncreasing_of_same c _ hinv
      · cases hs : c.socket <;> simp [StratumClient.writtenIds, hs]
      · cases hs : c.socket <;> simp [hs]
  · exact hinv

theorem run_idsIncreasing (H : Host) (evs : List Event) (c : StratumClient)
    (hinv : c.IdsIncreasing) : (c.run H evs).IdsIncreasing := by
  induction evs generalizing c with
  | nil => exact hinv
  | cons ev evs ih =>
    unfold StratumClient.run
    rw [List.foldl_cons]
    exact ih _ (step_idsIncreasing H c ev hinv)

theorem call_real (c : StratumClient) (s : Socket) (call : Call)
    (hreal : c.simulationMode = false) (hsock : c.socket = some s)
    (hconn : c.connected = true) :
    (c.call call).simulationMode = false ∧ (c.call call).connected = true ∧
      (c.call call).messageId = c.messageId + 1 ∧
      ∃ s2, (c.call call).socket = some s2 ∧
        s2.written.map (fun r => r.id) = s.written.map (fun r => r.id) ++ [c.messageId] := by
  cases call with
  | subscribe =>
    simp [StratumClient.call, StratumClient.subscribe, StratumClient._send, hreal, hsock, hconn]
  | authorize =>
    simp [StratumClient.call, StratumClient.authorize, StratumClient._send, hreal, hsock, hconn]
  | submitShare jobId extranonce2 ntime nonce rand =>
    simp [StratumClient.call, StratumClient.submitShare, StratumClient._send, hreal, hsock,
      hconn]

theorem callAll_ids (calls : List Call) (c : StratumClient) (s : Socket)
    (hreal : c.simulationMode = false) (hsock : c.socket = some s)
    (hconn : c.connected = true) :
    (c.callAll calls).writtenIds.map Prod.fst
      = s.written.map (fun r => r.id) ++ List.range' c.messageId calls.length := by
  induction calls generalizing c s with
  | nil =>
    simp [StratumClient.callAll, StratumClient.writtenIds, hsock, List.map_map,
      Function.comp_def]
  | cons call calls ih =>
    obtain ⟨h1, h2, h3, s2, h4, h5⟩ := call_real c s call hreal hsock hconn
    have := ih (c.call call) s2 h1 h4 h2
    unfold StratumClient.callAll at this ⊢
    rw [List.foldl_cons, this, h5, h3]
    simp [List.range'_succ]

/-- C22: in real mode with a socket and `connected` true, `submitShare` returns
`true`, appends exactly one request to what was written, with the method
`mining.submit`, the params `[workerName, jobId, extranonce2, ntime, nonce]` and
the id `messageId` had before the call, and raises `messageId` by one; any
sequence of `subscribe`, `authorize` and `submitShare` calls on such a client
writes requests whose ids are the consecutive numbers from `messageId` on; and in
every state reached from a new client by any events, the ids of the written
requests are strictly increasing (so pairwise distinct) and at least 1. -/
theorem submitShare_writes_one_request_with_fresh_id (H : Host) (c : StratumClient)
    (s : Socket) (jobId extranonce2 ntime nonce : JSVal) (rand : Rand)
    (hreal : c.simulationMode = false) (hsock : c.socket = some s)
    (hconn : c.connected = true) :
    c.submitShare jobId extranonce2 ntime nonce rand
        = (true,
            { c with
              messageId := c.messageId + 1
              socket := some
                ({ s with
                    written := s.written ++
                      [{ id := c.messageId, method := "mining.submit",
                         params := [.str c.workerName, jobId, extranonce2, ntime, nonce] }] }
                  : Socket) }) ∧
      (∀ calls : List Call,
        (c.callAll calls).writtenIds.map Prod.fst
          = s.written.map (fun r => r.id) ++ List.range' c.messageId calls.length) ∧
      (∀ (host : String) (port : Nat) (workerName workerPassword : String) (evs : List Event),
        ((StratumClient.new host port workerName workerPassword).run H evs).IdsIncreasing) := by
  refine ⟨?_, fun calls => callAll_ids calls c s hreal hsock hconn, ?_⟩
  · simp [StratumClient.submitShare, StratumClient._send, hreal, hsock, hconn]
  · intro host port workerName workerPassword evs
    apply run_idsIncreasing
    exact ⟨by simp [StratumClient.new], by simp [StratumClient.writtenIds, StratumClient.new],
      by simp [StratumClient.writtenIds, StratumClient.new]⟩

/-- Instance of C22 at a connected client that has made no request: `subscribe`,
`authorize` and two `submitShare` calls are written with the ids 1, 2, 3, 4. -/
theorem submitShare_writes_one_request_with_fresh_id_witness :
    connectedClient.simulationMode = false ∧ connectedClient.socket = some connectedSocket ∧
      connectedClient.connected = true ∧
      (connectedClient.callAll
          [.subscribe, .authorize,
            .submitShare (.str "job1") (.str "00000000") (.str "65a0c000") (.str "0000002a")
              randZero,
            .submitShare (.str "job1") (.str "00000001") (.str "65a0c000") (.str "0000002b")
              randZero]).writtenIds.map Prod.fst
        = connectedSocket.written.map (fun r => r.id) ++ List.range' connectedClient.messageId 4 :=
  ⟨rfl, rfl, rfl,
    (submitShare_writes_one_request_with_fresh_id sampleHost connectedClient connectedSocket
      (.str "job1") (.str "00000000") (.str "65a0c000") (.str "0000002a") randZero rfl rfl
      rfl).2.1 _⟩

/-! ## A refused subscription -/

/-- C27 at a concrete input: a connected client calls `subscribe()` (request id 1)
and the pool answers with the error response `{id: 1, result: null, error: [...]}`;
handling it sets `subscribed` to true before reading `result[1]` throws, so the
client is subscribed, `subscribe()` resolves to `true`, and `extranonce1` and
`extranonce2Size` keep their initial values `null` and `0`. -/
theorem refused_subscription_sets_subscribed :
    connectedClient.subscribe.writtenIds = [(1, "mining.subscribe")] ∧
      connectedClient.subscribe.subscribed = false ∧
      wireHost.jsonParse subscribeFailLine = some subscribeFailMsg ∧
      (connectedClient.subscribe._handleStratumMessage wireHost subscribeFailMsg).2 = true ∧
      (connectedClient.subscribe.step wireHost
        (.socketData (subscribeFailLine ++ "\n"))).subscribed = true ∧
      connectedClient.subscribeReturn
        (connectedClient.subscribe.step wireHost (.socketData (subscribeFailLine ++ "\n")))
        = true ∧
      (connectedClient.subscribe.step wireHost
        (.socketData (subscribeFailLine ++ "\n"))).extranonce1 = .null ∧
      (connectedClient.subscribe.step wireHost
        (.socketData (subscribeFailLine ++ "\n"))).extranonce2Size = .num (.fin 0) := by
  refine ⟨by decide!, by decide!, rfl, by decide!, by decide!, by decide!, rfl, rfl⟩

/-! ## A share that was never sent -/

/-- C28 at a concrete input: after the socket of a connected client has closed,
one `_miningIteration` at difficulty 1 writes nothing to the socket (the two
requests of the handshake are all that was ever written) and yet counts four
shares as accepted, none as rejected; on a client without a socket `submitShare`
returns `true` as well. -/
theorem unsent_share_counted_as_accepted :
    closedClient.simulationMode = false ∧ closedClient.connected = false ∧
      closedClient.writtenIds = [(1, "mining.subscribe"), (2, "mining.authorize")] ∧
      (closedEngine._miningIteration sampleHost randZero
        (fun _ => sampleDraws)).stratum.writtenIds
        = [(1, "mining.subscribe"), (2, "mining.authorize")] ∧
      (closedEngine._miningIteration sampleHost randZero
        (fun _ => sampleDraws)).stats.sharesFound = 4 ∧
      (closedEngine._miningIteration sampleHost randZero
        (fun _ => sampleDraws)).stats.sharesAccepted = 4 ∧
      (closedEngine._miningIteration sampleHost randZero
        (fun _ => sampleDraws)).stats.sharesRejected = 0 ∧
      freshClient.socket.isNone = true ∧
      (freshClient.submitShare (.str "job1") (.str "00000000") (.str "65a0c000")
        (.str "0000002a") randZero).1 = true := by
  decide!

/-! ## Simulation mode together with a live socket -/

/-- C29 at two concrete inputs.  When the timer of `connect` fires and the socket
connects afterwards, `simulationMode` is true and the data handler is installed,
and a job notification and a difficulty sent by the pool replace the simulation
job and the difficulty 1.  When the socket reports an error after the connection
was established, the job, the difficulty and the extranonce supplied by the pool
are overwritten with the simulation values. -/
theorem simulation_and_live_handling_overlap :
    ((freshClient.run wireHost lateConnectEvents).simulationMode = true ∧
        (freshClient.run wireHost lateConnectEvents).socket.map (fun s => s.handlersInstalled)
          = some true ∧
        (freshClient.run wireHost lateConnectEvents).currentJob.map
          (fun j => j.jobId.strictEqStr "job1") = some true ∧
        toNumber wireHost (freshClient.run wireHost lateConnectEvents).difficulty = .fin 8) ∧
      ((freshClient.run wireHost (errorAfterConnectEvents.take 4)).simulationMode = false ∧
        (freshClient.run wireHost (errorAfterConnectEvents.take 4)).currentJob.map
          (fun j => j.jobId.strictEqStr "job1") = some true ∧
        toNumber wireHost (freshClient.run wireHost (errorAfterConnectEvents.take 4)).difficulty
          = .fin 8 ∧
        (freshClient.run wireHost (errorAfterConnectEvents.take 4)).extranonce1.strictEqStr
          "08000002" = true ∧
        (freshClient.run wireHost errorAfterConnectEvents).simulationMode = true ∧
        (freshClient.run wireHost errorAfterConnectEvents).currentJob.map
          (fun j => j.jobId.strictEqStr "simulation_job_1") = some true ∧
        toNumber wireHost (freshClient.run wireHost errorAfterConnectEvents).difficulty
          = .fin 1 ∧
        (freshClient.run wireHost errorAfterConnectEvents).extranonce1.strictEqStr
          "00000000" = true) := by
  decide!

/-! ## The fields of a submitted share -/

/-- C30 at a concrete input: on a client whose pool announced `extranonce2Size` 4 (as
in simulation mode), a pass in which `Math.random()` gives one half for
`extranonce2` submits the one-digit text `8`, not eight digits, next to the nonce
`00000000`, which is padded to eight digits. -/
theorem extranonce2_can_be_one_digit :
    toNumber hexHost subscribedClient.extranonce2Size = .fin 4 ∧
      toNumber hexHost simClient.extranonce2Size = .fin 4 ∧
      hexHost.toString16 (1 / 2) = "0.8" ∧
      halfDraws.extranonce2 hexHost = "8" ∧
      (halfDraws.extranonce2 hexHost).length = 1 ∧
      ((subscribedEngine._miningIteration hexHost randZero
          (fun _ => halfDraws)).stratum.socket.map
          (fun s => s.written.map (fun r => (r.id, r.method, r.params.map shaHost.toStr))))
        = some [(1, "mining.subscribe", ["unified-aria-miner/1.0"]),
            (2, "mining.submit", ["worker1", "job1", "8", "0", "00000000"]),
            (3, "mining.submit", ["worker1", "job1", "8", "0", "00000000"]),
            (4, "mining.submit", ["worker1", "job1", "8", "0", "00000000"]),
            (5, "mining.submit", ["worker1", "job1", "8", "0", "00000000"])] := by
  decide!

theorem digitChar_hex (m : Nat) (hm : m < 16) :
    isLowerHexDigit (Nat.digitChar m) = true ∧ hexDigitValue (Nat.digitChar m) = m := by
  interval_cases m <;> exact ⟨by decide, by decide⟩

theorem foldl_hex_value (l : List Char) (a : Nat) :
    l.foldl (fun acc ch => acc * 16 + hexDigitValue ch) a
      = a * 16 ^ l.length + l.foldl (fun acc ch => acc * 16 + hexDigitValue ch) 0 := by
  induction l generalizing a with
  | nil => simp
  | cons ch l ih =>
    rw [List.foldl_cons, List.foldl_cons, ih (a * 16 + hexDigitValue ch),
      ih (0 * 16 + hexDigitValue ch)]
    simp only [List.length_cons, pow_succ]
    ring

theorem toDigitsCore_hex (fuel : Nat) (n : Nat) (ds : List Char) (hfuel : n < fuel)
    (hds : ∀ ch ∈ ds, isLowerHexDigit ch = true) :
    (∀ ch ∈ Nat.toDigitsCore 16 fuel n ds, isLowerHexDigit ch = true) ∧
      (Nat.toDigitsCore 16 fuel n ds).foldl (fun acc ch => acc * 16 + hexDigitValue ch) 0
        = n * 16 ^ ds.length + ds.foldl (fun acc ch => acc * 16 + hexDigitValue ch) 0 := by
  induction fuel generalizing n ds with
  | zero => omega
  | succ fuel ih =>
    have hd := digitChar_hex (n % 16) (Nat.mod_lt _ (by norm_num))
    have hds2 : ∀ ch ∈ Nat.digitChar (n % 16) :: ds, isLowerHexDigit ch = true := by
      intro ch hch
      rcases List.mem_cons.mp hch with h | h
      · rw [h]
        exact hd.1
      · exact hds ch h
    have hval : (Nat.digitChar (n % 16) :: ds).foldl
        (fun acc ch => acc * 16 + hexDigitValue ch) 0
        = (n % 16) * 16 ^ ds.length
          + ds.foldl (fun acc ch => acc * 16 + hexDigitValue ch) 0 := by
      rw [List.foldl_cons, foldl_hex_value, hd.2]
      simp
    simp only [Nat.toDigitsCore]
    split_ifs with h0
    · refine ⟨hds2, ?_⟩
      rw [hval]
      have : n % 16 = n := Nat.mod_eq_of_lt (by omega)
      rw [this]
    · obtain ⟨h1, h2⟩ := ih (n / 16) (Nat.digitChar (n % 16) :: ds) (by omega) hds2
      refine ⟨h1, ?_⟩
      rw [h2, hval]
      simp only [List.length_cons, pow_succ]
      have hdm := Nat.div_add_mod n 16
      have hn : n * 16 ^ ds.length = (16 * (n / 16) + n % 16) * 16 ^ ds.length := by rw [hdm]
      rw [hn]
      ring

theorem toDigitsCore_length (fuel : Nat) (n k : Nat) (ds : List Char) (hfuel : n < fuel)
    (hk : 1 ≤ k) (hn : n < 16 ^ k) :
    (Nat.toDigitsCore 16 fuel n ds).length ≤ k + ds.length := by
  induction fuel generalizing n k ds with
  | zero => omega
  | succ fuel ih =>
    simp only [Nat.toDigitsCore]
    split_ifs with h0
    · simp only [List.length_cons]
      omega
    · have hk2 : 2 ≤ k := by
        by_contra hlt
        have hk1 : k = 1 := by omega
        rw [hk1] at hn
        simp at hn
        omega
      have hn2 : n / 16 < 16 ^ (k - 1) := by
        have : 16 ^ k = 16 ^ (k - 1) * 16 := by
          rw [← pow_succ]
          congr 1
          omega
        rw [this] at hn
        exact Nat.div_lt_of_lt_mul (by rw [Nat.mul_comm]; exact hn)
      have := ih (n / 16) (k - 1) (Nat.digitChar (n % 16) :: ds) (by omega) (by omega) hn2
      simp only [List.length_cons] at this
      omega

theorem nonceHex_spec (n : Nat) (hn : n < 4294967296) :
    (padStart8 (toHex n)).length = 8 ∧
      (∀ ch ∈ (padStart8 (toHex n)).toList, isLowerHexDigit ch = true) ∧
      parseHex (padStart8 (toHex n)) = n := by
  have hlen : (Nat.toDigits 16 n).length ≤ 8 := by
    have := toDigitsCore_length (n + 1) n 8 [] (by omega) (by norm_num) (by norm_num; omega)
    simpa [Nat.toDigits] using this
  obtain ⟨h1, h2⟩ := toDigitsCore_hex (n + 1) n [] (by omega) (by simp)
  have hl : (padStart8 (toHex n)).toList
      = List.replicate (8 - (Nat.toDigits 16 n).length) '0' ++ Nat.toDigits 16 n := by
    simp [padStart8, toHex, String.length]
  refine ⟨?_, ?_, ?_⟩
  · rw [String.length, ← String.toList, hl]
    simp
    omega
  · rw [hl]
    intro ch hch
    rcases List.mem_append.mp hch with h | h
    · rw [List.eq_of_mem_replicate h]
      decide
    · exact h1 ch h
  · unfold parseHex
    rw [hl, List.foldl_append]
    have hz : ∀ m : Nat, (List.replicate m '0').foldl
        (fun acc ch => acc * 16 + hexDigitValue ch) 0 = 0 := by
      intro m
      induction m with
      | zero => rfl
      | succ m ih =>
        rw [List.replicate_succ, List.foldl_cons]
        have : hexDigitValue '0' = 0 := by decide
        simpa [this] using ih
    rw [hz]
    simpa [Nat.toDigits] using h2

theorem nonce_lt (d : ThreadDraws) : d.nonce < 4294967295 := by
  unfold ThreadDraws.nonce
  have h0 : (0 : ℚ) ≤ d.nonceRand.val * 4294967295 :=
    mul_nonneg d.nonceRand.nonneg (by norm_num)
  have h1 : d.nonceRand.val * 4294967295 < ((4294967295 : ℤ) : ℚ) := by
    have := d.nonceRand.lt_one
    push_cast
    linarith
  have hf0 : 0 ≤ Int.floor (d.nonceRand.val * 4294967295) := Int.floor_nonneg.mpr h0
  have hf1 : Int.floor (d.nonceRand.val * 4294967295) < 4294967295 := Int.floor_lt.mpr h1
  omega

/-- The fields of a share for every random draw: the nonce is an integer in
`[0, 2^32 - 1)` and `nonceHex` is exactly 8 lower-case hexadecimal digits that
parse back to the nonce; `extranonce2` is `substring(2, 10)` of the hexadecimal
text of a random draw, at most 8 characters whatever `extranonce2Size` is; and
these are the values the request written in real mode carries. -/
theorem share_fields_widths (H : Host) (d : ThreadDraws) :
    (d.nonce < 4294967295 ∧ d.nonceHex.length = 8 ∧
        (∀ ch ∈ d.nonceHex.toList, isLowerHexDigit ch = true) ∧
        parseHex d.nonceHex = d.nonce) ∧
      (d.extranonce2 H).length ≤ 8 ∧
      (∀ (job : Job) (e : UnifiedMiningEngine) (s : Socket),
        e.stratum.simulationMode = false → e.stratum.socket = some s →
        e.stratum.connected = true →
        _checkDifficulty H (UnifiedMiningEngine._doubleSHA256 H job d.nonce d.hashClock)
          e.stratum.difficulty = true →
        (UnifiedMiningEngine.miningThread H job e d).stratum.socket
          = some
              ({ s with
                  written := s.written ++
                    [{ id := e.stratum.messageId, method := "mining.submit",
                       params := [.str e.stratum.workerName, job.jobId, .str (d.extranonce2 H),
                         .str (toHex (d.ntimeClock / 1000)), .str d.nonceHex] }] } : Socket)) := by
  have hn := nonce_lt d
  refine ⟨⟨hn, ?_⟩, ?_, ?_⟩
  · exact nonceHex_spec d.nonce (by omega)
  · simp only [ThreadDraws.extranonce2, substring2to10, String.length]
    simp only [List.length_take]
    omega
  · intro job e s hreal hsock hconn hcheck
    unfold UnifiedMiningEngine.miningThread
    simp only [ThreadDraws.nonce] at hcheck
    simp only [hcheck, if_true]
    split_ifs <;>
      simp [StratumClient.submitShare, StratumClient._send, hreal, hsock, hconn,
        ThreadDraws.extranonce2, ThreadDraws.nonceHex, ThreadDraws.nonce]

/-! ## Autonomous decisions -/

theorem sortByPriority_head (l : List Decision) :
    match AutonomousDecisionEngine.sortByPriority l with
    | [] => l = []
    | d :: _ =>
      ∃ pre post, l = pre ++ d :: post ∧
        (∀ x ∈ pre, x.priority.rank < d.priority.rank) ∧
        (∀ x ∈ post, x.priority.rank ≤ d.priority.rank) := by
  induction l with
  | nil => simp [AutonomousDecisionEngine.sortByPriority]
  | cons a t ih =>
    unfold AutonomousDecisionEngine.sortByPriority at ih ⊢
    rw [List.insertionSort]
    cases hs : List.insertionSort (fun a b : Decision => b.priority.rank ≤ a.priority.rank) t with
    | nil =>
      rw [hs] at ih
      simp only [List.orderedInsert]
      exact ⟨[], [], by simp [ih], by simp, by simp⟩
    | cons d rest =>
      rw [hs] at ih
      obtain ⟨pre, post, hl, hpre, hpost⟩ := ih
      simp only [List.orderedInsert]
      split_ifs with hle
      · refine ⟨[], t, by simp, by simp, ?_⟩
        intro x hx
        rw [hl] at hx
        rcases List.mem_append.mp hx with h | h
        · exact le_trans (le_of_lt (hpre x h)) hle
        · rcases List.mem_cons.mp h with h | h
          · rw [h]
            exact hle
          · exact le_trans (hpost x h) hle
      · refine ⟨a :: pre, post, by simp [hl], ?_, hpost⟩
        intro x hx
        rcases List.mem_cons.mp hx with h | h
        · rw [h]
          exact not_le.mp hle
        · exact hpre x h

theorem triggeredRules_named (H : Host) (rules : List DecisionRule) (context : JSVal)
    (rand : Rand) :
    ∀ x ∈ AutonomousDecisionEngine.triggeredRules H rules context rand,
      ∃ rule ∈ rules, rule.condition H context rand = some true ∧
        x = { name := some rule.name, action := rule.action, priority := rule.priority } := by
  intro x hx
  unfold AutonomousDecisionEngine.triggeredRules at hx
  obtain ⟨rule, hrule, hsome⟩ := List.mem_filterMap.mp hx
  refine ⟨rule, hrule, ?_⟩
  split at hsome
  · rename_i htrue
    exact ⟨htrue, (Option.some.inj hsome).symm⟩
  · exact absurd hsome (by simp)

/-- C25: `makeDecision` appends exactly one record to `decisionHistory`, holding
the context and the returned decision.  When no rule is triggered it returns the
default decision `CONTINUE_MINING` with priority `LOW`; otherwise it returns a
triggered rule such that the triggered rules registered before it have a lower
priority and those registered after it have no higher priority
(`CRITICAL > HIGH > MEDIUM > LOW`); the returned decision is the default one
exactly when no rule is triggered.  With the rules of the constructor, every
context whose `errorRate` is above 0.1 gives `INITIATE_SELF_HEALING`. -/
theorem makeDecision_highest_priority_first (H : Host) (eng : AutonomousDecisionEngine)
    (context : JSVal) (rand : Rand) (now : Nat) :
    (eng.makeDecision H context rand now).2.decisionHistory
        = eng.decisionHistory ++
          [{ context := context, decision := (eng.makeDecision H context rand now).1,
             timestamp := now }] ∧
      (AutonomousDecisionEngine.triggeredRules H eng.decisionRules context rand = [] →
        (eng.makeDecision H context rand now).1 = AutonomousDecisionEngine.defaultDecision) ∧
      (AutonomousDecisionEngine.triggeredRules H eng.decisionRules context rand ≠ [] →
        ∃ pre post,
          AutonomousDecisionEngine.triggeredRules H eng.decisionRules context rand
            = pre ++ (eng.makeDecision H context rand now).1 :: post ∧
          (∀ x ∈ pre, x.priority.rank < (eng.makeDecision H context rand now).1.priority.rank) ∧
          (∀ x ∈ post, x.priority.rank ≤ (eng.makeDecision H context rand now).1.priority.rank)) ∧
      ((eng.makeDecision H context rand now).1 = AutonomousDecisionEngine.defaultDecision ↔
        AutonomousDecisionEngine.triggeredRules H eng.decisionRules context rand = []) ∧
      (∀ v, context.get? "errorRate" = some v →
        JSNum.gt (toNumber H v) (.fin (1 / 10)) = true →
        (AutonomousDecisionEngine.new.makeDecision H context rand now).1.action
          = "INITIATE_SELF_HEALING") := by
  have hhead := fun rules =>
    sortByPriority_head (AutonomousDecisionEngine.triggeredRules H rules context rand)
  have hnil : AutonomousDecisionEngine.triggeredRules H eng.decisionRules context rand = [] →
      (eng.makeDecision H context rand now).1 = AutonomousDecisionEngine.defaultDecision := by
    intro h
    simp [AutonomousDecisionEngine.makeDecision, h, AutonomousDecisionEngine.sortByPriority]
  have hcons : ∀ rules : List DecisionRule,
      AutonomousDecisionEngine.triggeredRules H rules context rand ≠ [] →
      ∃ pre post,
        AutonomousDecisionEngine.triggeredRules H rules context rand
          = pre ++ ((AutonomousDecisionEngine.sortByPriority
              (AutonomousDecisionEngine.triggeredRules H rules context rand)).headD
                AutonomousDecisionEngine.defaultDecision) :: post ∧
        (∀ x ∈ pre, x.priority.rank < ((AutonomousDecisionEngine.sortByPriority
              (AutonomousDecisionEngine.triggeredRules H rules context rand)).headD
                AutonomousDecisionEngine.defaultDecision).priority.rank) ∧
        (∀ x ∈ post, x.priority.rank ≤ ((AutonomousDecisionEngine.sortByPriority
              (AutonomousDecisionEngine.triggeredRules H rules context rand)).headD
                AutonomousDecisionEngine.defaultDecision).priority.rank) := by
    intro rules hne
    have h := hhead rules
    cases hs : AutonomousDecisionEngine.sortByPriority
        (AutonomousDecisionEngine.triggeredRules H rules context rand) with
    | nil =>
      rw [hs] at h
      exact absurd h hne
    | cons d rest =>
      rw [hs] at h
      simpa using h
  refine ⟨rfl, hnil, hcons eng.decisionRules, ⟨?_, hnil⟩, ?_⟩
  · intro hdef
    by_contra hne
    obtain ⟨pre, post, hl, _, _⟩ := hcons eng.decisionRules hne
    have hmem : (eng.makeDecision H context rand now).1
        ∈ AutonomousDecisionEngine.triggeredRules H eng.decisionRules context rand :=
      List.mem_iff_append.mpr ⟨pre, post, hl⟩
    obtain ⟨rule, _, _, hx⟩ := triggeredRules_named H _ context rand _ hmem
    rw [hdef] at hx
    simp [AutonomousDecisionEngine.defaultDecision] at hx
  · intro v hv hgt
    have htrig : Decision.mk (some "HIGH_ERROR_RATE") "INITIATE_SELF_HEALING" .CRITICAL
        ∈ AutonomousDecisionEngine.triggeredRules H
            AutonomousDecisionEngine.new.decisionRules context rand := by
      unfold AutonomousDecisionEngine.triggeredRules
      apply List.mem_filterMap.mpr
      refine ⟨AutonomousDecisionEngine._initializeDecisionRules.get ⟨1, by decide⟩, ?_, ?_⟩
      · simp [AutonomousDecisionEngine.new, AutonomousDecisionEngine._initializeDecisionRules]
      · have hcond : (AutonomousDecisionEngine._initializeDecisionRules.get
            ⟨1, by decide⟩).condition H context rand = some true := by
          show (context.get? "errorRate").map _ = some true
          rw [hv]
          simp only [Option.map]
          rw [hgt]
        simp only [hcond]
        rfl
    have hne : AutonomousDecisionEngine.triggeredRules H
        AutonomousDecisionEngine.new.decisionRules context rand ≠ [] :=
      List.ne_nil_of_mem htrig
    obtain ⟨pre, post, hl, hpre, hpost⟩ := hcons _ hne
    have hrank : 3 ≤ ((AutonomousDecisionEngine.sortByPriority
        (AutonomousDecisionEngine.triggeredRules H AutonomousDecisionEngine.new.decisionRules
          context rand)).headD AutonomousDecisionEngine.defaultDecision).priority.rank := by
      rw [hl] at htrig
      rcases List.mem_append.mp htrig with h | h
      · exact le_of_lt (hpre _ h)
      · rcases List.mem_cons.mp h with h | h
        · rw [← h]
          decide
        · exact hpost _ h
    have hmem : ((AutonomousDecisionEngine.sortByPriority
        (AutonomousDecisionEngine.triggeredRules H AutonomousDecisionEngine.new.decisionRules
          context rand)).headD AutonomousDecisionEngine.defaultDecision)
        ∈ AutonomousDecisionEngine.triggeredRules H
            AutonomousDecisionEngine.new.decisionRules context rand :=
      List.mem_iff_append.mpr ⟨pre, post, hl⟩
    obtain ⟨rule, hrule, _, hx⟩ := triggeredRules_named H _ context rand _ hmem
    simp only [AutonomousDecisionEngine.makeDecision]
    rw [hx] at hrank ⊢
    simp only [AutonomousDecisionEngine.new, AutonomousDecisionEngine._initializeDecisionRules,
      List.mem_cons, List.mem_singleton, List.not_mem_nil, or_false] at hrule
    rcases hrule with h | h | h | h <;> rw [h] at hrank ⊢ <;>
      first
        | rfl
        | exact absurd hrank (by decide)

/-! ## Responses of the MCP server -/

/-- C23 at a concrete input: the request with id 7 that calls the unknown tool
`nope` is answered by an error response with code -32603 whose id is `null`, not
7; the request with id 8 for an unknown method is answered with code -32601 and
id 8.  In general a response made from a returned result or for an unknown method
carries the id of the request, and a response made after a handler has thrown
carries the id `null` whatever the id of the request. -/
theorem handler_error_response_loses_id :
    ((StandaloneConsciousAIMCPServer.handleRequest mcpHost mcpHandlers unknownToolLine).jsonrpc
        = "2.0" ∧
      (StandaloneConsciousAIMCPServer.handleRequest mcpHost mcpHandlers unknownToolLine).id
        = .null ∧
      (StandaloneConsciousAIMCPServer.handleRequest mcpHost mcpHandlers unknownToolLine).error.map
          (fun e => (e.code, e.message))
        = some (-32603, "Internal error: Unknown tool: nope")) ∧
      ((StandaloneConsciousAIMCPServer.handleRequest mcpHost mcpHandlers unknownMethodLine).id
        = .num (.fin 8) ∧
      (StandaloneConsciousAIMCPServer.handleRequest mcpHost mcpHandlers unknownMethodLine).error.map
          (fun e => (e.code, e.message))
        = some (-32601, "Method not found: nope/method")) ∧
      (∀ (M : McpHost) (handlerOf : JSVal → Option (JSVal → Except JsError JSVal))
          (request : String) (parsed id method params : JSVal),
        M.parse request = .ok parsed → parsed.get? "id" = some id →
        parsed.get? "method" = some method → parsed.get? "params" = some params →
        (handlerOf method = none →
          (StandaloneConsciousAIMCPServer.handleRequest M handlerOf request).jsonrpc = "2.0" ∧
          (StandaloneConsciousAIMCPServer.handleRequest M handlerOf request).id = id ∧
          (StandaloneConsciousAIMCPServer.handleRequest M handlerOf request).error.map
            (fun e => e.code) = some (-32601)) ∧
        (∀ handler result, handlerOf method = some handler → handler params = .ok result →
          StandaloneConsciousAIMCPServer.handleRequest M handlerOf request
            = JSONRPCHandler.createResponse id result) ∧
        (∀ handler e, handlerOf method = some handler → handler params = .error e →
          (StandaloneConsciousAIMCPServer.handleRequest M handlerOf request).jsonrpc = "2.0" ∧
          (StandaloneConsciousAIMCPServer.handleRequest M handlerOf request).id = .null ∧
          (StandaloneConsciousAIMCPServer.handleRequest M handlerOf request).error.map
            (fun e => e.code) = some (-32603))) := by
  refine ⟨⟨by decide!, rfl, by decide!⟩, ⟨rfl, by decide!⟩, ?_⟩
  intro M handlerOf request parsed id method params hparse hid hmethod hparams
  refine ⟨?_, ?_, ?_⟩
  · intro hnone
    simp [StandaloneConsciousAIMCPServer.handleRequest, hparse, hid, hmethod, hparams, hnone,
      JSONRPCHandler.createError]
  · intro handler result hsome hok
    simp [StandaloneConsciousAIMCPServer.handleRequest, hparse, hid, hmethod, hparams, hsome, hok]
  · intro handler e hsome herr
    simp [StandaloneConsciousAIMCPServer.handleRequest, hparse, hid, hmethod, hparams, hsome,
      herr, JSONRPCHandler.createError]

/-! ## Registering a user twice -/

/-- C24 at a concrete input: `registerUser('alice')` at clock 1700000000000 creates
the profile with id `27f11ee026239404`, to which an interaction is added; a second
`registerUser('alice')` one millisecond later computes the id `3da22943d235da43`,
finds no such user, and returns a new profile with another `userId` and no
interactions, and `users` holds two entries. -/
theorem registerUser_twice_creates_second_profile :
    managerWithAlice.users.map (fun kv => (kv.1, kv.2.userId, kv.2.interactions.length))
        = [("27f11ee026239404", "27f11ee026239404", 1)] ∧
      managerWithAlice.currentUser = some "27f11ee026239404" ∧
      aliceAgain.map (fun r => (r.1.userId, r.1.username, r.1.interactions.length))
        = some ("3da22943d235da43", "alice", 0) ∧
      aliceAgain.map (fun r => r.2.users.map (fun kv => (kv.1, kv.2.interactions.length)))
        = some [("27f11ee026239404", 1), ("3da22943d235da43", 0)] ∧
      aliceAgain.map (fun r => r.2.users.length) = some 2 := by
  decide!

/-! ## Executing the next task -/

theorem insertionSort_desc_head {α β : Type} [LinearOrder β] (f : α → β) (l : List α) :
    match l.insertionSort (fun a b => f b ≤ f a) with
    | [] => l = []
    | d :: rest =>
      ∃ pre post, l = pre ++ d :: post ∧ (∀ x ∈ pre, f x < f d) ∧ (∀ x ∈ post, f x ≤ f d) ∧
        rest.Perm (pre ++ post) := by
  have hperm := List.perm_insertionSort (fun a b => f b ≤ f a) l
  induction l with
  | nil => simp
  | cons a t ih =>
    have ih := ih (List.perm_insertionSort (fun a b => f b ≤ f a) t)
    rw [List.insertionSort] at hperm ⊢
    cases hs : List.insertionSort (fun a b => f b ≤ f a) t with
    | nil =>
      rw [hs] at ih
      simp only [List.orderedInsert]
      exact ⟨[], [], by simp [ih], by simp, by simp, by simp⟩
    | cons d rest =>
      rw [hs] at ih hperm
      obtain ⟨pre, post, hl, hpre, hpost, hrest⟩ := ih
      simp only [List.orderedInsert] at hperm ⊢
      split_ifs with hle
      · refine ⟨[], t, by simp, by simp, ?_, ?_⟩
        · intro x hx
          rw [hl] at hx
          rcases List.mem_append.mp hx with h | h
          · exact le_trans (le_of_lt (hpre x h)) hle
          · rcases List.mem_cons.mp h with h | h
            · rw [h]
              exact hle
            · exact le_trans (hpost x h) hle
        · simpa [hs] using List.perm_insertionSort (fun a b => f b ≤ f a) t
      · refine ⟨a :: pre, post, by simp [hl], ?_, hpost, ?_⟩
        · intro x hx
          rcases List.mem_cons.mp hx with h | h
          · rw [h]
            exact not_le.mp hle
          · exact hpre x h
        · have h1 : (List.orderedInsert (fun a b => f b ≤ f a) a rest).Perm (a :: rest) :=
            List.perm_orderedInsert _ a rest
          exact h1.trans (List.Perm.cons a hrest)

theorem runTask_status (task done : Task) (now1 now2 : Nat)
    (hdone : TaskSchedulerExecutor.runTask task now1 now2 = some done) :
    (done.status = "COMPLETED" ∨ done.status = "FAILED") ∧ done.id = task.id ∧
      done.name = task.name ∧ done.priority = task.priority := by
  unfold TaskSchedulerExecutor.runTask at hdone
  simp only [] at hdone
  split at hdone
  · cases hdone
    exact ⟨Or.inl rfl, rfl, rfl, rfl⟩
  · split at hdone
    · exact absurd hdone (by simp)
    · cases hdone
      exact ⟨Or.inr rfl, rfl, rfl, rfl⟩

theorem runTask_eq_none_iff (task : Task) (now1 now2 : Nat) :
    TaskSchedulerExecutor.runTask task now1 now2 = none ↔
      ∃ error, task.function = .throws error ∧ error.get? "message" = none := by
  unfold TaskSchedulerExecutor.runTask
  simp only []
  cases hf : task.function with
  | returns value => simp
  | throws error =>
    cases hm : error.get? "message" with
    | none => simp [hm]
    | some message => simp [hm]

/-- C26 at a concrete input, with what holds in general.  In a queue holding
`report` (priority 1) and `cleanup` (priority 9, its function throws `undefined`),
`_executeNextTask` takes `cleanup` out of the queue, and reading `error.message`
in the `catch` block throws: the call fails, `completedTasks` stays empty, and
queue and completed tasks together hold one task instead of two.  In general the
task taken is the earliest-queued one of maximal priority and the others stay
queued; it is appended to `completedTasks` with status `COMPLETED` or `FAILED`
unless its function throws `null` or `undefined`, in which case it is appended
nowhere. -/
theorem executeNextTask_loses_task_on_nullish_throw :
    (executorWithThrowingTask.taskQueue.map (fun t => (t.name, t.priority))
        = [("report", 1), ("cleanup", 9)] ∧
      executorWithThrowingTask.completedTasks.length = 0 ∧
      (executorWithThrowingTask._executeNextTask 10 20).2 = true ∧
      (executorWithThrowingTask._executeNextTask 10 20).1.taskQueue.map (fun t => t.name)
        = ["report"] ∧
      (executorWithThrowingTask._executeNextTask 10 20).1.completedTasks.length = 0) ∧
      (∀ (s : TaskSchedulerExecutor) (now1 now2 : Nat), s.taskQueue ≠ [] →
        ∃ task pre post, s.taskQueue = pre ++ task :: post ∧
          (∀ x ∈ pre, x.priority < task.priority) ∧
          (∀ x ∈ post, x.priority ≤ task.priority) ∧
          (s._executeNextTask now1 now2).1.taskQueue.Perm (pre ++ post) ∧
          (∀ done, TaskSchedulerExecutor.runTask task now1 now2 = some done →
            (s._executeNextTask now1 now2).2 = false ∧
            (s._executeNextTask now1 now2).1.completedTasks = s.completedTasks ++ [done] ∧
            (done.status = "COMPLETED" ∨ done.status = "FAILED") ∧
            (s._executeNextTask now1 now2).1.taskQueue.length
                + (s._executeNextTask now1 now2).1.completedTasks.length
              = s.taskQueue.length + s.completedTasks.length) ∧
          (TaskSchedulerExecutor.runTask task now1 now2 = none →
            (s._executeNextTask now1 now2).2 = true ∧
            (s._executeNextTask now1 now2).1.completedTasks = s.completedTasks)) ∧
      (∀ (task : Task) (now1 now2 : Nat),
        TaskSchedulerExecutor.runTask task now1 now2 = none ↔
          ∃ error, task.function = .throws error ∧ error.get? "message" = none) := by
  refine ⟨by decide!, ?_, runTask_eq_none_iff⟩
  intro s now1 now2 hne
  have hhead := insertionSort_desc_head (fun t : Task => t.priority) s.taskQueue
  unfold TaskSchedulerExecutor._executeNextTask TaskSchedulerExecutor.sortQueue
  cases hs : List.insertionSort (fun a b : Task => b.priority ≤ a.priority) s.taskQueue with
  | nil =>
    rw [hs] at hhead
    exact absurd hhead hne
  | cons task rest =>
    rw [hs] at hhead
    obtain ⟨pre, post, hl, hpre, hpost, hrest⟩ := hhead
    refine ⟨task, pre, post, hl, hpre, hpost, ?_, ?_, ?_⟩
    · simp only []
      split <;> exact hrest
    · intro done hdone
      simp only [hdone]
      refine ⟨trivial, trivial, (runTask_status task done now1 now2 hdone).1, ?_⟩
      have hlen := hrest.length_eq
      simp only [List.length_append, List.length_cons, List.length_nil, hl] at hlen ⊢
      omega
    · intro hnone
      simp only [hnone]
      exact ⟨trivial, trivial⟩

/-! ## Chunks that end inside a character -/

theorem utf8Decode_ascii (bs : List Nat) (hascii : ∀ b ∈ bs, b < 128) :
    utf8Decode none bs = bs.map Char.ofNat := by
  induction bs with
  | nil => rfl
  | cons b bs ih =>
    have hb : b ≤ 0x7F := by
      have := hascii b (List.mem_cons_self b bs)
      omega
    have htail := ih (fun x hx => hascii x (List.mem_cons_of_mem b hx))
    simp only [utf8Decode, utf8Lead, hb, if_true, htail, List.map_cons, List.singleton_append]

theorem bufferToString_append_ascii (a b : List Nat) (ha : ∀ x ∈ a, x < 128)
    (hb : ∀ x ∈ b, x < 128) :
    Buffer.toString (a ++ b) = Buffer.toString a ++ Buffer.toString b := by
  have hab : ∀ x ∈ a ++ b, x < 128 := by
    intro x hx
    rcases List.mem_append.mp hx with h | h
    · exact ha x h
    · exact hb x h
  unfold Buffer.toString
  rw [utf8Decode_ascii _ hab, utf8Decode_ascii _ ha, utf8Decode_ascii _ hb, List.map_append]
  rfl

theorem foldl_onDataBuffer_eq (H : Host) (ds : List (List Nat)) (d : List Nat)
    (c : StratumClient) :
    (d :: ds).foldl (StratumClient.onDataBuffer H) c
      = c.onData H (concatChunks ((d :: ds).map Buffer.toString)) := by
  have h : ∀ (l : List (List Nat)) (c : StratumClient),
      l.foldl (StratumClient.onDataBuffer H) c
        = (l.map Buffer.toString).foldl (StratumClient.onData H) c := by
    intro l
    induction l with
    | nil => intro c; rfl
    | cons x l ih =>
      intro c
      simp only [List.foldl_cons, List.map_cons]
      rw [ih]
      rfl
  rw [h, List.map_cons, foldl_onData_eq_concat]

theorem concatChunks_toString_ascii (ds : List (List Nat))
    (hascii : ∀ d ∈ ds, ∀ b ∈ d, b < 128) :
    concatChunks (ds.map Buffer.toString) = Buffer.toString ds.flatten := by
  induction ds with
  | nil => rfl
  | cons d ds ih =>
    have hjoin : ∀ b ∈ ds.flatten, b < 128 := by
      intro b hb
      obtain ⟨l, hl, hbl⟩ := List.mem_flatten.mp hb
      exact hascii l (List.mem_cons_of_mem d hl) b hbl
    rw [List.map_cons, List.flatten_cons, concatChunks,
      ih (fun x hx => hascii x (List.mem_cons_of_mem d hx)),
      bufferToString_append_ascii d ds.flatten (hascii d (List.mem_cons_self d ds)) hjoin]

/-- C15 at a concrete input, with what holds in general.  The pool sends the
notification of the job `jobé` and its newline.  Delivered as one chunk, the line
passed to `JSON.parse` is the one sent and the job id becomes `jobé`; delivered as
two chunks of which the first ends between the bytes `C3` and `A9` of `é`, each
chunk is decoded on its own, the line passed to `JSON.parse` holds two characters
U+FFFD in place of `é`, and the job id becomes `job` followed by them.  In general
the client after the chunks is the client after the texts of the chunks, decoded
one by one and joined, and for chunks of bytes below 128 that is the client after
the whole stream as one chunk. -/
theorem chunk_boundary_inside_character_changes_line :
    (Buffer.toString accentStream = notifyLineFor accentJobId ++ "\n" ∧
      accentStream.take 51 ++ accentStream.drop 51 = accentStream ∧
      accentStream.drop 50 = 0xC3 :: 0xA9 :: accentStream.drop 52 ∧
      Buffer.toString (accentStream.take 51) ++ Buffer.toString (accentStream.drop 51)
        = notifyLineFor brokenJobId ++ "\n" ∧
      (connectedClient.onDataBuffer utf8Host accentStream).currentJob.map
          (fun j => j.jobId.strictEqStr accentJobId) = some true ∧
      ([accentStream.take 51, accentStream.drop 51].foldl
          (StratumClient.onDataBuffer utf8Host) connectedClient).currentJob.map
          (fun j => (j.jobId.strictEqStr accentJobId, j.jobId.strictEqStr brokenJobId))
        = some (false, true)) ∧
      (∀ (H : Host) (c : StratumClient) (d : List Nat) (ds : List (List Nat)),
        (d :: ds).foldl (StratumClient.onDataBuffer H) c
          = c.onData H (concatChunks ((d :: ds).map Buffer.toString))) ∧
      (∀ (H : Host) (c : StratumClient) (d : List Nat) (ds : List (List Nat)),
        (∀ x ∈ d :: ds, ∀ b ∈ x, b < 128) →
        (d :: ds).foldl (StratumClient.onDataBuffer H) c
          = c.onDataBuffer H (d :: ds).flatten) := by
  refine ⟨by decide!, fun H c d ds => foldl_onDataBuffer_eq H ds d c, ?_⟩
  intro H c d ds hascii
  rw [foldl_onDataBuffer_eq, concatChunks_toString_ascii _ hascii]
  rfl

end AriaMiner
